import Mathlib

/-!
# ukstore typed accessors and posix-process iteration

A shallow embedding of `lib/ukstore/store.c` (the typed setters and getters of
the attribute store and the static entry lookup) and of
`lib/posix-process/process.h` (the constants, the records and the iteration
macros), with a state machine for the termination and wait protocols that
`process.h` declares.

Conventions of the embedding

* C integers are mathematical integers (`Int`); a C conversion `(__t) x` is the
  function `cast_to t x`, which reduces `x` modulo the width of `t`.
* An entry callback is an external function.  A call of a setter is recorded in
  the `calls` log of the result, so that "the setter was not called" and "the
  setter was called exactly once with value v" are statements about that log.
* C strings are Lean strings; a buffer of `n` bytes holds at most `n - 1`
  characters and the terminating NUL.
-/

namespace UkStore

/-! ## Types and constants that `store.c` takes from its headers -/

/-- Modelled from the spec: the entry type tags of `uk/store.h` (not under
`src/`).  The ten tags are those the `switch (e->type)` statements of `store.c`
name through `UK_STORE_ENTRY_TYPE(...)`; `undef` stands for every other value
of `e->type`, the one the `default:` label receives. -/
inductive uk_store_entry_type where
  | u8 | s8 | u16 | s16 | u32 | s32 | u64 | s64 | uptr | charp | undef
  deriving DecidableEq, Repr

/-- Modelled from the spec: the capital type names that the case macros paste
into `__ ## ETYPE ## _MAX` and `__ ## ETYPE ## _MIN` (limits of
`uk/arch/limits.h`, not under `src/`). `UPTR` occurs once in the source, in a
macro that does not expand its `ETYPE` argument. -/
inductive capital_type where
  | S8 | U8 | S16 | U16 | S32 | U32 | S64 | U64 | PTR | UPTR
  deriving DecidableEq, Repr

/-- Modelled from the spec: `__ ## ETYPE ## _MAX` of `uk/arch/limits.h` (not
under `src/`), the two's-complement maxima (127, 255, 32767, 65535, ...), with
pointers 64 bits wide. -/
def __MAX : capital_type → Int
  | .S8 => 127
  | .U8 => 255
  | .S16 => 32767
  | .U16 => 65535
  | .S32 => 2147483647
  | .U32 => 4294967295
  | .S64 => 9223372036854775807
  | .U64 => 18446744073709551615
  | .PTR => 18446744073709551615
  | .UPTR => 18446744073709551615

/-- Modelled from the spec: `__ ## ETYPE ## _MIN` of `uk/arch/limits.h` (not
under `src/`); only the signed names are used by the source. -/
def __MIN : capital_type → Int
  | .S8 => -128
  | .S16 => -32768
  | .S32 => -2147483648
  | .S64 => -9223372036854775808
  | _ => 0

/-- Modelled from the spec: the errno constants of `errno.h` (not under
`src/`). -/
def ERANGE : Int := 34

/-- Modelled from the spec: the errno constants of `errno.h` (not under
`src/`). -/
def EINVAL : Int := 22

/-- Modelled from the spec: the errno constants of `errno.h` (not under
`src/`). -/
def EIO : Int := 5

/-- Modelled from the spec: the errno constants of `errno.h` (not under
`src/`). -/
def ENOMEM : Int := 12

/-- The C conversion `(__ ## etype) x`: reduction modulo the width of the
integer type (`__uptr` is 64 bits wide).  For the two non-integer tags there is
no such conversion and the value is returned as it is. -/
def cast_to : uk_store_entry_type → Int → Int
  | .u8, x => x % 256
  | .s8, x => (x + 128) % 256 - 128
  | .u16, x => x % 65536
  | .s16, x => (x + 32768) % 65536 - 32768
  | .u32, x => x % 4294967296
  | .s32, x => (x + 2147483648) % 4294967296 - 2147483648
  | .u64, x => x % 18446744073709551616
  | .s64, x => (x + 9223372036854775808) % 18446744073709551616 - 9223372036854775808
  | .uptr, x => x % 18446744073709551616
  | .charp, x => x
  | .undef, x => x

/-- Least value of an integer entry type. -/
def type_min : uk_store_entry_type → Int
  | .s8 => -128
  | .s16 => -32768
  | .s32 => -2147483648
  | .s64 => -9223372036854775808
  | _ => 0

/-- Greatest value of an integer entry type. -/
def type_max : uk_store_entry_type → Int
  | .u8 => 255
  | .s8 => 127
  | .u16 => 65535
  | .s16 => 32767
  | .u32 => 4294967295
  | .s32 => 2147483647
  | .u64 => 18446744073709551615
  | .s64 => 9223372036854775807
  | .uptr => 18446744073709551615
  | _ => 0

/-- The nine integer entry types. -/
def is_integer_type : uk_store_entry_type → Bool
  | .charp => false
  | .undef => false
  | _ => true

/-- The five unsigned integer entry types. -/
def is_unsigned_type : uk_store_entry_type → Bool
  | .u8 => true
  | .u16 => true
  | .u32 => true
  | .u64 => true
  | .uptr => true
  | _ => false

/-- A value `x` is representable in the integer type `t`. -/
def representable (t : uk_store_entry_type) (x : Int) : Prop :=
  type_min t ≤ x ∧ x ≤ type_max t

instance (t : uk_store_entry_type) (x : Int) : Decidable (representable t x) := by
  unfold representable
  exact inferInstance

/-- The argument an entry callback receives or produces: an integer of the
entry's type or a string. -/
inductive uk_store_value where
  | int (x : Int)
  | str (s : String)
  deriving DecidableEq, Repr

/-- What one call of an entry's getter produces: its return code and the value
it wrote through its second argument. -/
structure getter_result where
  ret : Int
  val : uk_store_value

/-- Modelled from the spec: `struct uk_store_entry` of `uk/store.h` (not under
`src/`), the fields `store.c` reads.  `ops.set` and `ops.get` are unions of
typed function pointers, so one optional callback each (`none` is `NULL`); the
cookie passed is always `NULL` and is left out. -/
structure uk_store_entry where
  name : String
  type : uk_store_entry_type
  set : Option (uk_store_value → Int)
  get : Option getter_result

/-- Result of a setter of `store.c`: the calls of the entry's setter it made,
in order, and its return value. -/
structure set_result where
  calls : List uk_store_value
  ret : Int
  deriving DecidableEq, Repr

/-- Return without calling the entry's setter. -/
def set_return (ret : Int) : set_result := ⟨[], ret⟩

/-- The statement `return (entry)->ops.set.etype(cookie, arg);`. -/
def set_call (set : uk_store_value → Int) (arg : uk_store_value) : set_result :=
  ⟨[arg], set arg⟩

/-! ## String conversion (`snprintf`) -/

def _U8_STRLEN : Nat := 3 + 1
def _S8_STRLEN : Nat := 1 + _U8_STRLEN
def _U16_STRLEN : Nat := 5 + 1
def _S16_STRLEN : Nat := 1 + _U16_STRLEN
def _U32_STRLEN : Nat := 10 + 1
def _S32_STRLEN : Nat := 1 + _U32_STRLEN
def _U64_STRLEN : Nat := 19 + 1
def _S64_STRLEN : Nat := 1 + _U64_STRLEN
def _UPTR_STRLEN : Nat := 2 + 16 + 1

/-- The complete output of the conversion `%u` (`__PRIu8` .. `__PRIu64`):
unsigned decimal without padding. -/
def render_unsigned (x : Int) : List Char := Nat.toDigits 10 x.toNat

/-- The complete output of the conversion `%d` (`__PRIs8` .. `__PRIs64`):
signed decimal without padding. -/
def render_signed (x : Int) : List Char :=
  if x < 0 then '-' :: Nat.toDigits 10 (-x).toNat else Nat.toDigits 10 x.toNat

/-- The complete output of the format `0x%lx` (`"0x%" __PRIx64`): the prefix
and lowercase hexadecimal. -/
def render_uptr (x : Int) : List Char := '0' :: 'x' :: Nat.toDigits 16 x.toNat

/-- The string `snprintf(buf, size, ...)` leaves in `buf` when the complete
output of the format is `full`: at most `size - 1` characters of it, followed
by the terminating NUL (ISO C, 7.21.6.5). -/
def snprintf (size : Nat) (full : List Char) : String := String.mk (full.take (size - 1))

/-! ## The setter case macros -/

/-- Signed input, unsigned etype. -/
def SETCASE_DOWNCASTSU (set : uk_store_value → Int) (etype : uk_store_entry_type)
    (ETYPE : capital_type) (var : Int) (eparam : uk_store_entry_type) : set_result :=
  if var < 0 ∨ var > cast_to eparam (__MAX ETYPE) then set_return (-ERANGE)
  else set_call set (.int (cast_to etype var))

/-- Unsigned input, signed etype. -/
def SETCASE_DOWNCASTUS (set : uk_store_value → Int) (etype : uk_store_entry_type)
    (ETYPE : capital_type) (var : Int) (_eparam : uk_store_entry_type) : set_result :=
  if var > __MAX ETYPE then set_return (-ERANGE)
  else set_call set (.int (cast_to etype var))

/-- Both signed. -/
def SETCASE_DOWNCASTSS (set : uk_store_value → Int) (etype : uk_store_entry_type)
    (ETYPE : capital_type) (var : Int) (_eparam : uk_store_entry_type) : set_result :=
  if var < __MIN ETYPE ∨ var > __MAX ETYPE then set_return (-ERANGE)
  else set_call set (.int (cast_to etype var))

/-- Both unsigned. -/
def SETCASE_DOWNCASTUU (set : uk_store_value → Int) (etype : uk_store_entry_type)
    (ETYPE : capital_type) (var : Int) (_eparam : uk_store_entry_type) : set_result :=
  if var > __MAX ETYPE then set_return (-ERANGE)
  else set_call set (.int (cast_to etype var))

/-- Signed input, unsigned etype. -/
def SETCASE_UPCASTSU (set : uk_store_value → Int) (etype : uk_store_entry_type)
    (_ETYPE : capital_type) (var : Int) (_eparam : uk_store_entry_type) : set_result :=
  if var < 0 then set_return (-ERANGE)
  else set_call set (.int (cast_to etype var))

/-- All other cases. -/
def SETCASE_UPCAST (set : uk_store_value → Int) (etype : uk_store_entry_type)
    (_ETYPE : capital_type) (var : Int) (_eparam : uk_store_entry_type) : set_result :=
  set_call set (.int (cast_to etype var))

/-! ## The typed setters

Each function takes the entry and the value, `val`, of the C parameter type of
its name.  The `switch (e->type)` is a `match`; a tag without a `case` label
reaches `default:`. -/

/-- The function `_uk_store_set_u8(e, val)` of `store.c`. -/
def _uk_store_set_u8 (e : uk_store_entry) (val : Int) : set_result :=
  match e.set with
  | none => set_return (- EIO)
  | some set =>
    match e.type with
    | .s8 => SETCASE_DOWNCASTUS set .s8 .S8 val .u8
    | .u8 => SETCASE_UPCAST set .u8 .U8 val .u8
    | .u16 => SETCASE_UPCAST set .u16 .U16 val .u8
    | .s16 => SETCASE_UPCAST set .s16 .S16 val .u8
    | .u32 => SETCASE_UPCAST set .u32 .U32 val .u8
    | .s32 => SETCASE_UPCAST set .s32 .S32 val .u8
    | .u64 => SETCASE_UPCAST set .u64 .U64 val .u8
    | .s64 => SETCASE_UPCAST set .s64 .S64 val .u8
    | .uptr => SETCASE_UPCAST set .uptr .PTR val .u8
    | .charp =>
      let to_set := snprintf _U8_STRLEN (render_unsigned val)
      set_call set (.str to_set)
    | _ => set_return (- EINVAL)

/-- The function `_uk_store_set_s8(e, val)` of `store.c`. -/
def _uk_store_set_s8 (e : uk_store_entry) (val : Int) : set_result :=
  match e.set with
  | none => set_return (- EIO)
  | some set =>
    match e.type with
    | .s8 => SETCASE_UPCAST set .s8 .S8 val .s8
    | .u8 => SETCASE_UPCASTSU set .u8 .U8 val .s8
    | .s16 => SETCASE_UPCAST set .s16 .S16 val .s8
    | .u16 => SETCASE_UPCASTSU set .u16 .U16 val .s8
    | .s32 => SETCASE_UPCAST set .s32 .S32 val .s8
    | .u32 => SETCASE_UPCASTSU set .u32 .U32 val .s8
    | .u64 => SETCASE_UPCAST set .u64 .U64 val .s8
    | .s64 => SETCASE_UPCASTSU set .s64 .S64 val .s8
    | .uptr => SETCASE_UPCASTSU set .uptr .PTR val .s8
    | .charp =>
      let to_set := snprintf _S8_STRLEN (render_signed val)
      set_call set (.str to_set)
    | _ => set_return (- EINVAL)

/-- The function `_uk_store_set_u16(e, val)` of `store.c`. -/
def _uk_store_set_u16 (e : uk_store_entry) (val : Int) : set_result :=
  match e.set with
  | none => set_return (- EIO)
  | some set =>
    match e.type with
    | .s8 => SETCASE_DOWNCASTUS set .s8 .S8 val .u16
    | .u8 => SETCASE_DOWNCASTUU set .u8 .U8 val .u16
    | .s16 => SETCASE_DOWNCASTUS set .s16 .S16 val .u16
    | .u16 => SETCASE_UPCAST set .u16 .U16 val .u16
    | .s32 => SETCASE_UPCAST set .s32 .S32 val .u16
    | .u32 => SETCASE_UPCAST set .u32 .U32 val .u16
    | .u64 => SETCASE_UPCAST set .u64 .S64 val .u16
    | .uptr => SETCASE_UPCAST set .uptr .PTR val .u16
    | .charp =>
      let to_set := snprintf _U16_STRLEN (render_unsigned val)
      set_call set (.str to_set)
    | _ => set_return (- EINVAL)

/-- The function `_uk_store_set_s16(e, val)` of `store.c`. -/
def _uk_store_set_s16 (e : uk_store_entry) (val : Int) : set_result :=
  match e.set with
  | none => set_return (- EIO)
  | some set =>
    match e.type with
    | .s8 => SETCASE_DOWNCASTSS set .s8 .S8 val .s16
    | .u8 => SETCASE_DOWNCASTSU set .u8 .U8 val .s16
    | .s16 => SETCASE_UPCAST set .s16 .S16 val .s16
    | .u16 => SETCASE_UPCASTSU set .u16 .U16 val .s16
    | .s32 => SETCASE_UPCAST set .s32 .S32 val .s16
    | .u32 => SETCASE_UPCASTSU set .u32 .U32 val .s16
    | .s64 => SETCASE_UPCAST set .s64 .S64 val .s16
    | .u64 => SETCASE_UPCASTSU set .u64 .U64 val .s16
    | .uptr => SETCASE_UPCASTSU set .uptr .PTR val .s16
    | .charp =>
      let to_set := snprintf _S16_STRLEN (render_signed val)
      set_call set (.str to_set)
    | _ => set_return (- EINVAL)

/-- The function `_uk_store_set_u32(e, val)` of `store.c`. -/
def _uk_store_set_u32 (e : uk_store_entry) (val : Int) : set_result :=
  match e.set with
  | none => set_return (- EIO)
  | some set =>
    match e.type with
    | .s8 => SETCASE_DOWNCASTUS set .s8 .S8 val .u32
    | .u8 => SETCASE_DOWNCASTUU set .u8 .U8 val .u32
    | .s16 => SETCASE_DOWNCASTUS set .s16 .S16 val .u32
    | .u16 => SETCASE_DOWNCASTUU set .u16 .U16 val .u32
    | .s32 => SETCASE_DOWNCASTUS set .s32 .S32 val .u32
    | .u32 => SETCASE_UPCAST set .u32 .U32 val .u32
    | .s64 => SETCASE_UPCAST set .s64 .S64 val .u32
    | .u64 => SETCASE_UPCAST set .u64 .U64 val .u32
    | .uptr => SETCASE_UPCAST set .uptr .UPTR val .u32
    | .charp =>
      let to_set := snprintf _U32_STRLEN (render_unsigned val)
      set_call set (.str to_set)
    | _ => set_return (- EINVAL)

/-- The function `_uk_store_set_s32(e, val)` of `store.c`. -/
def _uk_store_set_s32 (e : uk_store_entry) (val : Int) : set_result :=
  match e.set with
  | none => set_return (- EIO)
  | some set =>
    match e.type with
    | .s8 => SETCASE_DOWNCASTSS set .s8 .S8 val .s32
    | .u8 => SETCASE_DOWNCASTSU set .u8 .U8 val .s32
    | .s16 => SETCASE_DOWNCASTSS set .s16 .S16 val .s32
    | .u16 => SETCASE_DOWNCASTSU set .u16 .U16 val .s32
    | .s32 => SETCASE_UPCAST set .s32 .S32 val .s32
    | .u32 => SETCASE_UPCASTSU set .u32 .S32 val .s32
    | .s64 => SETCASE_UPCAST set .s64 .S64 val .s32
    | .u64 => SETCASE_UPCASTSU set .u64 .U64 val .s32
    | .uptr => SETCASE_UPCASTSU set .uptr .PTR val .s32
    | .charp =>
      let to_set := snprintf _S32_STRLEN (render_signed val)
      set_call set (.str to_set)
    | _ => set_return (- EINVAL)

/-- The function `_uk_store_set_u64(e, val)` of `store.c`. -/
def _uk_store_set_u64 (e : uk_store_entry) (val : Int) : set_result :=
  match e.set with
  | none => set_return (- EIO)
  | some set =>
    match e.type with
    | .s8 => SETCASE_DOWNCASTUS set .s8 .S8 val .u64
    | .u8 => SETCASE_DOWNCASTUU set .u8 .U8 val .u64
    | .s16 => SETCASE_DOWNCASTUS set .s16 .S16 val .u64
    | .u16 => SETCASE_DOWNCASTUU set .u16 .U16 val .u64
    | .s32 => SETCASE_DOWNCASTUS set .s32 .S32 val .u64
    | .u32 => SETCASE_DOWNCASTUU set .u32 .U32 val .u64
    | .s64 => SETCASE_DOWNCASTUS set .s64 .S64 val .u64
    | .u64 => SETCASE_UPCAST set .u64 .U64 val .u64
    | .uptr => SETCASE_UPCAST set .uptr .PTR val .u64
    | .charp =>
      let to_set := snprintf _U64_STRLEN (render_unsigned val)
      set_call set (.str to_set)
    | _ => set_return (- EINVAL)

/-- The function `_uk_store_set_s64(e, val)` of `store.c`. -/
def _uk_store_set_s64 (e : uk_store_entry) (val : Int) : set_result :=
  match e.set with
  | none => set_return (- EIO)
  | some set =>
    match e.type with
    | .s8 => SETCASE_DOWNCASTSS set .s8 .S8 val .s64
    | .u8 => SETCASE_DOWNCASTSU set .u8 .U8 val .s64
    | .s16 => SETCASE_DOWNCASTSS set .s16 .S16 val .s64
    | .u16 => SETCASE_DOWNCASTSU set .u16 .U16 val .s64
    | .s32 => SETCASE_DOWNCASTSS set .s32 .S32 val .s64
    | .u32 => SETCASE_DOWNCASTSU set .u32 .S32 val .s64
    | .s64 => SETCASE_UPCAST set .s64 .S64 val .s64
    | .u64 => SETCASE_UPCASTSU set .u64 .U64 val .s64
    | .uptr => SETCASE_UPCASTSU set .uptr .PTR val .s64
    | .charp =>
      let to_set := snprintf _S64_STRLEN (render_signed val)
      set_call set (.str to_set)
    | _ => set_return (- EINVAL)

/-- The function `_uk_store_set_uptr(e, val)` of `store.c`. -/
def _uk_store_set_uptr (e : uk_store_entry) (val : Int) : set_result :=
  match e.set with
  | none => set_return (- EIO)
  | some set =>
    match e.type with
    | .s8 => SETCASE_DOWNCASTUS set .s8 .S8 val .uptr
    | .u8 => SETCASE_DOWNCASTUU set .u8 .U8 val .uptr
    | .s16 => SETCASE_DOWNCASTUS set .s16 .S16 val .uptr
    | .u16 => SETCASE_DOWNCASTUU set .u16 .U16 val .uptr
    | .s32 => SETCASE_DOWNCASTUS set .s32 .S32 val .uptr
    | .u32 => SETCASE_DOWNCASTUU set .u32 .U32 val .uptr
    | .s64 => SETCASE_DOWNCASTUS set .s64 .S64 val .uptr
    | .u64 => SETCASE_UPCAST set .u64 .U64 val .uptr
    | .uptr => SETCASE_UPCAST set .uptr .PTR val .uptr
    | .charp =>
      let to_set := snprintf _UPTR_STRLEN (render_uptr val)
      set_call set (.str to_set)
    | _ => set_return (- EINVAL)

/-! ## String parsing (`sscanf`) -/

/-- Result of `sscanf(str, fmt, &x)` for a format with one integer conversion:
the return value (`EOF`, that is -1, or the number of items assigned) and the
number converted, when there is one. -/
structure sscanf_result where
  ret : Int
  assigned : Option Int

/-- The white-space characters of `isspace` in the C locale. -/
def isspace (c : Char) : Bool :=
  c = ' ' || c = '\t' || c = '\n' || c = '\r' || c.toNat = 11 || c.toNat = 12

/-- Value of a digit in the given base, if the character is one. -/
def digit_value (base : Nat) (c : Char) : Option Nat :=
  let d : Option Nat :=
    if '0' ≤ c ∧ c ≤ '9' then some (c.toNat - 48)
    else if 'a' ≤ c ∧ c ≤ 'z' then some (c.toNat - 87)
    else if 'A' ≤ c ∧ c ≤ 'Z' then some (c.toNat - 55)
    else none
  d.filter (fun n => n < base)

/-- The number the leading digits of the input denote, with the count of
digits read. -/
def scan_digits (base : Nat) : List Char → Nat → Nat → Nat × Nat
  | [], acc, n => (acc, n)
  | c :: cs, acc, n =>
    match digit_value base c with
    | some d => scan_digits base cs (acc * base + d) (n + 1)
    | none => (acc, n)

/-- The C library function `sscanf` on a format that is one integer conversion
(`%u`, `%d` with base 10, `%x` with base 16), as ISO C 7.21.6.2 and 7.21.6.7
describe it: white space is skipped; when the input ends before any character
of a number an input failure occurs and the result is `EOF` (-1); when the
input does not start with a number (an optional sign, for base 16 an optional
`0x`, then at least one digit) a matching failure occurs, nothing is assigned
and the result is 0; otherwise the number is converted and the result is 1. -/
def sscanf_int (base : Nat) (input : List Char) : sscanf_result :=
  match input.dropWhile isspace with
  | [] => ⟨-1, none⟩
  | c :: cs =>
    let neg := c = '-'
    let body := if c = '-' ∨ c = '+' then cs else c :: cs
    let body :=
      match body with
      | '0' :: x :: d :: rest =>
        if base = 16 ∧ (x = 'x' ∨ x = 'X') ∧ (digit_value 16 d).isSome then d :: rest else body
      | _ => body
    let r := scan_digits base body 0 0
    if r.2 = 0 then ⟨0, none⟩
    else ⟨1, some (if neg then -(r.1 : Int) else (r.1 : Int))⟩

/-- The content of the object `x` of C type `t` after `sscanf(str, fmt, &x)`:
the old content when nothing was assigned, else the number read, stored in an
object of type `t`.  (ISO C leaves the stored value undefined when the number
is not representable in `t`; the C libraries unikraft is built with store it
reduced to the width of `t`.) -/
def sscanf_store (t : uk_store_entry_type) (old : Int) (r : sscanf_result) : Int :=
  match r.assigned with
  | some x => cast_to t x
  | none => old

/-- The setters of `store.c` named in the statement about the setters but those
of `__s8`, `__u16` and `__s64`, each with the C type of its parameter `val`. -/
def six_setters : List (uk_store_entry_type × (uk_store_entry → Int → set_result)) :=
  [(.u8, _uk_store_set_u8), (.s16, _uk_store_set_s16), (.u32, _uk_store_set_u32),
   (.s32, _uk_store_set_s32), (.u64, _uk_store_set_u64), (.uptr, _uk_store_set_uptr)]

/-! ## The string setter -/

/-- The `case` of `_uk_store_set_charp` for the integer type `t`: `to_set` is
the content of the uninitialised local of that name. -/
def set_charp_case (set : uk_store_value → Int) (t : uk_store_entry_type) (base : Nat)
    (val : List Char) (to_set : Int) : set_result :=
  let r := sscanf_int base val
  let to_set := sscanf_store t to_set r
  let ret := r.ret
  if ret < 0 then set_return ret
  else set_call set (.int to_set)

/-- The function `_uk_store_set_charp(e, val)`.  The third argument is the content the
uninitialised local `to_set` has before `sscanf` is called. -/
def _uk_store_set_charp (e : uk_store_entry) (val : String) (to_set : Int) : set_result :=
  match e.set with
  | none => set_return (- EIO)
  | some set =>
    match e.type with
    | .u8 => set_charp_case set .u8 10 val.data to_set
    | .s8 => set_charp_case set .s8 10 val.data to_set
    | .u16 => set_charp_case set .u16 10 val.data to_set
    | .s16 => set_charp_case set .s16 10 val.data to_set
    | .u32 => set_charp_case set .u32 10 val.data to_set
    | .s32 => set_charp_case set .s32 10 val.data to_set
    | .u64 => set_charp_case set .u64 10 val.data to_set
    | .s64 => set_charp_case set .s64 10 val.data to_set
    | .uptr =>
      if val.data.take 2 = ['0', 'x'] then set_charp_case set .uptr 16 (val.data.drop 2) to_set
      else set_charp_case set .uptr 16 val.data to_set
    | .charp => set_call set (.str val)
    | .undef => set_return (- EINVAL)

/-! ## The getter case macros -/

/-- The integer a getter wrote (the entry is of an integer type). -/
def uk_store_value.as_int : uk_store_value → Int
  | .int x => x
  | .str _ => 0

/-- The string a getter wrote (the entry is of type `charp`). -/
def uk_store_value.as_str : uk_store_value → String
  | .int _ => ""
  | .str s => s

/-- Result of a getter of `store.c`: its return value and the content of `*out`
when it returns. -/
structure get_result (α : Type) where
  ret : Int
  out : α
  deriving DecidableEq, Repr

/-- Signed input, unsigned etype. -/
def GETCASE_DOWNCASTSU (get : getter_result) (etype : uk_store_entry_type)
    (PTYPE : capital_type) (var : Int) (eparam : uk_store_entry_type) : get_result Int :=
  let val := get.val.as_int
  let ret := get.ret
  if ret < 0 then ⟨ret, var⟩
  else if val < 0 ∨ val > cast_to etype (__MAX PTYPE) then ⟨-ERANGE, var⟩
  else ⟨ret, cast_to eparam val⟩

/-- Unsigned input, signed etype. -/
def GETCASE_DOWNCASTUS (get : getter_result) (_etype : uk_store_entry_type)
    (PTYPE : capital_type) (var : Int) (eparam : uk_store_entry_type) : get_result Int :=
  let val := get.val.as_int
  let ret := get.ret
  if ret < 0 then ⟨ret, var⟩
  else if val > __MAX PTYPE then ⟨-ERANGE, var⟩
  else ⟨ret, cast_to eparam val⟩

/-- Both signed. -/
def GETCASE_DOWNCASTSS (get : getter_result) (_etype : uk_store_entry_type)
    (PTYPE : capital_type) (var : Int) (eparam : uk_store_entry_type) : get_result Int :=
  let val := get.val.as_int
  let ret := get.ret
  if ret < 0 then ⟨ret, var⟩
  else if val < __MIN PTYPE ∨ val > __MAX PTYPE then ⟨-ERANGE, var⟩
  else ⟨ret, cast_to eparam val⟩

/-- Both unsigned. -/
def GETCASE_DOWNCASTUU (get : getter_result) (_etype : uk_store_entry_type)
    (PTYPE : capital_type) (var : Int) (eparam : uk_store_entry_type) : get_result Int :=
  let val := get.val.as_int
  let ret := get.ret
  if ret < 0 then ⟨ret, var⟩
  else if val > __MAX PTYPE then ⟨-ERANGE, var⟩
  else ⟨ret, cast_to eparam val⟩

/-- All other cases. -/
def GETCASE_UPCAST (get : getter_result) (_etype : uk_store_entry_type)
    (_PTYPE : capital_type) (var : Int) (eparam : uk_store_entry_type) : get_result Int :=
  let val := get.val.as_int
  let ret := get.ret
  if ret < 0 then ⟨ret, var⟩
  else ⟨ret, cast_to eparam val⟩

/-- Unsigned input, signed etype. -/
def GETCASE_UPCASTSU (get : getter_result) (_etype : uk_store_entry_type)
    (_PTYPE : capital_type) (var : Int) (eparam : uk_store_entry_type) : get_result Int :=
  let val := get.val.as_int
  let ret := get.ret
  if ret < 0 then ⟨ret, var⟩
  else if val < 0 then ⟨-ERANGE, var⟩
  else ⟨ret, cast_to eparam val⟩

/-- The `case UK_STORE_ENTRY_TYPE(charp)` of the integer getters: the string the
entry's getter produced is parsed into `*out`; `sscanf_ret` is an `__s16`. -/
def get_from_charp (get : getter_result) (t : uk_store_entry_type) (base : Nat)
    (out : Int) : get_result Int :=
  let val := get.val.as_str.data
  let ret := get.ret
  if ret < 0 then ⟨ret, out⟩
  else
    let r := if base = 16 ∧ val.take 2 = ['0', 'x'] then sscanf_int 16 (val.drop 2)
             else sscanf_int base val
    let sscanf_ret := cast_to .s16 r.ret
    let out := sscanf_store t out r
    if sscanf_ret < 0 then ⟨sscanf_ret, out⟩
    else ⟨ret, out⟩

/-! ## The typed getters

Each function takes the entry and the content of `*out` before the call. -/

/-- The function `_uk_store_get_u8(e, out)` of `store.c`. -/
def _uk_store_get_u8 (e : uk_store_entry) (out : Int) : get_result Int :=
  match e.get with
  | none => ⟨- EIO, out⟩
  | some get =>
    match e.type with
    | .u8 => GETCASE_UPCAST get .u8 .U8 out .u8
    | .s8 => GETCASE_UPCASTSU get .s8 .U8 out .u8
    | .u16 => GETCASE_DOWNCASTUU get .u16 .U8 out .u8
    | .s16 => GETCASE_DOWNCASTSU get .s16 .U8 out .u8
    | .u32 => GETCASE_DOWNCASTUU get .u32 .U8 out .u8
    | .s32 => GETCASE_DOWNCASTSU get .s32 .U8 out .u8
    | .u64 => GETCASE_DOWNCASTUU get .u64 .U8 out .u8
    | .s64 => GETCASE_DOWNCASTSU get .s64 .U8 out .u8
    | .uptr => GETCASE_DOWNCASTUU get .uptr .U8 out .u8
    | .charp => get_from_charp get .u8 10 out
    | _ => ⟨- EINVAL, out⟩

/-- The function `_uk_store_get_s8(e, out)` of `store.c`. -/
def _uk_store_get_s8 (e : uk_store_entry) (out : Int) : get_result Int :=
  match e.get with
  | none => ⟨- EIO, out⟩
  | some get =>
    match e.type with
    | .u8 => GETCASE_DOWNCASTUS get .u8 .S8 out .s8
    | .s8 => GETCASE_UPCAST get .s8 .S8 out .s8
    | .u16 => GETCASE_DOWNCASTUS get .u16 .S8 out .s8
    | .s16 => GETCASE_DOWNCASTSS get .s16 .S8 out .s8
    | .u32 => GETCASE_DOWNCASTUS get .u32 .S8 out .s8
    | .s32 => GETCASE_DOWNCASTSS get .s32 .S8 out .s8
    | .u64 => GETCASE_DOWNCASTUS get .u64 .S8 out .s8
    | .s64 => GETCASE_DOWNCASTSS get .s64 .S8 out .s8
    | .uptr => GETCASE_DOWNCASTUS get .uptr .S8 out .s8
    | .charp => get_from_charp get .s8 10 out
    | _ => ⟨- EINVAL, out⟩

/-- The function `_uk_store_get_u16(e, out)` of `store.c`. -/
def _uk_store_get_u16 (e : uk_store_entry) (out : Int) : get_result Int :=
  match e.get with
  | none => ⟨- EIO, out⟩
  | some get =>
    match e.type with
    | .u8 => GETCASE_UPCAST get .u8 .U16 out .u16
    | .s8 => GETCASE_UPCASTSU get .s8 .U16 out .u16
    | .u16 => GETCASE_UPCAST get .u16 .U16 out .u16
    | .s16 => GETCASE_UPCASTSU get .s16 .U16 out .u16
    | .u32 => GETCASE_DOWNCASTUU get .u32 .U16 out .u16
    | .s32 => GETCASE_DOWNCASTSU get .s32 .U16 out .u16
    | .u64 => GETCASE_DOWNCASTUU get .u64 .U16 out .u16
    | .s64 => GETCASE_DOWNCASTSU get .s64 .U16 out .u16
    | .uptr => GETCASE_DOWNCASTUU get .uptr .U16 out .u16
    | .charp => get_from_charp get .u16 10 out
    | _ => ⟨- EINVAL, out⟩

/-- The function `_uk_store_get_s16(e, out)` of `store.c`. -/
def _uk_store_get_s16 (e : uk_store_entry) (out : Int) : get_result Int :=
  match e.get with
  | none => ⟨- EIO, out⟩
  | some get =>
    match e.type with
    | .u8 => GETCASE_UPCAST get .u8 .S16 out .s16
    | .s8 => GETCASE_UPCAST get .s8 .S16 out .s16
    | .u16 => GETCASE_DOWNCASTUS get .u16 .S16 out .s16
    | .s16 => GETCASE_UPCAST get .s16 .S16 out .s16
    | .u32 => GETCASE_DOWNCASTUS get .u32 .S16 out .s16
    | .s32 => GETCASE_DOWNCASTSS get .s32 .S16 out .s16
    | .u64 => GETCASE_DOWNCASTUS get .u64 .S16 out .s16
    | .s64 => GETCASE_DOWNCASTSS get .s64 .S16 out .s16
    | .uptr => GETCASE_DOWNCASTUS get .uptr .S16 out .s16
    | .charp => get_from_charp get .s16 10 out
    | _ => ⟨- EINVAL, out⟩

/-- The function `_uk_store_get_u32(e, out)` of `store.c`. -/
def _uk_store_get_u32 (e : uk_store_entry) (out : Int) : get_result Int :=
  match e.get with
  | none => ⟨- EIO, out⟩
  | some get =>
    match e.type with
    | .u8 => GETCASE_UPCAST get .u8 .U32 out .u32
    | .s8 => GETCASE_UPCASTSU get .s8 .U32 out .u32
    | .u16 => GETCASE_UPCAST get .u16 .U32 out .u32
    | .s16 => GETCASE_UPCASTSU get .s16 .U32 out .u32
    | .u32 => GETCASE_UPCAST get .u32 .U32 out .u32
    | .s32 => GETCASE_UPCASTSU get .s32 .U32 out .u32
    | .u64 => GETCASE_DOWNCASTUU get .u64 .U32 out .u32
    | .s64 => GETCASE_DOWNCASTSU get .s64 .U32 out .u32
    | .uptr => GETCASE_DOWNCASTUU get .uptr .U32 out .u32
    | .charp => get_from_charp get .u32 10 out
    | _ => ⟨- EINVAL, out⟩

/-- The function `_uk_store_get_s32(e, out)` of `store.c`. -/
def _uk_store_get_s32 (e : uk_store_entry) (out : Int) : get_result Int :=
  match e.get with
  | none => ⟨- EIO, out⟩
  | some get =>
    match e.type with
    | .u8 => GETCASE_UPCAST get .u8 .S32 out .s32
    | .s8 => GETCASE_UPCAST get .s8 .S32 out .s32
    | .u16 => GETCASE_UPCAST get .u16 .S32 out .s32
    | .s16 => GETCASE_UPCAST get .s16 .S32 out .s32
    | .u32 => GETCASE_DOWNCASTUS get .u32 .S32 out .s32
    | .s32 => GETCASE_UPCAST get .s32 .S32 out .s32
    | .u64 => GETCASE_DOWNCASTUS get .u64 .S32 out .s32
    | .s64 => GETCASE_DOWNCASTSS get .s64 .S32 out .s32
    | .uptr => GETCASE_DOWNCASTUS get .uptr .S32 out .s32
    | .charp => get_from_charp get .s32 10 out
    | _ => ⟨- EINVAL, out⟩

/-- The function `_uk_store_get_u64(e, out)` of `store.c`. -/
def _uk_store_get_u64 (e : uk_store_entry) (out : Int) : get_result Int :=
  match e.get with
  | none => ⟨- EIO, out⟩
  | some get =>
    match e.type with
    | .u8 => GETCASE_UPCAST get .u8 .U64 out .u64
    | .s8 => GETCASE_UPCASTSU get .s8 .U64 out .u64
    | .u16 => GETCASE_UPCAST get .u16 .U64 out .u64
    | .s16 => GETCASE_UPCASTSU get .s16 .U64 out .u64
    | .u32 => GETCASE_UPCAST get .u32 .U64 out .u64
    | .s32 => GETCASE_UPCASTSU get .s32 .U64 out .u64
    | .u64 => GETCASE_UPCAST get .u64 .U64 out .u64
    | .s64 => GETCASE_UPCASTSU get .s64 .U64 out .u64
    | .uptr => GETCASE_UPCAST get .uptr .U64 out .u64
    | .charp => get_from_charp get .u64 10 out
    | _ => ⟨- EINVAL, out⟩

/-- The function `_uk_store_get_s64(e, out)` of `store.c`. -/
def _uk_store_get_s64 (e : uk_store_entry) (out : Int) : get_result Int :=
  match e.get with
  | none => ⟨- EIO, out⟩
  | some get =>
    match e.type with
    | .u8 => GETCASE_UPCAST get .u8 .S64 out .s64
    | .s8 => GETCASE_UPCAST get .s8 .S64 out .s64
    | .u16 => GETCASE_UPCAST get .u16 .S64 out .s64
    | .s16 => GETCASE_UPCAST get .s16 .S64 out .s64
    | .u32 => GETCASE_UPCAST get .u32 .S64 out .s64
    | .s32 => GETCASE_UPCAST get .s32 .S64 out .s64
    | .u64 => GETCASE_DOWNCASTUS get .u64 .S64 out .s64
    | .s64 => GETCASE_UPCAST get .s64 .S64 out .s64
    | .uptr => GETCASE_DOWNCASTUS get .uptr .S64 out .s64
    | .charp => get_from_charp get .s64 10 out
    | _ => ⟨- EINVAL, out⟩

/-- The function `_uk_store_get_uptr(e, out)` of `store.c`. -/
def _uk_store_get_uptr (e : uk_store_entry) (out : Int) : get_result Int :=
  match e.get with
  | none => ⟨- EIO, out⟩
  | some get =>
    match e.type with
    | .u8 => GETCASE_UPCAST get .u8 .PTR out .uptr
    | .s8 => GETCASE_UPCASTSU get .s8 .PTR out .uptr
    | .u16 => GETCASE_UPCAST get .u16 .PTR out .uptr
    | .s16 => GETCASE_UPCASTSU get .s16 .PTR out .uptr
    | .u32 => GETCASE_UPCAST get .u32 .PTR out .uptr
    | .s32 => GETCASE_UPCASTSU get .s32 .PTR out .uptr
    | .u64 => GETCASE_UPCAST get .u64 .PTR out .uptr
    | .s64 => GETCASE_UPCASTSU get .s64 .PTR out .uptr
    | .uptr => GETCASE_UPCAST get .uptr .PTR out .uptr
    | .charp => get_from_charp get .uptr 16 out
    | _ => ⟨- EINVAL, out⟩

/-- The nine integer getters of `store.c`, each with the C type of `*out`. -/
def nine_getters : List (uk_store_entry_type × (uk_store_entry → Int → get_result Int)) :=
  [(.u8, _uk_store_get_u8), (.s8, _uk_store_get_s8), (.u16, _uk_store_get_u16),
   (.s16, _uk_store_get_s16), (.u32, _uk_store_get_u32), (.s32, _uk_store_get_s32),
   (.u64, _uk_store_get_u64), (.s64, _uk_store_get_s64), (.uptr, _uk_store_get_uptr)]

/-! ## The string getter -/

/-- A `case` of `_uk_store_get_charp` for an integer type: `calloc`, the call
of the entry's getter, `snprintf` into the new buffer of `size` bytes.
`calloc_ok` says whether `calloc` returned a buffer. -/
def get_charp_case (get : getter_result) (size : Nat) (render : Int → List Char)
    (out : Option String) (calloc_ok : Bool) : get_result (Option String) :=
  if !calloc_ok then ⟨-ENOMEM, out⟩
  else
    let val := get.val.as_int
    let ret := get.ret
    if ret < 0 then ⟨ret, out⟩
    else
      let str := snprintf size (render val)
      ⟨ret, some str⟩

/-- The function `_uk_store_get_charp(e, out)`; `out` is the string `*out` points to before
the call, if any. -/
def _uk_store_get_charp (e : uk_store_entry) (out : Option String) (calloc_ok : Bool) :
    get_result (Option String) :=
  match e.get with
  | none => ⟨- EIO, out⟩
  | some get =>
    match e.type with
    | .u8 => get_charp_case get _U8_STRLEN render_unsigned out calloc_ok
    | .s8 => get_charp_case get _S8_STRLEN render_signed out calloc_ok
    | .u16 => get_charp_case get _U16_STRLEN render_unsigned out calloc_ok
    | .s16 => get_charp_case get _S16_STRLEN render_signed out calloc_ok
    | .u32 => get_charp_case get _U32_STRLEN render_unsigned out calloc_ok
    | .s32 => get_charp_case get _S32_STRLEN render_signed out calloc_ok
    | .u64 => get_charp_case get _U64_STRLEN render_unsigned out calloc_ok
    | .s64 => get_charp_case get _S64_STRLEN render_signed out calloc_ok
    | .uptr => get_charp_case get _UPTR_STRLEN render_uptr out calloc_ok
    | .charp =>
      let val := get.val.as_str
      let ret := get.ret
      if ret < 0 then ⟨ret, out⟩
      else ⟨ret, some val⟩
    | .undef => ⟨- EINVAL, out⟩

/-! ## Static entries -/

/-- The loop `for (; entry != stop; ++entry) if (!strcmp(entry->name, e_name))
return entry;` followed by `return NULL;`.  A pointer to an entry is its
position in the entry section `mem`; the result is `none` when the fuel runs
out, `some none` for `NULL` and `some (some p)` for the entry at `p`. -/
def get_static_entry_loop (mem : Nat → uk_store_entry) (e_name : String) (stop : Nat) :
    Nat → Nat → Option (Option Nat)
  | 0, _ => none
  | fuel + 1, entry =>
    if entry ≠ stop then
      if (mem entry).name = e_name then some (some entry)
      else get_static_entry_loop mem e_name stop fuel (entry + 1)
    else some none

/-- The function `_uk_store_get_static_entry(libid, e_name)`.  The table `static_entries`
of `uk/bits/store_array.h` (generated, not under `src/`) is a parameter: it
holds for library `libid` the start of its entries at `2 * libid` and their end
at `2 * libid + 1`. -/
def _uk_store_get_static_entry (static_entries : Nat → Nat) (mem : Nat → uk_store_entry)
    (fuel : Nat) (libid : Nat) (e_name : String) : Option (Option Nat) :=
  let entry := static_entries (2 * libid)
  let stop := static_entries (2 * libid + 1)
  get_static_entry_loop mem e_name stop fuel entry

/-! ## The string getter into a buffer of the caller -/

/-- The terminating character of a C string. -/
def NUL : Char := Char.ofNat 0

/-- The buffer after `bytes` were written from its start: a buffer is the list
of its bytes, and what lies behind the bytes written stays. -/
def write_buffer (buf bytes : List Char) : List Char :=
  bytes ++ buf.drop bytes.length

/-- The buffer after `snprintf(buf, size, ...)` when the complete output of the
format is `full`: with `size` 0 nothing is written, else at most `size - 1`
characters of the output and the terminating NUL (ISO C, 7.21.6.5). -/
def snprintf_buffer (buf : List Char) (size : Nat) (full : List Char) : List Char :=
  if size = 0 then buf else write_buffer buf (full.take (size - 1) ++ [NUL])

/-- The buffer after `strncpy(dest, src, n)`: exactly `n` bytes are written,
the first `n` characters of `src` and, when `src` is shorter than `n`, NUL up to
`n` bytes; when `src` has `n` characters or more no NUL is written (ISO C,
7.24.2.4). -/
def strncpy (dest src : List Char) (n : Nat) : List Char :=
  write_buffer dest (src.take n ++ List.replicate (n - src.length) NUL)

/-- A `case` of `uk_store_get_ncharp` for an integer type: the call of the
entry's getter and `snprintf` into the buffer `out` of the caller. -/
def get_ncharp_case (get : getter_result) (render : Int → List Char)
    (out : List Char) (maxlen : Nat) : get_result (List Char) :=
  let val := get.val.as_int
  let ret := get.ret
  if ret < 0 then ⟨ret, out⟩
  else ⟨ret, snprintf_buffer out maxlen (render val)⟩

/-- The function `uk_store_get_ncharp(e, out, maxlen)`; `out` is the content of
the buffer of the caller before the call. -/
def uk_store_get_ncharp (e : uk_store_entry) (out : List Char) (maxlen : Nat) :
    get_result (List Char) :=
  match e.get with
  | none => ⟨- EIO, out⟩
  | some get =>
    match e.type with
    | .u8 => get_ncharp_case get render_unsigned out maxlen
    | .s8 => get_ncharp_case get render_signed out maxlen
    | .u16 => get_ncharp_case get render_unsigned out maxlen
    | .s16 => get_ncharp_case get render_signed out maxlen
    | .u32 => get_ncharp_case get render_unsigned out maxlen
    | .s32 => get_ncharp_case get render_signed out maxlen
    | .u64 => get_ncharp_case get render_unsigned out maxlen
    | .s64 => get_ncharp_case get render_signed out maxlen
    | .uptr => get_ncharp_case get render_uptr out maxlen
    | .charp =>
      let val := get.val.as_str
      let ret := get.ret
      if ret < 0 then ⟨ret, out⟩
      else ⟨ret, strncpy out val.data maxlen⟩
    | .undef => ⟨- EINVAL, out⟩

/-- The buffer holds a C string that ends within its first `maxlen` bytes: one
of these bytes is NUL. -/
def terminated_within (buf : List Char) (maxlen : Nat) : Prop :=
  NUL ∈ buf.take maxlen

/-- The C string that a buffer holds: its bytes before the first NUL. -/
def c_string (buf : List Char) : List Char :=
  buf.takeWhile (fun c => c ≠ NUL)

/-! ## Releasing an entry -/

/-- Modelled from the spec: the fields of `struct uk_store_entry` (`uk/store.h`,
not under `src/`) that the release of an entry is about: whether the entry is
static (`UK_STORE_ENTRY_ISSTATIC`), its reference count, whether it is in its
list and whether its memory was freed. -/
structure entry_object where
  is_static : Bool
  refcount : Nat
  in_list : Bool
  freed : Bool
  deriving DecidableEq, Repr

/-- The function `_uk_store_release_entry(p_entry)`: the statement
`if (UK_STORE_ENTRY_ISSTATIC(p_entry)) return;` and then the end of the body.
The result is the entry after the call. -/
def _uk_store_release_entry (p_entry : entry_object) : entry_object :=
  if p_entry.is_static then p_entry
  else p_entry

/-! ## A setter and a getter on one cell -/

/-- An entry of type `t` over a cell: the setter stores its argument in the
cell and returns 0, the getter reads the cell and returns 0.  The entry is
given with the content of the cell. -/
def cell_entry (t : uk_store_entry_type) (cell : Int) : uk_store_entry :=
  ⟨"cell", t, some (fun _ => 0), some ⟨0, .int cell⟩⟩

/-- The content of the cell after the calls of the setter that a setter of
`store.c` made. -/
def cell_after (cell : Int) (r : set_result) : Int :=
  r.calls.foldl (fun c arg =>
    match arg with
    | .int x => x
    | .str _ => c) cell

/-- The round trip: the value `v` is set through `set_I` on an entry of type
`t` over a cell and then read through `get_I`; the result is the return value
of the setter and what the getter leaves. -/
def round_trip (set_I : uk_store_entry → Int → set_result)
    (get_I : uk_store_entry → Int → get_result Int) (t : uk_store_entry_type)
    (cell v out : Int) : Int × get_result Int :=
  let r := set_I (cell_entry t cell) v
  (r.ret, get_I (cell_entry t (cell_after cell r)) out)

/-- The nine integer types of `store.c`, each with its setter and its
getter. -/
def nine_accessors : List (uk_store_entry_type ×
    (uk_store_entry → Int → set_result) × (uk_store_entry → Int → get_result Int)) :=
  [(.u8, _uk_store_set_u8, _uk_store_get_u8), (.s8, _uk_store_set_s8, _uk_store_get_s8),
   (.u16, _uk_store_set_u16, _uk_store_get_u16), (.s16, _uk_store_set_s16, _uk_store_get_s16),
   (.u32, _uk_store_set_u32, _uk_store_get_u32), (.s32, _uk_store_set_s32, _uk_store_get_s32),
   (.u64, _uk_store_set_u64, _uk_store_get_u64), (.s64, _uk_store_set_s64, _uk_store_get_s64),
   (.uptr, _uk_store_set_uptr, _uk_store_get_uptr)]

end UkStore

namespace PosixProcess

/-! ## `process.h`: the identifier table and its iteration macros -/

def UK_PID_INIT : Int := 1

def UK_PID_WAIT_ANY : Int := -1

/-- The macro `TIDMAP_SIZE`; the configuration constant `CONFIG_LIBPOSIX_PROCESS_MAX_PID`
is a parameter. -/
def TIDMAP_SIZE (CONFIG_LIBPOSIX_PROCESS_MAX_PID : Nat) : Nat :=
  CONFIG_LIBPOSIX_PROCESS_MAX_PID + 1

/-- State of an iteration: the state `st` that the loop body acts on and the
log of the runs of the body, each with the index `_i` and the pointer `_p` it
ran with, oldest first. -/
structure foreach_state (σ : Type) where
  st : σ
  visited : List (Nat × Nat)

/-- One run of the loop body with `_p = p` at index `i`.  The body is a
function of its state and `p`; the boolean it returns says that it executed
`break`. -/
def run_body {σ : Type} (body : σ → Nat → σ × Bool) (i p : Nat) (s : foreach_state σ) :
    foreach_state σ × Bool :=
  (⟨(body s.st p).1, s.visited ++ [(i, p)]⟩, (body s.st p).2)

/-- The inner loop `for (_p = pid_process[_i]; _j; _j = !_j) if (_p) BODY`,
entered with `_p` already assigned.  A pointer is an address, `none` is `NULL`.
The result is the value of `_j` and the state when the loop is left, `none`
when the fuel runs out. -/
def foreach_inner {σ : Type} (body : σ → Nat → σ × Bool) (i : Nat) (_p : Option Nat) :
    Nat → Bool → foreach_state σ → Option (Bool × foreach_state σ)
  | 0, _, _ => none
  | fuel + 1, _j, s =>
    if _j then
      match _p with
      | some p =>
        let r := run_body body i p s
        if r.2 then some (_j, r.1)
        else foreach_inner body i _p fuel (!_j) r.1
      | none => foreach_inner body i _p fuel (!_j) s
    else some (_j, s)

/-- The outer loop `for (int _j = 1, _i = 0; _i != ARRAY_SIZE(pid_process);
_j = !_j, _i++)` around the inner one, from the values `_i`, `_j`. -/
def foreach_outer {σ : Type} (pid_process : List (Option Nat)) (body : σ → Nat → σ × Bool) :
    Nat → Nat → Bool → foreach_state σ → Option (foreach_state σ)
  | 0, _, _, _ => none
  | fuel + 1, _i, _j, s =>
    if _i ≠ pid_process.length then
      match foreach_inner body _i (pid_process.getD _i none) fuel _j s with
      | none => none
      | some (_j, s) => foreach_outer pid_process body fuel (_i + 1) (!_j) s
    else some s

/-- The statement `uk_process_foreach(_p) BODY` on the table `pid_process`, started in state
`st`. -/
def uk_process_foreach {σ : Type} (pid_process : List (Option Nat)) (body : σ → Nat → σ × Bool)
    (fuel : Nat) (st : σ) : Option (foreach_state σ) :=
  foreach_outer pid_process body fuel 0 true ⟨st, []⟩

/-- The live entries among the `n` slots of the table from index `i` on: each
index whose slot is not `NULL`, with the pointer in the slot, in index order. -/
def live_entries (pid_process : List (Option Nat)) (i n : Nat) : List (Nat × Nat) :=
  (List.range' i n).filterMap (fun k => (pid_process.getD k none).map (fun p => (k, p)))

/-- The state after running a body that does not break once for each visit of
a list, in order. -/
def run_visits {σ : Type} (body : σ → Nat → σ × Bool) (st : σ) (l : List (Nat × Nat)) : σ :=
  l.foldl (fun st ip => (body st ip.2).1) st

/-! ## `process.h`: the records -/

/-- The states of a thread, `enum posix_thread_state`. -/
inductive posix_thread_state where
  | POSIX_THREAD_RUNNING
  | POSIX_THREAD_BLOCKED_VFORK
  | POSIX_THREAD_BLOCKED_WAIT
  | POSIX_THREAD_BLOCKED_SIGNAL
  | POSIX_THREAD_EXITED
  | POSIX_THREAD_KILLED
  deriving DecidableEq, Repr

/-- The fields of `struct posix_thread` that the embedding uses.  An identifier
is a natural number (an index of the table); a pointer to a process record is
the address of the record. -/
structure posix_thread where
  tid : Nat
  process : Nat
  state : posix_thread_state
  wait_pid : Int
  deriving DecidableEq, Repr

/-- The fields of `struct posix_process` that the embedding uses: `parent` is a
pointer (`none` is `NULL`), `children` the pointers linked in the list of child
processes and `threads` the records linked in the list of threads.  The two
semaphores belong to `uk/semaphore.h`; operations on them are events. -/
structure posix_process where
  pid : Nat
  parent : Option Nat
  children : List Nat
  threads : List posix_thread
  terminated : Bool
  exit_status : Int
  deriving DecidableEq, Repr

/-! ## `process.h`: iteration over the children of a process -/

/-- The body that `uk_process_foreach_child(_pparent, _p) BODY` gives to
`uk_process_foreach`: the statement `if ((_p)->parent == (_pparent)) BODY`.
The record at address `p` is `mem p`.  The state is that of `BODY` with the log
of the pointers `BODY` ran with, oldest first. -/
def foreach_child_body {σ : Type} (mem : Nat → posix_process) (_pparent : Option Nat)
    (body : σ → Nat → σ × Bool) : σ × List Nat → Nat → (σ × List Nat) × Bool :=
  fun s _p =>
    if (mem _p).parent = _pparent then (((body s.1 _p).1, s.2 ++ [_p]), (body s.1 _p).2)
    else (s, false)

/-- The statement `uk_process_foreach_child(_pparent, _p) BODY`, started in
state `st`. -/
def uk_process_foreach_child {σ : Type} (pid_process : List (Option Nat))
    (mem : Nat → posix_process) (_pparent : Option Nat) (body : σ → Nat → σ × Bool)
    (fuel : Nat) (st : σ) : Option (foreach_state (σ × List Nat)) :=
  uk_process_foreach pid_process (foreach_child_body mem _pparent body) fuel (st, [])

/-- An identifier (a `pid_t`) is a valid index of a table of `TIDMAP_SIZE`
slots. -/
def valid_identifier (CONFIG_LIBPOSIX_PROCESS_MAX_PID : Nat) (id : Int) : Prop :=
  0 ≤ id ∧ id < (TIDMAP_SIZE CONFIG_LIBPOSIX_PROCESS_MAX_PID : Int)

/-! ## The termination and wait protocols

`process.h` declares `pprocess_exit` and the lookups and names
`uk_posix_process_wait`; their bodies are not in the source files at hand.  The
definitions of this section follow the description of the protocols. -/

/-- Modelled from the spec: the errors of the error taxonomy (section 7). -/
inductive process_error where
  | NotFound
  | NotAChild
  | ResourceExhausted
  | InvalidState
  deriving DecidableEq, Repr

/-- Modelled from the spec: the calls to the collaborators outside the core
(section 6 and step 5 of the termination protocol): the child-state-change
notification delivered to a process, the release of the wait primitive of a
process for one of its blocked threads, and the release of the reap primitive
of a reaped process. -/
inductive process_event where
  | notify_parent (pid : Nat)
  | release_wait (pid : Nat) (tid : Nat)
  | release_exit (pid : Nat)
  deriving DecidableEq, Repr

/-- Modelled from the spec: the state of the core.  `pid_process` is the
identifier table, from an identifier (of a process or of a thread) to the
process record that owns it; `records` holds the process records by address,
`none` where no record is allocated; `events` are the calls made to the
collaborators, oldest first. -/
structure system_state where
  pid_process : Nat → Option Nat
  records : Nat → Option posix_process
  events : List process_event

/-- Modelled from the spec: `lookup_process(id)`, declared as `pid2pprocess`; a
miss is `none` (NotFound). -/
def pid2pprocess (st : system_state) (pid : Nat) : Option posix_process :=
  (st.pid_process pid).bind st.records

/-- Modelled from the spec: the process record that owns a thread identifier,
declared as `tid2pprocess`; the namespace of identifiers is shared. -/
def tid2pprocess (st : system_state) (tid : Nat) : Option posix_process :=
  (st.pid_process tid).bind st.records

/-- Modelled from the spec: `lookup_thread(id)`, declared as `tid2pthread`:
the owning process record is located and its thread set is walked. -/
def tid2pthread (st : system_state) (tid : Nat) : Option posix_thread :=
  (tid2pprocess st tid).bind (fun proc => proc.threads.find? (fun th => th.tid = tid))

/-- Writing the record at an address. -/
def set_record (st : system_state) (p : Nat) (r : posix_process) : system_state :=
  ⟨st.pid_process, fun q => if q = p then some r else st.records q, st.events⟩

/-- Changing the record at an address, if there is one. -/
def modify_record (st : system_state) (p : Nat) (f : posix_process → posix_process) :
    system_state :=
  match st.records p with
  | some r => set_record st p (f r)
  | none => st

/-- The address of the record of the init process: records are kept by
identifier, and the init process has the identifier `UK_PID_INIT`. -/
def init_process : Nat := UK_PID_INIT.toNat

/-- Modelled from the spec: steps 1 and 2 of the termination protocol on the
thread set of the process: the thread that terminates takes the new state,
every other thread is forced to `Killed`. -/
def exit_threads (tid : Nat) (state : posix_thread_state) (threads : List posix_thread) :
    List posix_thread :=
  threads.map (fun th =>
    if th.tid = tid then ⟨th.tid, th.process, state, th.wait_pid⟩
    else ⟨th.tid, th.process, .POSIX_THREAD_KILLED, th.wait_pid⟩)

/-- Modelled from the spec: step 4 of the termination protocol for one child:
the parent of the child becomes the init process and the child moves from the
children set of the terminated process into that of the init process.  A set
is a list without regard to order; insertion does not repeat a member. -/
def reparent_child (st : system_state) (p : Nat) (c : Nat) : system_state :=
  let st := modify_record st c (fun r =>
    ⟨r.pid, some init_process, r.children, r.threads, r.terminated, r.exit_status⟩)
  let st := modify_record st p (fun r =>
    ⟨r.pid, r.parent, r.children.erase c, r.threads, r.terminated, r.exit_status⟩)
  modify_record st init_process (fun r =>
    ⟨r.pid, r.parent, List.insert c r.children, r.threads, r.terminated, r.exit_status⟩)

/-- Modelled from the spec: step 4 of the termination protocol, for every child
of the terminated process. -/
def reparent_children (st : system_state) (p : Nat) (children : List Nat) : system_state :=
  children.foldl (fun st c => reparent_child st p c) st

/-- Modelled from the spec: a thread is blocked in a wait whose target matches
the process `pid`: the target is that identifier or "any child". -/
def blocked_on (pid : Nat) (th : posix_thread) : Bool :=
  decide (th.state = .POSIX_THREAD_BLOCKED_WAIT) &&
    (decide (th.wait_pid = (pid : Int)) || decide (th.wait_pid = UK_PID_WAIT_ANY))

/-- Modelled from the spec: step 5 of the termination protocol: the
notification to the parent and the release of the wait primitive of the parent
for each of its threads blocked on a matching target. -/
def notify_parent (st : system_state) (pid : Nat) (parent : Option Nat) : system_state :=
  match parent with
  | none => st
  | some par =>
    let waiters :=
      match st.records par with
      | some r => (r.threads.filter (blocked_on pid)).map (fun th =>
          process_event.release_wait par th.tid)
      | none => []
    ⟨st.pid_process, st.records, st.events ++ [process_event.notify_parent par] ++ waiters⟩

/-- The return types of the functions that `process.h` declares. -/
inductive c_return_type where
  | void
  | pid_t
  | pointer
  deriving DecidableEq, Repr

/-- The return type of `pprocess_exit` in its declaration in `process.h`,
`void pprocess_exit(struct uk_thread *thread, enum posix_thread_state state,
int exit_status);`. -/
def pprocess_exit_return_type : c_return_type := .void

/-- The value that the caller of a function gets when the function is to
return `v`: with the return type `void` the caller gets no value. -/
def handed_back (t : c_return_type) (v : Int) : Option Int :=
  match t with
  | .void => none
  | _ => some v

/-- Modelled from the spec: what a call of `pprocess_exit` leaves: the state,
whether the caller stays blocked on the reap primitive of the process (the
call does not return), and the value handed back to the caller, which depends
on the return type in the declaration of the function. -/
structure exit_outcome where
  st : system_state
  blocks : Bool
  value : Option Int

/-- Modelled from the spec: the termination protocol `terminate(thread,
new_state, exit_status)` (section 4.2), declared in `process.h` as
`void pprocess_exit(struct uk_thread *thread, enum posix_thread_state state,
int exit_status)`; the body is not in the source files at hand.  `current` is
the identifier of the calling thread, `tid` that of the thread passed in.
A state other than `Exited` and `Killed`, and a process that has terminated
already, are refused (InvalidState); a thread that is not a live thread record
is not found.  Steps 1 to 5 follow in order; the record stays in the table
(step 6).  The caller blocks exactly when it passed in itself.  The comment of
the declaration has the function return the exit status; what the caller gets
of it follows from the declared return type. -/
def pprocess_exit (st : system_state) (current tid : Nat) (state : posix_thread_state)
    (exit_status : Int) : Except process_error exit_outcome :=
  if state ≠ .POSIX_THREAD_EXITED ∧ state ≠ .POSIX_THREAD_KILLED then
    .error .InvalidState
  else
    match st.pid_process tid with
    | none => .error .NotFound
    | some p =>
      match st.records p with
      | none => .error .NotFound
      | some proc =>
        if ¬ (∃ th ∈ proc.threads, th.tid = tid) then .error .NotFound
        else if proc.terminated then .error .InvalidState
        else
          let st := set_record st p
            ⟨proc.pid, proc.parent, proc.children, exit_threads tid state proc.threads,
              true, exit_status⟩
          let st := reparent_children st p proc.children
          let st := notify_parent st proc.pid proc.parent
          .ok ⟨st, decide (tid = current), handed_back pprocess_exit_return_type exit_status⟩

/-- Modelled from the spec: what a call of the wait protocol leaves when it
does not fail: the caller is blocked on the wait primitive of its process, or a
child was reaped and its identifier and exit status are returned. -/
inductive wait_outcome where
  | blocked (st : system_state)
  | reaped (pid : Nat) (exit_status : Int) (st : system_state)

/-- Modelled from the spec: the thread `tid` gets the state and the wait
target given (the wait target of a thread is valid while it is blocked in a
wait). -/
def set_thread (tid : Nat) (state : posix_thread_state) (wait_pid : Int)
    (threads : List posix_thread) : List posix_thread :=
  threads.map (fun th => if th.tid = tid then ⟨th.tid, th.process, state, wait_pid⟩ else th)

/-- Modelled from the spec: the calling thread blocks on the wait primitive of
its process, waiting for `target`. -/
def block_caller (st : system_state) (parent caller : Nat) (target : Int) : system_state :=
  modify_record st parent (fun r =>
    ⟨r.pid, r.parent, r.children,
      set_thread caller .POSIX_THREAD_BLOCKED_WAIT target r.threads, r.terminated,
      r.exit_status⟩)

/-- Modelled from the spec: the reaping of the terminated child at address `c`
with record `child` (section 4.3, "On match"): the identifier and exit status
are captured, the child leaves the children set of the parent, its identifier
leaves the table (with the identifiers of its thread records, released with
it), its reap primitive is released and the record is destroyed.  The calling
thread runs again. -/
def reap (st : system_state) (parent caller : Nat) (c : Nat) (child : posix_process) :
    wait_outcome :=
  let st := modify_record st parent (fun r =>
    ⟨r.pid, r.parent, r.children.erase c,
      r.threads.map (fun th =>
        if th.tid = caller then ⟨th.tid, th.process, .POSIX_THREAD_RUNNING, th.wait_pid⟩
        else th),
      r.terminated, r.exit_status⟩)
  .reaped child.pid child.exit_status
    ⟨fun i => if st.pid_process i = some c then none else st.pid_process i,
      fun q => if q = c then none else st.records q,
      st.events ++ [process_event.release_exit c]⟩

/-- Modelled from the spec: the record at an address is that of a terminated
process. -/
def is_zombie (st : system_state) (c : Nat) : Bool :=
  match st.records c with
  | some r => r.terminated
  | none => false

/-- Modelled from the spec: the wait protocol `wait(parent, target)` (section
4.3), named `uk_posix_process_wait` in `process.h`; the body is not in the
source files at hand.  `parent` is the address of the process of the calling
thread `caller`.  A target that names an identifier is refused with NotAChild
when the identifier does not exist or belongs elsewhere: it is in no slot of
the table, or not the identifier of a process whose parent is `parent`.  A
matching terminated child is reaped; the target "any child" matches every
member of the children set of the parent.  Without such a child the caller
blocks; a caller that is woken calls again. -/
def uk_posix_process_wait (st : system_state) (parent caller : Nat) (target : Int) :
    Except process_error wait_outcome :=
  match st.records parent with
  | none => .error .NotFound
  | some par =>
    if target = UK_PID_WAIT_ANY then
      match par.children.find? (is_zombie st) with
      | some c =>
        match st.records c with
        | some child => .ok (reap st parent caller c child)
        | none => .error .NotFound
      | none => .ok (.blocked (block_caller st parent caller target))
    else if target < 0 then .error .NotAChild
    else
      match st.pid_process target.toNat with
      | none => .error .NotAChild
      | some c =>
        match st.records c with
        | none => .error .NotAChild
        | some child =>
          if child.pid ≠ target.toNat ∨ child.parent ≠ some parent then .error .NotAChild
          else if child.terminated then .ok (reap st parent caller c child)
          else .ok (.blocked (block_caller st parent caller target))

/-- Modelled from the spec: the spawning of a process, an operation outside
the core (section 6) that the core takes records from.  The allocation policy
is not specified: the identifier chosen is an argument, and a choice beyond the
bound or of a slot in use is refused (ResourceExhausted).  The record is kept
at the address equal to its identifier; its main thread has the identifier of
the process; the new process joins the children set of its parent. -/
def spawn_process (MAX_PID : Nat) (st : system_state) (parent id : Nat) :
    Except process_error system_state :=
  if MAX_PID < id ∨ st.pid_process id ≠ none then .error .ResourceExhausted
  else
    match st.records parent with
    | none => .error .NotFound
    | some par =>
      if par.terminated then .error .InvalidState
      else
        let st := set_record st parent
          ⟨par.pid, par.parent, List.insert id par.children, par.threads, par.terminated,
            par.exit_status⟩
        .ok ⟨fun i => if i = id then some id else st.pid_process i,
          fun q =>
            if q = id then
              some ⟨id, some parent, [], [⟨id, id, .POSIX_THREAD_RUNNING, 0⟩], false, 0⟩
            else st.records q,
          st.events⟩

/-- Modelled from the spec: the spawning of a thread inside the process at
address `p`, an operation outside the core (section 6).  The identifier comes
from the namespace shared with the processes: a choice beyond the bound or of
a slot in use is refused (ResourceExhausted). -/
def spawn_thread (MAX_PID : Nat) (st : system_state) (p id : Nat) :
    Except process_error system_state :=
  if MAX_PID < id ∨ st.pid_process id ≠ none then .error .ResourceExhausted
  else
    match st.records p with
    | none => .error .NotFound
    | some proc =>
      if proc.terminated then .error .InvalidState
      else
        .ok ⟨fun i => if i = id then some p else st.pid_process i,
          fun q =>
            if q = p then
              some ⟨proc.pid, proc.parent, proc.children,
                ⟨id, p, .POSIX_THREAD_RUNNING, 0⟩ :: proc.threads, proc.terminated,
                proc.exit_status⟩
            else st.records q,
          st.events⟩

/-- Modelled from the spec: the state with the init process alone, the root of
the process tree: it has the identifier `UK_PID_INIT`, no parent, and its main
thread. -/
def boot_state : system_state :=
  ⟨fun i => if i = init_process then some init_process else none,
    fun q =>
      if q = init_process then
        some ⟨init_process, none, [], [⟨init_process, init_process, .POSIX_THREAD_RUNNING, 0⟩],
          false, 0⟩
      else none,
    []⟩

/-- Modelled from the spec: the states reached from the boot state by a
sequence of spawns, terminations and waits (a wait blocks or reaps). -/
inductive reachable (MAX_PID : Nat) : system_state → Prop where
  | boot : reachable MAX_PID boot_state
  | spawn_process {st st' : system_state} (parent id : Nat) :
      reachable MAX_PID st → spawn_process MAX_PID st parent id = .ok st' →
      reachable MAX_PID st'
  | spawn_thread {st st' : system_state} (p id : Nat) :
      reachable MAX_PID st → spawn_thread MAX_PID st p id = .ok st' →
      reachable MAX_PID st'
  | terminate {st : system_state} {out : exit_outcome} (current tid : Nat)
      (state : posix_thread_state) (exit_status : Int) :
      reachable MAX_PID st → pprocess_exit st current tid state exit_status = .ok out →
      reachable MAX_PID out.st
  | wait_blocked {st st' : system_state} (parent caller : Nat) (target : Int) :
      reachable MAX_PID st →
      uk_posix_process_wait st parent caller target = .ok (.blocked st') →
      reachable MAX_PID st'
  | wait_reaped {st st' : system_state} (parent caller : Nat) (target : Int)
      (pid : Nat) (exit_status : Int) :
      reachable MAX_PID st →
      uk_posix_process_wait st parent caller target = .ok (.reaped pid exit_status st') →
      reachable MAX_PID st'

/-- The record of the init process is there and its children set holds no
record twice. -/
def init_children_nodup (st : system_state) : Prop :=
  ∃ ini, st.records init_process = some ini ∧ ini.children.Nodup

/-- The process at address `c` is a child of the init process: its record has
the init process as parent and it is in the children set of the init
process. -/
def adopted_by_init (st : system_state) (c : Nat) : Prop :=
  (∃ r, st.records c = some r ∧ r.parent = some init_process) ∧
  ∃ ini, st.records init_process = some ini ∧ c ∈ ini.children

/-- Modelled from the spec: the state of the scenario of section 8, before the
termination: the init process 1, its child 2, and the process P with the
identifier 5, child of 2, with the threads T1, T2, T3 (identifiers 5, 6, 7)
and the children 8 and 9. -/
def scenario_state : system_state :=
  ⟨fun i =>
      if i = 1 then some 1 else if i = 2 then some 2
      else if i = 5 ∨ i = 6 ∨ i = 7 then some 5
      else if i = 8 then some 8 else if i = 9 then some 9 else none,
    fun q =>
      if q = 1 then some ⟨1, none, [2], [⟨1, 1, .POSIX_THREAD_RUNNING, 0⟩], false, 0⟩
      else if q = 2 then
        some ⟨2, some 1, [5], [⟨2, 2, .POSIX_THREAD_RUNNING, 0⟩], false, 0⟩
      else if q = 5 then
        some ⟨5, some 2, [8, 9],
          [⟨5, 5, .POSIX_THREAD_RUNNING, 0⟩, ⟨6, 5, .POSIX_THREAD_RUNNING, 0⟩,
            ⟨7, 5, .POSIX_THREAD_RUNNING, 0⟩], false, 0⟩
      else if q = 8 then
        some ⟨8, some 5, [], [⟨8, 8, .POSIX_THREAD_RUNNING, 0⟩], false, 0⟩
      else if q = 9 then
        some ⟨9, some 5, [], [⟨9, 9, .POSIX_THREAD_RUNNING, 0⟩], false, 0⟩
      else none,
    []⟩

/-- The identifiers that a process record holds: that of the process and
those of its thread records. -/
def identifiers_of (r : posix_process) : Nat × List Nat :=
  (r.pid, r.threads.map (fun th => th.tid))

/-- The identifier table and the records agree: a record is kept at the
address equal to its identifier, the table maps its identifier and those of its
thread records to it, its thread records have distinct identifiers, and every
identifier in the table is one of a record that is there. -/
def table_ok (st : system_state) : Prop :=
  (∀ p r, st.records p = some r →
    r.pid = p ∧ st.pid_process p = some p ∧
    (∀ t ∈ (identifiers_of r).2, st.pid_process t = some p) ∧
    (identifiers_of r).2.Nodup) ∧
  (∀ i p, st.pid_process i = some p →
    ∃ r, st.records p = some r ∧ (i = p ∨ i ∈ (identifiers_of r).2))

/-- Modelled from the spec: one operation on the state (a spawn, a termination
or a wait), with the identifier of the process that the operation reaps, if it
reaps one. -/
inductive step (MAX_PID : Nat) : system_state → Option Nat → system_state → Prop where
  | spawn_process {st st' : system_state} (parent id : Nat) :
      spawn_process MAX_PID st parent id = .ok st' → step MAX_PID st none st'
  | spawn_thread {st st' : system_state} (p id : Nat) :
      spawn_thread MAX_PID st p id = .ok st' → step MAX_PID st none st'
  | terminate {st : system_state} {out : exit_outcome} (current tid : Nat)
      (state : posix_thread_state) (exit_status : Int) :
      pprocess_exit st current tid state exit_status = .ok out → step MAX_PID st none out.st
  | wait_blocked {st st' : system_state} (parent caller : Nat) (target : Int) :
      uk_posix_process_wait st parent caller target = .ok (.blocked st') →
      step MAX_PID st none st'
  | wait_reaped {st st' : system_state} (parent caller : Nat) (target : Int)
      (pid : Nat) (exit_status : Int) :
      uk_posix_process_wait st parent caller target = .ok (.reaped pid exit_status st') →
      step MAX_PID st (some pid) st'

/-- Modelled from the spec: a sequence of operations none of which reaps the
process with the identifier `p`. -/
inductive runs_without_reaping (MAX_PID : Nat) (p : Nat) :
    system_state → system_state → Prop where
  | refl (st : system_state) : runs_without_reaping MAX_PID p st st
  | tail {st st1 st2 : system_state} {reaped : Option Nat} :
      runs_without_reaping MAX_PID p st st1 → step MAX_PID st1 reaped st2 →
      reaped ≠ some p → runs_without_reaping MAX_PID p st st2

/-- The process tree is in order: the init process has a record and no
parent, no children set holds a record twice, and every member of the children
set of a process has a record whose parent is that process. -/
def tree_ok (st : system_state) : Prop :=
  (∃ ini, st.records init_process = some ini ∧ ini.parent = none) ∧
  (∀ p r, st.records p = some r → r.children.Nodup) ∧
  (∀ p r c, st.records p = some r → c ∈ r.children →
    ∃ rc, st.records c = some rc ∧ rc.parent = some p)

end PosixProcess

/-! # Theorems -/

namespace UkStore

/-- A value that is representable in an integer type is left as it is by the
conversion to that type. -/
theorem cast_to_of_representable (t : uk_store_entry_type) (x : Int)
    (h : representable t x) : cast_to t x = x := by
  cases t <;> simp only [representable, type_min, type_max] at h <;>
    simp only [cast_to] <;> omega

/-- Two calls of a setter with equal integers are the same result. -/
theorem set_call_int_congr (set : uk_store_value → Int) (x y : Int) (h : x = y) :
    (⟨[.int x], set (.int x)⟩ : set_result) = ⟨[.int y], set (.int y)⟩ := by
  subst h
  rfl

/-- C4: each of `_uk_store_set_u8`, `_s16`, `_u32`, `_s32`, `_u64` and `_uptr`,
on an entry of an integer type with a setter and for every value `val` of its
parameter type, returns `-ERANGE` without a call of the entry's setter exactly
when `val` is not representable in the entry's type, and otherwise calls the
setter once, with `val`, and returns what that call returned. -/
theorem six_setters_check_range (I : uk_store_entry_type)
    (f : uk_store_entry → Int → set_result) (hf : (I, f) ∈ six_setters)
    (t : uk_store_entry_type) (ht : is_integer_type t = true)
    (name : String) (set : uk_store_value → Int) (get : Option getter_result)
    (val : Int) (hval : representable I val) :
    (f ⟨name, t, some set, get⟩ val = ⟨[], -ERANGE⟩ ↔ ¬ representable t val) ∧
    (representable t val →
      f ⟨name, t, some set, get⟩ val = ⟨[.int val], set (.int val)⟩) := by
  simp only [six_setters, List.mem_cons, Prod.mk.injEq, List.mem_singleton,
    List.not_mem_nil, or_false] at hf
  rcases hf with h | h | h | h | h | h <;> obtain ⟨hI, hfun⟩ := h <;> subst hI hfun <;>
    cases t <;> simp only [is_integer_type, Bool.false_eq_true] at ht <;>
    simp only [representable, type_min, type_max] at hval ⊢ <;>
    simp only [_uk_store_set_u8, _uk_store_set_s16, _uk_store_set_u32, _uk_store_set_s32,
      _uk_store_set_u64, _uk_store_set_uptr, SETCASE_DOWNCASTSU, SETCASE_DOWNCASTUS,
      SETCASE_DOWNCASTSS, SETCASE_DOWNCASTUU, SETCASE_UPCASTSU, SETCASE_UPCAST,
      set_return, set_call, __MAX, __MIN, cast_to, ERANGE] <;>
    refine ⟨?_, fun h => ?_⟩ <;>
    first
      | (apply set_call_int_congr; omega)
      | (rw [if_neg (by omega)]; apply set_call_int_congr; omega)
      | (simp only [set_result.mk.injEq, List.cons_ne_nil, false_and, false_iff, not_not,
           reduceCtorEq]
         omega)
      | (split_ifs <;>
         simp only [set_result.mk.injEq, List.cons_ne_nil, false_and, false_iff, not_not,
           reduceCtorEq, true_iff] <;> omega)

/-- Instance of C4: `_uk_store_set_u32` on a `u16` entry with the value 70000. -/
theorem six_setters_check_range_witness :
    (uk_store_entry_type.u32, _uk_store_set_u32) ∈ six_setters ∧
    is_integer_type .u16 = true ∧ representable .u32 70000 ∧
    ((_uk_store_set_u32 ⟨"e", .u16, some (fun _ => 0), none⟩ 70000 = ⟨[], -ERANGE⟩ ↔
        ¬ representable .u16 70000) ∧
      (representable .u16 70000 →
        _uk_store_set_u32 ⟨"e", .u16, some (fun _ => 0), none⟩ 70000 = ⟨[.int 70000], 0⟩)) :=
  ⟨by simp [six_setters], rfl, by decide,
    six_setters_check_range .u32 _uk_store_set_u32 (by simp [six_setters]) .u16 rfl "e"
      (fun _ => 0) none 70000 (by decide)⟩

/-- Two getter results with the same return code and equal values of `*out`. -/
theorem get_result_congr (ret x y : Int) (h : x = y) :
    (⟨ret, x⟩ : get_result Int) = ⟨ret, y⟩ := by
  subst h
  rfl

/-- C5: each of the nine integer getters, on an entry of an integer type whose
getter produces the value `v` of that type and the return code `ret`: returns
`ret` when `ret < 0`; else, when `v` is representable in the type of `*out`,
stores `v` in `*out` and returns `ret`; else returns `-ERANGE`.  The result is
`-EINVAL` only when the entry's getter itself returned that. -/
theorem nine_getters_check_range (O : uk_store_entry_type)
    (g : uk_store_entry → Int → get_result Int) (hg : (O, g) ∈ nine_getters)
    (t : uk_store_entry_type) (ht : is_integer_type t = true)
    (name : String) (set : Option (uk_store_value → Int))
    (ret v out : Int) (hv : representable t v) :
    (ret < 0 → g ⟨name, t, set, some ⟨ret, .int v⟩⟩ out = ⟨ret, out⟩) ∧
    (0 ≤ ret → representable O v →
      g ⟨name, t, set, some ⟨ret, .int v⟩⟩ out = ⟨ret, v⟩) ∧
    (0 ≤ ret → ¬ representable O v →
      g ⟨name, t, set, some ⟨ret, .int v⟩⟩ out = ⟨-ERANGE, out⟩) ∧
    ((g ⟨name, t, set, some ⟨ret, .int v⟩⟩ out).ret = -EINVAL → ret = -EINVAL) := by
  simp only [nine_getters, List.mem_cons, Prod.mk.injEq, List.mem_singleton,
    List.not_mem_nil, or_false] at hg
  rcases hg with h | h | h | h | h | h | h | h | h <;> obtain ⟨hO, hfun⟩ := h <;>
    subst hO hfun <;>
    cases t <;> simp only [is_integer_type, Bool.false_eq_true] at ht <;>
    simp only [representable, type_min, type_max] at hv ⊢ <;>
    simp only [_uk_store_get_u8, _uk_store_get_s8, _uk_store_get_u16, _uk_store_get_s16,
      _uk_store_get_u32, _uk_store_get_s32, _uk_store_get_u64, _uk_store_get_s64,
      _uk_store_get_uptr, GETCASE_DOWNCASTSU, GETCASE_DOWNCASTUS, GETCASE_DOWNCASTSS,
      GETCASE_DOWNCASTUU, GETCASE_UPCASTSU, GETCASE_UPCAST, uk_store_value.as_int,
      __MAX, __MIN, cast_to, ERANGE, EINVAL] <;>
    refine ⟨fun h => ?_, fun h hr => ?_, fun h hr => ?_, fun h => ?_⟩ <;>
    first
      | (rw [if_pos (by omega)]; done)
      | (exfalso; omega)
      | (rw [if_neg (by omega)]; apply get_result_congr; omega)
      | (rw [if_neg (by omega), if_neg (by omega)]; apply get_result_congr; omega)
      | rw [if_neg (by omega), if_pos (by omega)]
      | (split_ifs at h <;> simp only [Int.reduceNeg] at h <;> omega)

/-- Instance of C5: `_uk_store_get_s8` on a `u16` entry that holds 200. -/
theorem nine_getters_check_range_witness :
    (uk_store_entry_type.s8, _uk_store_get_s8) ∈ nine_getters ∧
    is_integer_type .u16 = true ∧ representable .u16 200 ∧
    ((((3 : Int) < 0 → _uk_store_get_s8 ⟨"e", .u16, none, some ⟨3, .int 200⟩⟩ 1 = ⟨3, 1⟩) ∧
      ((0 : Int) ≤ 3 → representable .s8 200 →
        _uk_store_get_s8 ⟨"e", .u16, none, some ⟨3, .int 200⟩⟩ 1 = ⟨3, 200⟩) ∧
      ((0 : Int) ≤ 3 → ¬ representable .s8 200 →
        _uk_store_get_s8 ⟨"e", .u16, none, some ⟨3, .int 200⟩⟩ 1 = ⟨-ERANGE, 1⟩) ∧
      ((_uk_store_get_s8 ⟨"e", .u16, none, some ⟨3, .int 200⟩⟩ 1).ret = -EINVAL →
        (3 : Int) = -EINVAL))) :=
  ⟨by simp [nine_getters], rfl, by decide,
    nine_getters_check_range .s8 _uk_store_get_s8 (by simp [nine_getters]) .u16 rfl "e"
      none 3 200 1 (by decide)⟩

/-- C1 (evaluation of the code): for a value below 0, here -1,
`_uk_store_set_s8` returns `-ERANGE` on an `s64` entry without a call of the
entry's setter, and on a `u64` entry it calls the setter with
18446744073709551615, the conversion of -1 to `__u64`. -/
theorem set_s8_negative_on_s64_and_u64 (name : String) (set : uk_store_value → Int)
    (get : Option getter_result) :
    _uk_store_set_s8 ⟨name, .s64, some set, get⟩ (-1) = ⟨[], -ERANGE⟩ ∧
    _uk_store_set_s8 ⟨name, .u64, some set, get⟩ (-1) =
      ⟨[.int 18446744073709551615], set (.int 18446744073709551615)⟩ := by
  constructor <;> rfl

/-- C2 (evaluation of the code): 3000000000 is a value of a `u32` entry, yet
`_uk_store_set_s64` returns `-ERANGE` for it on a `u32` entry without a call of
the entry's setter (the bound compared with is `__S32_MAX`). -/
theorem set_s64_on_u32_rejects_above_s32_max (name : String) (set : uk_store_value → Int)
    (get : Option getter_result) :
    representable .u32 3000000000 ∧
    _uk_store_set_s64 ⟨name, .u32, some set, get⟩ 3000000000 = ⟨[], -ERANGE⟩ := by
  constructor
  · decide
  · rfl

/-- C3 (evaluation of the code): `_uk_store_set_u16` has no case for an `s64`
entry; for every value it returns `-EINVAL` without a call of the entry's
setter. -/
theorem set_u16_on_s64_is_einval (name : String) (set : uk_store_value → Int)
    (get : Option getter_result) (val : Int) :
    _uk_store_set_u16 ⟨name, .s64, some set, get⟩ val = ⟨[], -EINVAL⟩ := by
  rfl

/-- C6 (evaluation of the code): the complete rendering of the `__u64` value
18446744073709551615 has 20 digits, and `_uk_store_set_u64` hands the string
entry's setter only the first 19 of them (`_U64_STRLEN` is 20, one byte of
which holds the NUL). -/
theorem set_u64_on_charp_truncates (name : String) (set : uk_store_value → Int)
    (get : Option getter_result) :
    render_unsigned 18446744073709551615 = "18446744073709551615".data ∧
    _uk_store_set_u64 ⟨name, .charp, some set, get⟩ 18446744073709551615 =
      ⟨[.str "1844674407370955161"], set (.str "1844674407370955161")⟩ := by
  constructor <;> rfl

/-- C7 (evaluation of the code): for a `u64` entry that holds
18446744073709551615 and whose getter returns 0, `_uk_store_get_charp` sets
`*out` to the first 19 of the 20 digits and returns 0. -/
theorem get_charp_on_u64_truncates (name : String) (set : Option (uk_store_value → Int))
    (out : Option String) :
    render_unsigned 18446744073709551615 = "18446744073709551615".data ∧
    _uk_store_get_charp ⟨name, .u64, set, some ⟨0, .int 18446744073709551615⟩⟩ out true =
      ⟨0, some "1844674407370955161"⟩ := by
  constructor <;> rfl

/-- C8 (evaluation of the code): for the string "abc", which contains no
number, `sscanf` returns 0, and `_uk_store_set_charp` on a `u8` entry calls the
entry's setter with the content of the uninitialised local `to_set` and returns
what that call returned. -/
theorem set_charp_without_number_calls_setter (name : String)
    (set : uk_store_value → Int) (get : Option getter_result) (to_set : Int) :
    (sscanf_int 10 "abc".data).ret = 0 ∧
    _uk_store_set_charp ⟨name, .u8, some set, get⟩ "abc" to_set =
      ⟨[.int to_set], set (.int to_set)⟩ := by
  constructor <;> rfl

/-- The search loop, started at `entry` at or below `stop` with more fuel than
entries left, returns: `NULL` exactly when no entry from `entry` up to `stop`
has the name, and else the first entry with the name. -/
theorem get_static_entry_loop_spec (mem : Nat → uk_store_entry) (e_name : String)
    (stop : Nat) (fuel : Nat) :
    ∀ entry : Nat, entry ≤ stop → stop - entry < fuel →
      ∃ r, get_static_entry_loop mem e_name stop fuel entry = some r ∧
        (r = none ↔ ∀ i, entry ≤ i → i < stop → (mem i).name ≠ e_name) ∧
        (∀ p, r = some p → entry ≤ p ∧ p < stop ∧ (mem p).name = e_name ∧
          ∀ j, entry ≤ j → j < p → (mem j).name ≠ e_name) := by
  induction fuel with
  | zero => intro entry _ hf; omega
  | succ n ih =>
    intro entry hle hf
    unfold get_static_entry_loop
    by_cases hstop : entry = stop
    · subst hstop
      refine ⟨none, by simp, ?_, ?_⟩
      · simp only [true_iff]
        intro i h1 h2
        omega
      · intro p hp
        cases hp
    · rw [if_pos hstop]
      by_cases hname : (mem entry).name = e_name
      · rw [if_pos hname]
        refine ⟨some entry, rfl, ?_, ?_⟩
        · simp only [reduceCtorEq, false_iff, not_forall]
          exact ⟨entry, le_refl _, by omega, fun h => h hname⟩
        · intro p hp
          cases hp
          exact ⟨le_refl _, by omega, hname, fun j h1 h2 => by omega⟩
      · rw [if_neg hname]
        obtain ⟨r, hr, hnone, hsome⟩ := ih (entry + 1) (by omega) (by omega)
        refine ⟨r, hr, ?_, ?_⟩
        · rw [hnone]
          constructor
          · intro h i h1 h2
            by_cases hi : i = entry
            · subst hi
              exact hname
            · exact h i (by omega) h2
          · intro h i h1 h2
            exact h i (by omega) h2
        · intro p hp
          obtain ⟨h1, h2, h3, h4⟩ := hsome p hp
          refine ⟨by omega, h2, h3, ?_⟩
          intro j hj1 hj2
          by_cases hj : j = entry
          · subst hj
            exact hname
          · exact h4 j (by omega) hj2

/-- C9: when the bounds of library `libid` in `static_entries` are in order,
`_uk_store_get_static_entry(libid, e_name)` returns (given fuel for the entries
of the library) the first entry of the range of the library whose name equals
`e_name`, and `NULL` exactly when no entry in that range has the name; what it
returns lies in the range of the library. -/
theorem get_static_entry_first_match (static_entries : Nat → Nat)
    (mem : Nat → uk_store_entry) (libid : Nat) (e_name : String) (fuel : Nat)
    (hle : static_entries (2 * libid) ≤ static_entries (2 * libid + 1))
    (hfuel : static_entries (2 * libid + 1) - static_entries (2 * libid) < fuel) :
    ∃ r, _uk_store_get_static_entry static_entries mem fuel libid e_name = some r ∧
      (r = none ↔ ∀ i, static_entries (2 * libid) ≤ i → i < static_entries (2 * libid + 1) →
        (mem i).name ≠ e_name) ∧
      (∀ p, r = some p →
        static_entries (2 * libid) ≤ p ∧ p < static_entries (2 * libid + 1) ∧
        (mem p).name = e_name ∧
        ∀ j, static_entries (2 * libid) ≤ j → j < p → (mem j).name ≠ e_name) :=
  get_static_entry_loop_spec mem e_name (static_entries (2 * libid + 1)) fuel
    (static_entries (2 * libid)) hle hfuel

/-- Instance of C9: library 1 owns the entries at 2, 3 and 4 of five entries
named a, b, c, b, d, and the name looked up is b. -/
theorem get_static_entry_first_match_witness :
    [0, 2, 2, 5].getD (2 * 1) 0 ≤ [0, 2, 2, 5].getD (2 * 1 + 1) 0 ∧
    [0, 2, 2, 5].getD (2 * 1 + 1) 0 - [0, 2, 2, 5].getD (2 * 1) 0 < 4 ∧
    ∃ r, _uk_store_get_static_entry (fun k => [0, 2, 2, 5].getD k 0)
        (fun i => ⟨["a", "b", "c", "b", "d"].getD i "", .u8, none, none⟩) 4 1 "b" = some r ∧
      (r = none ↔ ∀ i, [0, 2, 2, 5].getD (2 * 1) 0 ≤ i → i < [0, 2, 2, 5].getD (2 * 1 + 1) 0 →
        (["a", "b", "c", "b", "d"].getD i "") ≠ "b") ∧
      (∀ p, r = some p →
        [0, 2, 2, 5].getD (2 * 1) 0 ≤ p ∧ p < [0, 2, 2, 5].getD (2 * 1 + 1) 0 ∧
        (["a", "b", "c", "b", "d"].getD p "") = "b" ∧
        ∀ j, [0, 2, 2, 5].getD (2 * 1) 0 ≤ j → j < p →
          (["a", "b", "c", "b", "d"].getD j "") ≠ "b") :=
  ⟨by decide, by decide,
    get_static_entry_first_match (fun k => [0, 2, 2, 5].getD k 0)
      (fun i => ⟨["a", "b", "c", "b", "d"].getD i "", .u8, none, none⟩) 1 "b" 4
      (by decide) (by decide)⟩

/-! ## Releasing an entry, the round trip, errors of the getters -/

/-- C21 (evaluation of the code): `_uk_store_release_entry` leaves every entry
as it is.  An entry that is not static, has the reference count 1 and is in its
list has the reference count 1 after the call, is still in the list and is not
freed. -/
theorem release_entry_changes_nothing :
    _uk_store_release_entry ⟨false, 1, true, false⟩ = ⟨false, 1, true, false⟩ ∧
    ∀ p_entry : entry_object, _uk_store_release_entry p_entry = p_entry := by
  refine ⟨rfl, fun p_entry => ?_⟩
  unfold _uk_store_release_entry
  split_ifs <;> rfl

/-- C22 (evaluation of the code): on a `u64` entry over a cell,
`_uk_store_set_s8` with the value -1 calls the setter with 18446744073709551615
and returns 0, and `_uk_store_get_s8` on the cell that now holds
18446744073709551615 returns `-ERANGE` and leaves `*out`, here 0, as it was. -/
theorem round_trip_s8_on_u64_fails :
    representable .s8 (-1) ∧
    _uk_store_set_s8 (cell_entry .u64 0) (-1) = ⟨[.int 18446744073709551615], 0⟩ ∧
    round_trip _uk_store_set_s8 _uk_store_get_s8 .u64 0 (-1) 0 = (0, ⟨-ERANGE, 0⟩) := by
  refine ⟨by decide, rfl, rfl⟩

/-- C23: each of the nine integer getters and `_uk_store_get_charp`, on an
entry whose type is an integer type or unknown: when the function returns a
negative value, `*out` is as before the call.  For an integer getter that value
is `-EIO` with a `NULL` getter, `-EINVAL` with an unknown type, the return code
of the entry's getter, or `-ERANGE`. -/
theorem getters_keep_out_on_error (O : uk_store_entry_type)
    (g : uk_store_entry → Int → get_result Int) (hg : (O, g) ∈ nine_getters)
    (t : uk_store_entry_type) (ht : t ≠ .charp)
    (name : String) (set : Option (uk_store_value → Int)) (get : Option getter_result)
    (out : Int) (sout : Option String) (calloc_ok : Bool) :
    ((g ⟨name, t, set, get⟩ out).ret < 0 →
      (g ⟨name, t, set, get⟩ out).out = out ∧
      (((g ⟨name, t, set, get⟩ out).ret = - EIO ∧ get = none) ∨
       ((g ⟨name, t, set, get⟩ out).ret = -EINVAL ∧ t = .undef) ∨
       (∃ r, get = some r ∧ (g ⟨name, t, set, get⟩ out).ret = r.ret) ∨
       (g ⟨name, t, set, get⟩ out).ret = -ERANGE)) ∧
    ((_uk_store_get_charp ⟨name, t, set, get⟩ sout calloc_ok).ret < 0 →
      (_uk_store_get_charp ⟨name, t, set, get⟩ sout calloc_ok).out = sout) := by
  constructor
  · simp only [nine_getters, List.mem_cons, Prod.mk.injEq, List.mem_singleton,
      List.not_mem_nil, or_false] at hg
    rcases hg with h | h | h | h | h | h | h | h | h <;> obtain ⟨hO, hfun⟩ := h <;>
      subst hO hfun <;>
      cases get <;> cases t <;>
      first
        | (exfalso; exact ht rfl)
        | (intro _; exact ⟨rfl, Or.inl ⟨rfl, rfl⟩⟩)
        | (intro _; exact ⟨rfl, Or.inr (Or.inl ⟨rfl, rfl⟩)⟩)
        | (simp only [_uk_store_get_u8, _uk_store_get_s8, _uk_store_get_u16,
            _uk_store_get_s16, _uk_store_get_u32, _uk_store_get_s32, _uk_store_get_u64,
            _uk_store_get_s64, _uk_store_get_uptr, GETCASE_DOWNCASTSU, GETCASE_DOWNCASTUS,
            GETCASE_DOWNCASTSS, GETCASE_DOWNCASTUU, GETCASE_UPCASTSU, GETCASE_UPCAST]
           split_ifs <;> intro h <;>
           first
             | exact ⟨rfl, Or.inr (Or.inr (Or.inl ⟨_, rfl, rfl⟩))⟩
             | exact ⟨rfl, Or.inr (Or.inr (Or.inr rfl))⟩
             | (exfalso; simp only [] at h; omega))
  · cases get <;> cases t <;>
      first
        | (exfalso; exact ht rfl)
        | (intro _; rfl)
        | (simp only [_uk_store_get_charp, get_charp_case]
           split_ifs <;> intro h <;>
           first
             | rfl
             | (exfalso; simp only [] at h; omega))

/-- Instance of C23: `_uk_store_get_s8` on a `u16` entry that holds 200, and
`_uk_store_get_charp` on that entry when its getter returns -7. -/
theorem getters_keep_out_on_error_witness :
    (uk_store_entry_type.s8, _uk_store_get_s8) ∈ nine_getters ∧
    uk_store_entry_type.u16 ≠ .charp ∧
    (_uk_store_get_s8 ⟨"e", .u16, none, some ⟨0, .int 200⟩⟩ 1).ret < 0 ∧
    (_uk_store_get_charp ⟨"e", .u16, none, some ⟨-7, .int 200⟩⟩ (some "old") true).ret < 0 ∧
    (_uk_store_get_s8 ⟨"e", .u16, none, some ⟨0, .int 200⟩⟩ 1).out = 1 ∧
    (_uk_store_get_charp ⟨"e", .u16, none, some ⟨-7, .int 200⟩⟩ (some "old") true).out =
      some "old" :=
  ⟨by simp [nine_getters], by decide, by decide, by decide,
    ((getters_keep_out_on_error .s8 _uk_store_get_s8 (by simp [nine_getters]) .u16
      (by decide) "e" none (some ⟨0, .int 200⟩) 1 none true).1 (by decide)).1,
    (getters_keep_out_on_error .s8 _uk_store_get_s8 (by simp [nine_getters]) .u16
      (by decide) "e" none (some ⟨-7, .int 200⟩) 1 (some "old") true).2 (by decide)⟩

/-- The integer cases of `uk_store_get_ncharp` end the string: with `maxlen`
at least 1 and a return code of the entry's getter that is not negative, the
buffer is the first `maxlen - 1` characters of the text of the value, then NUL,
then what the buffer held behind these, and a NUL is among its first `maxlen`
bytes. -/
theorem get_ncharp_case_terminated (get : getter_result) (render : Int → List Char)
    (out : List Char) (maxlen : Nat) (hmax : 1 ≤ maxlen) (hret : 0 ≤ get.ret) :
    (get_ncharp_case get render out maxlen).ret = get.ret ∧
    (get_ncharp_case get render out maxlen).out =
      (render get.val.as_int).take (maxlen - 1) ++ NUL ::
        out.drop (((render get.val.as_int).take (maxlen - 1)).length + 1) ∧
    terminated_within (get_ncharp_case get render out maxlen).out maxlen := by
  have hout : (get_ncharp_case get render out maxlen).out =
      (render get.val.as_int).take (maxlen - 1) ++ NUL ::
        out.drop (((render get.val.as_int).take (maxlen - 1)).length + 1) := by
    simp only [get_ncharp_case, snprintf_buffer, write_buffer]
    rw [if_neg (by omega), if_neg (by omega)]
    simp
  refine ⟨?_, hout, ?_⟩
  · simp only [get_ncharp_case]
    rw [if_neg (by omega)]
  · rw [hout]
    unfold terminated_within
    have hlen : ((render get.val.as_int).take (maxlen - 1)).length ≤ maxlen - 1 := by
      rw [List.length_take]
      exact Nat.min_le_left _ _
    rw [List.take_append_eq_append_take]
    apply List.mem_append_right
    have hpos : 0 < maxlen - ((render get.val.as_int).take (maxlen - 1)).length := by omega
    obtain ⟨k, hk⟩ := Nat.exists_eq_succ_of_ne_zero (Nat.pos_iff_ne_zero.mp hpos)
    rw [hk, List.take_succ_cons]
    exact List.mem_cons_self _ _

/-- C24 (evaluation of the code): on a `charp` entry whose getter returns 0 and
the string hello, `uk_store_get_ncharp` with `maxlen` 3 on a buffer of three
bytes returns 0 and leaves the bytes h, e, l in the buffer: none of the three
bytes is NUL, and the characters before a NUL are 3, more than `maxlen - 1`. -/
theorem get_ncharp_on_charp_not_terminated (name : String)
    (set : Option (uk_store_value → Int)) :
    uk_store_get_ncharp ⟨name, .charp, set, some ⟨0, .str "hello"⟩⟩ ['x', 'x', 'x'] 3 =
      ⟨0, ['h', 'e', 'l']⟩ ∧
    ¬ terminated_within
      (uk_store_get_ncharp ⟨name, .charp, set, some ⟨0, .str "hello"⟩⟩ ['x', 'x', 'x'] 3).out 3 ∧
    (c_string
      (uk_store_get_ncharp ⟨name, .charp, set, some ⟨0, .str "hello"⟩⟩ ['x', 'x', 'x'] 3).out).length
      = 3 := by
  have h : uk_store_get_ncharp ⟨name, .charp, set, some ⟨0, .str "hello"⟩⟩ ['x', 'x', 'x'] 3 =
      ⟨0, ['h', 'e', 'l']⟩ := rfl
  refine ⟨h, ?_, ?_⟩
  · rw [h]
    unfold terminated_within
    decide
  · rw [h]
    decide

/-- C26: each of the nine typed setters and `_uk_store_set_charp`, on an entry
of any type whose setter is `NULL`, returns `-EIO` for every value and makes no
call; each of the nine typed getters, `_uk_store_get_charp` and
`uk_store_get_ncharp`, on an entry of any type whose getter is `NULL`, returns
`-EIO` and leaves `*out`; and on an entry of unknown type with a getter each of
the eleven getters returns `-EINVAL` and leaves `*out`, whatever the entry's
getter would produce. -/
theorem null_callback_is_eio_unknown_type_is_einval (I : uk_store_entry_type)
    (s : uk_store_entry → Int → set_result) (g : uk_store_entry → Int → get_result Int)
    (hsg : (I, s, g) ∈ nine_accessors)
    (name : String) (t : uk_store_entry_type) (set : Option (uk_store_value → Int))
    (get : Option getter_result) (r : getter_result) (val out to_set : Int) (str : String)
    (sout : Option String) (calloc_ok : Bool) (buf : List Char) (maxlen : Nat) :
    s ⟨name, t, none, get⟩ val = ⟨[], - EIO⟩ ∧
    _uk_store_set_charp ⟨name, t, none, get⟩ str to_set = ⟨[], - EIO⟩ ∧
    g ⟨name, t, set, none⟩ out = ⟨- EIO, out⟩ ∧
    _uk_store_get_charp ⟨name, t, set, none⟩ sout calloc_ok = ⟨- EIO, sout⟩ ∧
    uk_store_get_ncharp ⟨name, t, set, none⟩ buf maxlen = ⟨- EIO, buf⟩ ∧
    g ⟨name, .undef, set, some r⟩ out = ⟨- EINVAL, out⟩ ∧
    _uk_store_get_charp ⟨name, .undef, set, some r⟩ sout calloc_ok = ⟨- EINVAL, sout⟩ ∧
    uk_store_get_ncharp ⟨name, .undef, set, some r⟩ buf maxlen = ⟨- EINVAL, buf⟩ := by
  simp only [nine_accessors, List.mem_cons, Prod.mk.injEq, List.mem_singleton,
    List.not_mem_nil, or_false] at hsg
  rcases hsg with h | h | h | h | h | h | h | h | h <;> obtain ⟨hI, hs, hfun⟩ := h <;>
    subst hI hs hfun <;>
    exact ⟨rfl, rfl, rfl, rfl, rfl, rfl, rfl, rfl⟩

/-- Instance of C26: the accessors of `u16` on entries of type `s32` and of
unknown type. -/
theorem null_callback_is_eio_unknown_type_is_einval_witness :
    (uk_store_entry_type.u16, _uk_store_set_u16, _uk_store_get_u16) ∈ nine_accessors ∧
    _uk_store_set_u16 ⟨"e", .s32, none, none⟩ 5 = ⟨[], - EIO⟩ ∧
    _uk_store_set_charp ⟨"e", .s32, none, none⟩ "5" 0 = ⟨[], - EIO⟩ ∧
    _uk_store_get_u16 ⟨"e", .s32, none, none⟩ 9 = ⟨- EIO, 9⟩ ∧
    _uk_store_get_charp ⟨"e", .s32, none, none⟩ none true = ⟨- EIO, none⟩ ∧
    uk_store_get_ncharp ⟨"e", .s32, none, none⟩ ['x'] 1 = ⟨- EIO, ['x']⟩ ∧
    _uk_store_get_u16 ⟨"e", .undef, none, some ⟨0, .int 5⟩⟩ 9 = ⟨- EINVAL, 9⟩ ∧
    _uk_store_get_charp ⟨"e", .undef, none, some ⟨0, .int 5⟩⟩ none true = ⟨- EINVAL, none⟩ ∧
    uk_store_get_ncharp ⟨"e", .undef, none, some ⟨0, .int 5⟩⟩ ['x'] 1 = ⟨- EINVAL, ['x']⟩ :=
  ⟨by simp [nine_accessors],
    null_callback_is_eio_unknown_type_is_einval .u16 _uk_store_set_u16 _uk_store_get_u16
      (by simp [nine_accessors]) "e" .s32 none none ⟨0, .int 5⟩ 5 9 0 "5" none true ['x'] 1⟩

/-- The round trip on every pair of integer types but `s8` on a `u64` entry:
when the setter accepts a value of its parameter type and returns 0, the getter
of the same type returns 0 and reads the value back. -/
theorem round_trip_other_pairs (I : uk_store_entry_type)
    (s : uk_store_entry → Int → set_result) (g : uk_store_entry → Int → get_result Int)
    (hsg : (I, s, g) ∈ nine_accessors)
    (t : uk_store_entry_type) (ht : is_integer_type t = true)
    (hpair : ¬ (I = .s8 ∧ t = .u64))
    (cell v out : Int) (hv : representable I v)
    (hset : (round_trip s g t cell v out).1 = 0) :
    (round_trip s g t cell v out).2 = ⟨0, v⟩ := by
  simp only [nine_accessors, List.mem_cons, Prod.mk.injEq, List.mem_singleton,
    List.not_mem_nil, or_false] at hsg
  rcases hsg with h | h | h | h | h | h | h | h | h <;> obtain ⟨hI, hs, hfun⟩ := h <;>
    subst hI hs hfun <;>
    cases t <;> simp only [is_integer_type, Bool.false_eq_true] at ht <;>
    simp only [reduceCtorEq, and_self, and_true, and_false, not_true_eq_false,
      not_false_eq_true] at hpair <;>
    simp only [representable, type_min, type_max] at hv <;>
    simp only [round_trip, cell_entry, cell_after,
      _uk_store_set_u8, _uk_store_set_s8, _uk_store_set_u16, _uk_store_set_s16,
      _uk_store_set_u32, _uk_store_set_s32, _uk_store_set_u64, _uk_store_set_s64,
      _uk_store_set_uptr, SETCASE_DOWNCASTSU, SETCASE_DOWNCASTUS,
      SETCASE_DOWNCASTSS, SETCASE_DOWNCASTUU, SETCASE_UPCASTSU, SETCASE_UPCAST,
      set_return, set_call,
      _uk_store_get_u8, _uk_store_get_s8, _uk_store_get_u16, _uk_store_get_s16,
      _uk_store_get_u32, _uk_store_get_s32, _uk_store_get_u64, _uk_store_get_s64,
      _uk_store_get_uptr, GETCASE_DOWNCASTSU, GETCASE_DOWNCASTUS, GETCASE_DOWNCASTSS,
      GETCASE_DOWNCASTUU, GETCASE_UPCASTSU, GETCASE_UPCAST, uk_store_value.as_int,
      __MAX, __MIN, cast_to, ERANGE, EINVAL] at hset ⊢ <;>
    (try split_ifs at hset ⊢) <;>
    (try simp only [List.foldl_cons, List.foldl_nil, Int.reduceNeg] at *) <;>
    first
      | (exfalso; omega)
      | (apply get_result_congr; omega)

end UkStore

namespace PosixProcess

/-- With a body that does not break, the inner loop entered with `_j = 1` runs
the body once when `_p` is not `NULL`, not at all when it is, and is left with
`_j = 0`. -/
theorem foreach_inner_no_break {σ : Type} (body : σ → Nat → σ × Bool)
    (hbody : ∀ st p, (body st p).2 = false) (i : Nat) (_p : Option Nat) (n : Nat)
    (s : foreach_state σ) :
    foreach_inner body i _p (n + 2) true s =
      some (false, match _p with
        | some p => ⟨(body s.st p).1, s.visited ++ [(i, p)]⟩
        | none => s) := by
  cases _p with
  | none => simp [foreach_inner]
  | some p => simp [foreach_inner, run_body, hbody]

/-- Splitting the live entries at the first slot. -/
theorem live_entries_succ (pid_process : List (Option Nat)) (i n : Nat) :
    live_entries pid_process i (n + 1) =
      (match pid_process.getD i none with
        | some p => [(i, p)]
        | none => []) ++ live_entries pid_process (i + 1) n := by
  unfold live_entries
  rw [List.range'_succ, List.filterMap_cons]
  cases pid_process.getD i none <;> simp

/-- With a body that does not break, the outer loop from index `_i` with
`_j = 1` runs the body for the live entries from `_i` on, in index order. -/
theorem foreach_outer_no_break {σ : Type} (pid_process : List (Option Nat))
    (body : σ → Nat → σ × Bool) (hbody : ∀ st p, (body st p).2 = false) (fuel : Nat) :
    ∀ (i : Nat) (s : foreach_state σ), i ≤ pid_process.length →
      pid_process.length - i + 2 ≤ fuel →
      foreach_outer pid_process body fuel i true s =
        some ⟨run_visits body s.st (live_entries pid_process i (pid_process.length - i)),
          s.visited ++ live_entries pid_process i (pid_process.length - i)⟩ := by
  induction fuel with
  | zero => intro i s _ hf; omega
  | succ f ih =>
    intro i s hi hf
    unfold foreach_outer
    by_cases hend : i = pid_process.length
    · subst hend
      simp [live_entries, run_visits]
    · rw [if_pos hend]
      obtain ⟨n, rfl⟩ : ∃ n, f = n + 2 := ⟨f - 2, by omega⟩
      rw [foreach_inner_no_break body hbody]
      simp only [Bool.not_false]
      rw [ih (i + 1) _ (by omega) (by omega)]
      have hsplit : pid_process.length - i = (pid_process.length - (i + 1)) + 1 := by omega
      rw [hsplit, live_entries_succ]
      cases pid_process.getD i none <;> simp [run_visits]

/-- The indices of the live entries form a sublist of the indices scanned. -/
theorem live_entries_fst_sublist (pid_process : List (Option Nat)) (i n : Nat) :
    ((live_entries pid_process i n).map Prod.fst).Sublist (List.range' i n) := by
  induction n generalizing i with
  | zero => simp [live_entries]
  | succ n ih =>
    rw [live_entries_succ, List.range'_succ]
    cases pid_process.getD i none with
    | none => exact (ih (i + 1)).cons _
    | some p => exact (ih (i + 1)).cons₂ _

/-- Membership in the live entries. -/
theorem mem_live_entries (pid_process : List (Option Nat)) (n : Nat) (i p : Nat) :
    (i, p) ∈ live_entries pid_process 0 n ↔ i < n ∧ pid_process.getD i none = some p := by
  unfold live_entries
  simp only [List.mem_filterMap, List.mem_range'_1, Option.map_eq_some', Prod.mk.injEq]
  constructor
  · rintro ⟨k, ⟨_, hk⟩, q, hq, rfl, rfl⟩
    exact ⟨by omega, hq⟩
  · rintro ⟨hi, hp⟩
    exact ⟨i, ⟨by omega, by omega⟩, p, hp, rfl, rfl⟩

/-- C10: for every table `pid_process` of `TIDMAP_SIZE` slots and a body that
does not break, `uk_process_foreach` terminates and has run the body exactly
for the slots that are not `NULL`, once each, with `_p` the pointer in the
slot, in strictly increasing index order. -/
theorem uk_process_foreach_visits_live_entries {σ : Type} (MAX_PID : Nat)
    (pid_process : List (Option Nat)) (hlen : pid_process.length = TIDMAP_SIZE MAX_PID)
    (body : σ → Nat → σ × Bool) (hbody : ∀ st p, (body st p).2 = false)
    (fuel : Nat) (hfuel : TIDMAP_SIZE MAX_PID + 2 ≤ fuel) (st : σ) :
    ∃ s, uk_process_foreach pid_process body fuel st = some s ∧
      s.visited = live_entries pid_process 0 (TIDMAP_SIZE MAX_PID) ∧
      s.st = run_visits body st s.visited ∧
      (∀ i p, (i, p) ∈ s.visited ↔
        i < TIDMAP_SIZE MAX_PID ∧ pid_process.getD i none = some p) ∧
      (s.visited.map Prod.fst).Pairwise (fun a b => a < b) := by
  refine ⟨_, foreach_outer_no_break pid_process body hbody fuel 0 ⟨st, []⟩ (by omega)
    (by omega), ?_, ?_, ?_, ?_⟩
  · simp [hlen]
  · simp [hlen]
  · intro i p
    simp only [List.nil_append, Nat.sub_zero, hlen]
    exact mem_live_entries pid_process _ i p
  · simp only [List.nil_append, Nat.sub_zero]
    exact (List.pairwise_lt_range' 0 _).sublist (live_entries_fst_sublist pid_process 0 _)

/-- Instance of C10: a table of four slots with live entries at 1 and 3 and a
body that adds the pointer to a counter. -/
theorem uk_process_foreach_visits_live_entries_witness :
    [none, some 10, none, some 30].length = TIDMAP_SIZE 3 ∧
    (∀ (st p : Nat), ((fun (st : Nat) (p : Nat) => (st + p, false)) st p).2 = false) ∧
    TIDMAP_SIZE 3 + 2 ≤ 6 ∧
    ∃ s, uk_process_foreach [none, some 10, none, some 30]
        (fun (st : Nat) (p : Nat) => (st + p, false)) 6 0 = some s ∧
      s.visited = live_entries [none, some 10, none, some 30] 0 (TIDMAP_SIZE 3) ∧
      s.st = run_visits (fun (st : Nat) (p : Nat) => (st + p, false)) 0 s.visited ∧
      (∀ i p, (i, p) ∈ s.visited ↔
        i < TIDMAP_SIZE 3 ∧ [none, some 10, none, some 30].getD i none = some p) ∧
      (s.visited.map Prod.fst).Pairwise (fun a b => a < b) :=
  ⟨rfl, fun _ _ => rfl, by decide,
    uk_process_foreach_visits_live_entries 3 [none, some 10, none, some 30] rfl
      (fun (st : Nat) (p : Nat) => (st + p, false)) (fun _ _ => rfl) 6 (by decide) 0⟩

/-- Running the body of `uk_process_foreach_child` over a list of visits, when
`BODY` does not break: `BODY` runs for the visits whose record has the parent
looked for, in order. -/
theorem run_visits_foreach_child_body {σ : Type} (mem : Nat → posix_process)
    (_pparent : Option Nat) (body : σ → Nat → σ × Bool) (l : List (Nat × Nat)) :
    ∀ (st : σ) (log : List Nat),
      run_visits (foreach_child_body mem _pparent body) (st, log) l =
        (((l.filter (fun ip => (mem ip.2).parent = _pparent)).map Prod.snd).foldl
            (fun st p => (body st p).1) st,
          log ++ (l.filter (fun ip => (mem ip.2).parent = _pparent)).map Prod.snd) := by
  induction l with
  | nil => intro st log; simp [run_visits]
  | cons ip l ih =>
    intro st log
    have hstep : run_visits (foreach_child_body mem _pparent body) (st, log) (ip :: l) =
        run_visits (foreach_child_body mem _pparent body)
          ((foreach_child_body mem _pparent body (st, log) ip.2).1) l := rfl
    rw [hstep]
    by_cases hpar : (mem ip.2).parent = _pparent
    · simp only [foreach_child_body, hpar, if_true]
      rw [ih]
      simp [List.filter_cons, hpar]
    · simp only [foreach_child_body, hpar, if_false]
      rw [ih]
      simp [List.filter_cons, hpar]

/-- C11: for every table of `TIDMAP_SIZE` slots, every `_pparent` and a body
that does not break, `uk_process_foreach_child` terminates and has run the body
exactly for the slots that are not `NULL` and whose record has `parent` equal
to `_pparent`, once each, in increasing index order: the pointers it ran with
are those of the `uk_process_foreach` sequence whose record has that parent,
and no record with another parent is visited. -/
theorem uk_process_foreach_child_visits_children {σ : Type} (MAX_PID : Nat)
    (pid_process : List (Option Nat)) (hlen : pid_process.length = TIDMAP_SIZE MAX_PID)
    (mem : Nat → posix_process) (_pparent : Option Nat)
    (body : σ → Nat → σ × Bool) (hbody : ∀ st p, (body st p).2 = false)
    (fuel : Nat) (hfuel : TIDMAP_SIZE MAX_PID + 2 ≤ fuel) (st : σ) :
    ∃ s, uk_process_foreach_child pid_process mem _pparent body fuel st = some s ∧
      s.visited = live_entries pid_process 0 (TIDMAP_SIZE MAX_PID) ∧
      s.st.2 = ((live_entries pid_process 0 (TIDMAP_SIZE MAX_PID)).filter
        (fun ip => (mem ip.2).parent = _pparent)).map Prod.snd ∧
      s.st.1 = s.st.2.foldl (fun st p => (body st p).1) st ∧
      (∀ p, p ∈ s.st.2 ↔ ∃ i, i < TIDMAP_SIZE MAX_PID ∧
        pid_process.getD i none = some p ∧ (mem p).parent = _pparent) ∧
      (((live_entries pid_process 0 (TIDMAP_SIZE MAX_PID)).filter
        (fun ip => (mem ip.2).parent = _pparent)).map Prod.fst).Pairwise (fun a b => a < b) := by
  have hwrap : ∀ (s : σ × List Nat) (p : Nat),
      (foreach_child_body mem _pparent body s p).2 = false := by
    intro s p
    unfold foreach_child_body
    split
    · exact hbody s.1 p
    · rfl
  refine ⟨_, foreach_outer_no_break pid_process (foreach_child_body mem _pparent body) hwrap
    fuel 0 ⟨(st, []), []⟩ (by omega) (by omega), ?_, ?_, ?_, ?_, ?_⟩
  · simp [hlen]
  · simp only [Nat.sub_zero, hlen, run_visits_foreach_child_body, List.nil_append]
  · simp only [Nat.sub_zero, hlen, run_visits_foreach_child_body, List.nil_append]
  · intro p
    simp only [Nat.sub_zero, hlen, run_visits_foreach_child_body, List.nil_append,
      List.mem_map, List.mem_filter, decide_eq_true_eq, Prod.exists, exists_and_right,
      exists_eq_right]
    constructor
    · rintro ⟨⟨i, hmem⟩, hpar⟩
      exact ⟨i, ((mem_live_entries pid_process _ i p).1 hmem).1,
        ((mem_live_entries pid_process _ i p).1 hmem).2, hpar⟩
    · rintro ⟨i, hi, hp, hpar⟩
      exact ⟨⟨i, (mem_live_entries pid_process _ i p).2 ⟨hi, hp⟩⟩, hpar⟩
  · have hsub : (((live_entries pid_process 0 (TIDMAP_SIZE MAX_PID)).filter
        (fun ip => (mem ip.2).parent = _pparent)).map Prod.fst).Sublist
        ((live_entries pid_process 0 (TIDMAP_SIZE MAX_PID)).map Prod.fst) :=
      (List.filter_sublist _).map Prod.fst
    exact (List.pairwise_lt_range' 0 _).sublist
      (hsub.trans (live_entries_fst_sublist pid_process 0 _))

/-- C12: `UK_PID_INIT` is 1 and `UK_PID_WAIT_ANY` is -1; a table of
`TIDMAP_SIZE` slots has `CONFIG_LIBPOSIX_PROCESS_MAX_PID + 1` slots, so that,
for a bound of at least 1, the valid indices are the identifiers from 0 to the
bound, the init identifier among them, and the any-child sentinel equals none
of them. -/
theorem identifier_constants (MAX_PID : Nat) (hmax : 1 ≤ MAX_PID) :
    UK_PID_INIT = 1 ∧ UK_PID_WAIT_ANY = -1 ∧
    TIDMAP_SIZE MAX_PID = MAX_PID + 1 ∧
    (∀ id : Int, valid_identifier MAX_PID id ↔ 0 ≤ id ∧ id ≤ (MAX_PID : Int)) ∧
    valid_identifier MAX_PID UK_PID_INIT ∧
    ¬ valid_identifier MAX_PID UK_PID_WAIT_ANY ∧
    (∀ id : Int, valid_identifier MAX_PID id → id ≠ UK_PID_WAIT_ANY) := by
  refine ⟨rfl, rfl, rfl, ?_, ?_, ?_, ?_⟩
  · intro id
    simp only [valid_identifier, TIDMAP_SIZE]
    omega
  · simp only [valid_identifier, TIDMAP_SIZE, UK_PID_INIT]
    omega
  · simp only [valid_identifier, UK_PID_WAIT_ANY]
    omega
  · intro id hid
    simp only [valid_identifier, UK_PID_WAIT_ANY] at hid ⊢
    omega

/-- Instance of C12: the bound 31. -/
theorem identifier_constants_witness :
    1 ≤ 31 ∧
    (UK_PID_INIT = 1 ∧ UK_PID_WAIT_ANY = -1 ∧
      TIDMAP_SIZE 31 = 31 + 1 ∧
      (∀ id : Int, valid_identifier 31 id ↔ 0 ≤ id ∧ id ≤ ((31 : Nat) : Int)) ∧
      valid_identifier 31 UK_PID_INIT ∧
      ¬ valid_identifier 31 UK_PID_WAIT_ANY ∧
      (∀ id : Int, valid_identifier 31 id → id ≠ UK_PID_WAIT_ANY)) :=
  ⟨by decide, identifier_constants 31 (by decide)⟩

/-- Instance of C11: a table of four slots with three records, two of which
have the record at 70 as parent. -/
theorem uk_process_foreach_child_visits_children_witness :
    [none, some 10, some 20, some 30].length = TIDMAP_SIZE 3 ∧
    (∀ (st p : Nat), ((fun (st : Nat) (p : Nat) => (st + p, false)) st p).2 = false) ∧
    TIDMAP_SIZE 3 + 2 ≤ 6 ∧
    ∃ s, uk_process_foreach_child [none, some 10, some 20, some 30]
        (fun a => ⟨a, if a = 20 then none else some 70, [], [], false, 0⟩) (some 70)
        (fun (st : Nat) (p : Nat) => (st + p, false)) 6 0 = some s ∧
      s.visited = live_entries [none, some 10, some 20, some 30] 0 (TIDMAP_SIZE 3) ∧
      s.st.2 = ((live_entries [none, some 10, some 20, some 30] 0 (TIDMAP_SIZE 3)).filter
        (fun ip => (if ip.2 = 20 then none else some 70) = some 70)).map Prod.snd ∧
      s.st.1 = s.st.2.foldl (fun st p => ((fun (st : Nat) (p : Nat) => (st + p, false)) st p).1) 0 ∧
      (∀ p, p ∈ s.st.2 ↔ ∃ i, i < TIDMAP_SIZE 3 ∧
        [none, some 10, some 20, some 30].getD i none = some p ∧
        (if p = 20 then none else some 70) = some 70) ∧
      (((live_entries [none, some 10, some 20, some 30] 0 (TIDMAP_SIZE 3)).filter
        (fun ip => (if ip.2 = 20 then none else some 70) = some 70)).map
          Prod.fst).Pairwise (fun a b => a < b) :=
  ⟨rfl, fun _ _ => rfl, by decide,
    uk_process_foreach_child_visits_children 3 [none, some 10, some 20, some 30] rfl
      (fun a => ⟨a, if a = 20 then none else some 70, [], [], false, 0⟩) (some 70)
      (fun (st : Nat) (p : Nat) => (st + p, false)) (fun _ _ => rfl) 6 (by decide) 0⟩

/-! ## The termination and wait protocols -/

/-- The records after a change of the record at `p`. -/
theorem modify_record_records (st : system_state) (p : Nat)
    (f : posix_process → posix_process) (q : Nat) :
    (modify_record st p f).records q =
      if q = p then (st.records p).map f else st.records q := by
  unfold modify_record
  cases h : st.records p with
  | none =>
    by_cases hq : q = p
    · subst hq
      simp [h]
    · simp [hq]
  | some r =>
    by_cases hq : q = p
    · simp [set_record, hq]
    · simp [set_record, hq]

/-- A change of a record leaves the identifier table as it is. -/
theorem modify_record_pid_process (st : system_state) (p : Nat)
    (f : posix_process → posix_process) :
    (modify_record st p f).pid_process = st.pid_process := by
  unfold modify_record
  cases st.records p <;> rfl

/-- A change of a record leaves the events as they are. -/
theorem modify_record_events (st : system_state) (p : Nat)
    (f : posix_process → posix_process) :
    (modify_record st p f).events = st.events := by
  unfold modify_record
  cases st.records p <;> rfl

/-- The records after the reparenting of the child `c` of the process at `p`:
the record at `c` has the init process as parent, the children set at `p`
loses `c` and the one of the init process holds `c`; nothing else changes. -/
theorem reparent_child_records (st : system_state) (p c q : Nat) :
    (reparent_child st p c).records q =
      (st.records q).map (fun r =>
        ⟨r.pid, if q = c then some init_process else r.parent,
          if q = init_process then
            List.insert c (if q = p then r.children.erase c else r.children)
          else if q = p then r.children.erase c else r.children,
          r.threads, r.terminated, r.exit_status⟩) := by
  simp only [reparent_child, modify_record_records]
  by_cases h1 : q = init_process <;> by_cases h2 : q = p <;> by_cases h3 : q = c <;>
    cases hq : st.records q <;> simp_all

/-- The reparenting of a child leaves the identifier table as it is. -/
theorem reparent_child_pid_process (st : system_state) (p c : Nat) :
    (reparent_child st p c).pid_process = st.pid_process := by
  simp only [reparent_child, modify_record_pid_process]

/-- The reparenting of children keeps every record and changes only the
parent and the children set of a record. -/
theorem reparent_children_keeps (p : Nat) (cs : List Nat) :
    ∀ (st : system_state) (q : Nat) (r : posix_process), st.records q = some r →
      ∃ r', (reparent_children st p cs).records q = some r' ∧ r'.pid = r.pid ∧
        r'.threads = r.threads ∧ r'.terminated = r.terminated ∧
        r'.exit_status = r.exit_status := by
  induction cs with
  | nil =>
    intro st q r h
    exact ⟨r, h, rfl, rfl, rfl, rfl⟩
  | cons c cs ih =>
    intro st q r h
    have hstep : (reparent_child st p c).records q = some
        ⟨r.pid, if q = c then some init_process else r.parent,
          if q = init_process then
            List.insert c (if q = p then r.children.erase c else r.children)
          else if q = p then r.children.erase c else r.children,
          r.threads, r.terminated, r.exit_status⟩ := by
      rw [reparent_child_records, h]
      rfl
    obtain ⟨r', h1, h2, h3, h4, h5⟩ := ih (reparent_child st p c) q _ hstep
    exact ⟨r', h1, h2, h3, h4, h5⟩

/-- The reparenting of children leaves the identifier table as it is. -/
theorem reparent_children_pid_process (p : Nat) (cs : List Nat) :
    ∀ st : system_state, (reparent_children st p cs).pid_process = st.pid_process := by
  induction cs with
  | nil => intro st; rfl
  | cons c cs ih =>
    intro st
    show (reparent_children (reparent_child st p c) p cs).pid_process = st.pid_process
    rw [ih, reparent_child_pid_process]

/-- The termination protocol succeeds on a thread of a process that is live,
for the states `Exited` and `Killed`, and leaves the state that the five steps
make. -/
theorem pprocess_exit_ok (st : system_state) (current tid p : Nat) (proc : posix_process)
    (state : posix_thread_state) (exit_status : Int)
    (hstate : state = .POSIX_THREAD_EXITED ∨ state = .POSIX_THREAD_KILLED)
    (htab : st.pid_process tid = some p) (hrec : st.records p = some proc)
    (hth : ∃ th ∈ proc.threads, th.tid = tid) (hlive : proc.terminated = false) :
    pprocess_exit st current tid state exit_status =
      .ok ⟨notify_parent
            (reparent_children
              (set_record st p
                ⟨proc.pid, proc.parent, proc.children,
                  exit_threads tid state proc.threads, true, exit_status⟩)
              p proc.children)
            proc.pid proc.parent,
          decide (tid = current), none⟩ := by
  have hs : ¬ (state ≠ .POSIX_THREAD_EXITED ∧ state ≠ .POSIX_THREAD_KILLED) := by
    rcases hstate with h | h <;> simp [h]
  unfold pprocess_exit
  rw [if_neg hs]
  simp only [htab, hrec, hlive]
  rw [if_neg (not_not.mpr hth)]
  simp [handed_back, pprocess_exit_return_type]

/-- The notification of the parent leaves the records and the identifier
table as they are. -/
theorem notify_parent_records (st : system_state) (pid : Nat) (parent : Option Nat) :
    (notify_parent st pid parent).records = st.records ∧
    (notify_parent st pid parent).pid_process = st.pid_process := by
  cases parent <;> exact ⟨rfl, rfl⟩

/-- The record of the process after the termination protocol: its thread set
went through steps 1 and 2, and step 3 set `terminated` and `exit_status`. -/
theorem pprocess_exit_record (st : system_state) (current tid p : Nat) (proc : posix_process)
    (state : posix_thread_state) (exit_status : Int)
    (hstate : state = .POSIX_THREAD_EXITED ∨ state = .POSIX_THREAD_KILLED)
    (htab : st.pid_process tid = some p) (hrec : st.records p = some proc)
    (hth : ∃ th ∈ proc.threads, th.tid = tid) (hlive : proc.terminated = false) :
    ∃ out proc', pprocess_exit st current tid state exit_status = .ok out ∧
      out.st.pid_process = st.pid_process ∧
      out.blocks = decide (tid = current) ∧ out.value = none ∧
      out.st.records p = some proc' ∧ proc'.pid = proc.pid ∧
      proc'.threads = exit_threads tid state proc.threads ∧
      proc'.terminated = true ∧ proc'.exit_status = exit_status := by
  have hset : (set_record st p
      ⟨proc.pid, proc.parent, proc.children, exit_threads tid state proc.threads, true,
        exit_status⟩).records p = some
      ⟨proc.pid, proc.parent, proc.children, exit_threads tid state proc.threads, true,
        exit_status⟩ := by
    simp [set_record]
  obtain ⟨r', h1, h2, h3, h4, h5⟩ := reparent_children_keeps p proc.children _ p _ hset
  refine ⟨_, r', pprocess_exit_ok st current tid p proc state exit_status hstate htab hrec
    hth hlive, ?_, rfl, rfl, ?_, h2, h3, h4, h5⟩
  · show (notify_parent _ _ _).pid_process = _
    rw [(notify_parent_records _ _ _).2, reparent_children_pid_process]
    rfl
  · show (notify_parent _ _ _).records p = _
    rw [(notify_parent_records _ _ _).1]
    exact h1

/-- The thread set after steps 1 and 2: the same threads, the one that
terminates in the new state and every other one in the state `Killed`. -/
theorem exit_threads_spec (tid : Nat) (state : posix_thread_state)
    (threads : List posix_thread) :
    (exit_threads tid state threads).length = threads.length ∧
    (exit_threads tid state threads).map (fun th => th.tid) =
      threads.map (fun th => th.tid) ∧
    ∀ th ∈ exit_threads tid state threads,
      (th.tid = tid → th.state = state) ∧
      (th.tid ≠ tid → th.state = .POSIX_THREAD_KILLED) := by
  refine ⟨by simp [exit_threads], ?_, ?_⟩
  · simp only [exit_threads, List.map_map]
    apply List.map_congr_left
    intro th _
    by_cases h : th.tid = tid <;> simp [h]
  · intro th hth
    simp only [exit_threads, List.mem_map] at hth
    obtain ⟨th0, _, rfl⟩ := hth
    by_cases h : th0.tid = tid <;> simp [h]

/-- C14: after `pprocess_exit` on a thread of a live process with the state
`Exited` or `Killed`, the process has the same thread records as before, all
of them in the state `Exited` or `Killed`: the thread that terminated is in
the state chosen and each of the others in the state `Killed`. -/
theorem pprocess_exit_thread_states (st : system_state) (current tid p : Nat)
    (proc : posix_process) (state : posix_thread_state) (exit_status : Int)
    (hstate : state = .POSIX_THREAD_EXITED ∨ state = .POSIX_THREAD_KILLED)
    (htab : st.pid_process tid = some p) (hrec : st.records p = some proc)
    (hth : ∃ th ∈ proc.threads, th.tid = tid) (hlive : proc.terminated = false) :
    ∃ out proc', pprocess_exit st current tid state exit_status = .ok out ∧
      out.st.records p = some proc' ∧
      proc'.threads.length = proc.threads.length ∧
      proc'.threads.map (fun th => th.tid) = proc.threads.map (fun th => th.tid) ∧
      (∃ th ∈ proc'.threads, th.tid = tid) ∧
      ∀ th ∈ proc'.threads,
        (th.tid = tid → th.state = state) ∧
        (th.tid ≠ tid → th.state = .POSIX_THREAD_KILLED) ∧
        (th.state = .POSIX_THREAD_EXITED ∨ th.state = .POSIX_THREAD_KILLED) := by
  obtain ⟨out, proc', hok, _, _, _, hrec', _, hthreads, _, _⟩ :=
    pprocess_exit_record st current tid p proc state exit_status hstate htab hrec hth hlive
  obtain ⟨hlen, hmap, hall⟩ := exit_threads_spec tid state proc.threads
  refine ⟨out, proc', hok, hrec', ?_, ?_, ?_, ?_⟩
  · rw [hthreads]
    exact hlen
  · rw [hthreads]
    exact hmap
  · obtain ⟨th, hmem, htid⟩ := hth
    have hin : tid ∈ proc'.threads.map (fun th => th.tid) := by
      rw [hthreads, hmap]
      exact List.mem_map.2 ⟨th, hmem, htid⟩
    obtain ⟨th', hmem', htid'⟩ := List.mem_map.1 hin
    exact ⟨th', hmem', htid'⟩
  · intro th hmem
    rw [hthreads] at hmem
    obtain ⟨h1, h2⟩ := hall th hmem
    refine ⟨h1, h2, ?_⟩
    by_cases h : th.tid = tid
    · rcases hstate with hs | hs
      · exact Or.inl ((h1 h).trans hs)
      · exact Or.inr ((h1 h).trans hs)
    · exact Or.inr (h2 h)

/-- Instance of C14: in the scenario, the thread 6 of the process 5 is killed
by the thread 2 with the signal number 9. -/
theorem pprocess_exit_thread_states_witness :
    (posix_thread_state.POSIX_THREAD_KILLED = .POSIX_THREAD_EXITED ∨
      posix_thread_state.POSIX_THREAD_KILLED = .POSIX_THREAD_KILLED) ∧
    scenario_state.pid_process 6 = some 5 ∧
    (∃ proc, scenario_state.records 5 = some proc ∧ (∃ th ∈ proc.threads, th.tid = 6) ∧
      proc.terminated = false ∧
      ∃ out proc', pprocess_exit scenario_state 2 6 .POSIX_THREAD_KILLED 9 = .ok out ∧
        out.st.records 5 = some proc' ∧
        proc'.threads.length = proc.threads.length ∧
        proc'.threads.map (fun th => th.tid) = proc.threads.map (fun th => th.tid) ∧
        (∃ th ∈ proc'.threads, th.tid = 6) ∧
        ∀ th ∈ proc'.threads,
          (th.tid = 6 → th.state = .POSIX_THREAD_KILLED) ∧
          (th.tid ≠ 6 → th.state = .POSIX_THREAD_KILLED) ∧
          (th.state = .POSIX_THREAD_EXITED ∨ th.state = .POSIX_THREAD_KILLED)) :=
  ⟨Or.inr rfl, rfl, _, rfl, ⟨⟨6, 5, .POSIX_THREAD_RUNNING, 0⟩, by simp, rfl⟩, rfl,
    pprocess_exit_thread_states scenario_state 2 6 5 _ .POSIX_THREAD_KILLED 9 (Or.inr rfl)
      rfl rfl ⟨⟨6, 5, .POSIX_THREAD_RUNNING, 0⟩, by simp, rfl⟩ rfl⟩

/-- C13 (evaluation of the code): `pprocess_exit` is declared with the return
type `void`.  In the scenario, called by the thread 2 for the thread 6 with the
state `Killed` and the signal number 9, it comes back to the caller without
blocking and hands back no value; the 9 is in the record of the process
only. -/
theorem pprocess_exit_returns_no_value :
    pprocess_exit_return_type = .void ∧
    ∃ out proc', pprocess_exit scenario_state 2 6 .POSIX_THREAD_KILLED 9 = .ok out ∧
      out.blocks = false ∧ out.value = none ∧ out.value ≠ some 9 ∧
      out.st.records 5 = some proc' ∧ proc'.exit_status = 9 :=
  ⟨rfl, _, _, rfl, rfl, rfl, by decide, rfl, rfl⟩

/-- The call of `pprocess_exit` for a thread other than the calling thread, on
a thread of a live process and with the state `Exited` or `Killed`, comes back
to the caller without blocking; it hands back no value, and the exit status is
in the record of the process. -/
theorem pprocess_exit_other_thread (st : system_state) (current tid p : Nat)
    (proc : posix_process) (state : posix_thread_state) (exit_status : Int)
    (hstate : state = .POSIX_THREAD_EXITED ∨ state = .POSIX_THREAD_KILLED)
    (htab : st.pid_process tid = some p) (hrec : st.records p = some proc)
    (hth : ∃ th ∈ proc.threads, th.tid = tid) (hlive : proc.terminated = false)
    (hother : tid ≠ current) :
    ∃ out proc', pprocess_exit st current tid state exit_status = .ok out ∧
      out.blocks = false ∧ out.value = none ∧
      out.st.records p = some proc' ∧ proc'.exit_status = exit_status := by
  obtain ⟨out, proc', hok, _, hblocks, hvalue, hrec', _, _, _, hstatus⟩ :=
    pprocess_exit_record st current tid p proc state exit_status hstate htab hrec hth hlive
  refine ⟨out, proc', hok, ?_, hvalue, hrec', hstatus⟩
  rw [hblocks]
  exact decide_eq_false hother

/-- Instance of the call for another thread: the scenario, the thread 2 kills
the thread 6. -/
theorem pprocess_exit_other_thread_witness :
    (posix_thread_state.POSIX_THREAD_KILLED = .POSIX_THREAD_EXITED ∨
      posix_thread_state.POSIX_THREAD_KILLED = .POSIX_THREAD_KILLED) ∧
    scenario_state.pid_process 6 = some 5 ∧ (6 : Nat) ≠ 2 ∧
    (∃ proc, scenario_state.records 5 = some proc ∧ (∃ th ∈ proc.threads, th.tid = 6) ∧
      proc.terminated = false ∧
      ∃ out proc', pprocess_exit scenario_state 2 6 .POSIX_THREAD_KILLED 9 = .ok out ∧
        out.blocks = false ∧ out.value = none ∧
        out.st.records 5 = some proc' ∧ proc'.exit_status = 9) :=
  ⟨Or.inr rfl, rfl, by decide, _, rfl, ⟨⟨6, 5, .POSIX_THREAD_RUNNING, 0⟩, by simp, rfl⟩, rfl,
    pprocess_exit_other_thread scenario_state 2 6 5 _ .POSIX_THREAD_KILLED 9 (Or.inr rfl)
      rfl rfl ⟨⟨6, 5, .POSIX_THREAD_RUNNING, 0⟩, by simp, rfl⟩ rfl (by decide)⟩

/-- The record at an address after the reparenting of a child, when there was
a record. -/
theorem reparent_child_record_of (st : system_state) (p c q : Nat) (r : posix_process)
    (h : st.records q = some r) :
    (reparent_child st p c).records q = some
      ⟨r.pid, if q = c then some init_process else r.parent,
        if q = init_process then
          List.insert c (if q = p then r.children.erase c else r.children)
        else if q = p then r.children.erase c else r.children,
        r.threads, r.terminated, r.exit_status⟩ := by
  rw [reparent_child_records, h]
  rfl

/-- The reparenting of a child keeps the children set of the init process
without repetition. -/
theorem reparent_child_init_nodup (st : system_state) (p c : Nat)
    (h : init_children_nodup st) : init_children_nodup (reparent_child st p c) := by
  obtain ⟨ini, hini, hnodup⟩ := h
  refine ⟨_, reparent_child_record_of st p c init_process ini hini, ?_⟩
  simp only [if_true]
  apply List.Nodup.insert
  split
  · exact hnodup.erase c
  · exact hnodup

/-- A member of a list stays in it when `c` is erased and then inserted. -/
theorem mem_insert_erase (l : List Nat) (c x : Nat) (b : Prop) [Decidable b] (h : x ∈ l) :
    x ∈ List.insert c (if b then l.erase c else l) := by
  by_cases hx : x = c
  · subst hx
    exact List.mem_insert_self _ _
  · apply List.mem_insert_of_mem
    split
    · exact (List.mem_erase_of_ne hx).2 h
    · exact h

/-- A child of the init process stays one when another child is reparented. -/
theorem reparent_child_keeps_adopted (st : system_state) (p c x : Nat)
    (h : adopted_by_init st x) : adopted_by_init (reparent_child st p c) x := by
  obtain ⟨⟨r, hr, hpar⟩, ini, hini, hmem⟩ := h
  refine ⟨⟨_, reparent_child_record_of st p c x r hr, ?_⟩,
    _, reparent_child_record_of st p c init_process ini hini, ?_⟩
  · show (if x = c then some init_process else r.parent) = some init_process
    split
    · rfl
    · exact hpar
  · simp only [if_true]
    exact mem_insert_erase ini.children c x _ hmem

/-- The child that is reparented becomes a child of the init process. -/
theorem reparent_child_adopts (st : system_state) (p c : Nat) (r ini : posix_process)
    (hr : st.records c = some r) (hini : st.records init_process = some ini) :
    adopted_by_init (reparent_child st p c) c := by
  refine ⟨⟨_, reparent_child_record_of st p c c r hr, ?_⟩,
    _, reparent_child_record_of st p c init_process ini hini, ?_⟩
  · simp
  · simp only [if_true]
    exact List.mem_insert_self _ _

/-- Step 4 of the termination protocol: with the record of the init process
there and its children set without repetition, and a record for each child in
the list, every child of the list becomes a child of the init process and the
children set of the init process stays without repetition. -/
theorem reparent_children_spec (p : Nat) (cs : List Nat) :
    ∀ st : system_state, init_children_nodup st →
      (∀ c ∈ cs, ∃ r, st.records c = some r) →
      init_children_nodup (reparent_children st p cs) ∧
      (∀ c ∈ cs, adopted_by_init (reparent_children st p cs) c) ∧
      (∀ x, adopted_by_init st x → adopted_by_init (reparent_children st p cs) x) := by
  induction cs with
  | nil =>
    intro st hinit _
    exact ⟨hinit, fun c hc => absurd hc (List.not_mem_nil c), fun x hx => hx⟩
  | cons c cs ih =>
    intro st hinit hlive
    have hlive' : ∀ d ∈ cs, ∃ r, (reparent_child st p c).records d = some r := by
      intro d hd
      obtain ⟨r, hr⟩ := hlive d (List.mem_cons_of_mem c hd)
      exact ⟨_, reparent_child_record_of st p c d r hr⟩
    obtain ⟨h1, h2, h3⟩ := ih (reparent_child st p c)
      (reparent_child_init_nodup st p c hinit) hlive'
    refine ⟨h1, ?_, ?_⟩
    · intro d hd
      rcases List.mem_cons.1 hd with hdc | hdcs
      · subst hdc
        obtain ⟨r, hr⟩ := hlive d (List.mem_cons_self d cs)
        obtain ⟨ini, hini, _⟩ := hinit
        exact h3 d (reparent_child_adopts st p d r ini hr hini)
      · exact h2 d hdcs
    · intro x hx
      exact h3 x (reparent_child_keeps_adopted st p c x hx)

/-- C16: after `pprocess_exit` on a thread of a live process P, in a state
where the init process has a record with a children set without repetition and
every child of P has a record, every process that was a child of P has the
init process (identifier 1) as parent and is in the children set of the init
process, and that set holds no record twice. -/
theorem pprocess_exit_reparents_children (st : system_state) (current tid p : Nat)
    (proc : posix_process) (state : posix_thread_state) (exit_status : Int)
    (hstate : state = .POSIX_THREAD_EXITED ∨ state = .POSIX_THREAD_KILLED)
    (htab : st.pid_process tid = some p) (hrec : st.records p = some proc)
    (hth : ∃ th ∈ proc.threads, th.tid = tid) (hlive : proc.terminated = false)
    (hinit : init_children_nodup st)
    (hchildren : ∀ c ∈ proc.children, ∃ r, st.records c = some r) :
    ∃ out, pprocess_exit st current tid state exit_status = .ok out ∧
      init_process = 1 ∧
      (∀ c ∈ proc.children,
        (∃ r, out.st.records c = some r ∧ r.parent = some init_process) ∧
        ∃ ini, out.st.records init_process = some ini ∧ c ∈ ini.children) ∧
      ∃ ini, out.st.records init_process = some ini ∧ ini.children.Nodup := by
  have hinit' : init_children_nodup (set_record st p
      ⟨proc.pid, proc.parent, proc.children, exit_threads tid state proc.threads, true,
        exit_status⟩) := by
    obtain ⟨ini, hini, hnodup⟩ := hinit
    by_cases hp : init_process = p
    · subst hp
      rw [hrec] at hini
      cases hini
      exact ⟨⟨proc.pid, proc.parent, proc.children, exit_threads tid state proc.threads,
        true, exit_status⟩, by simp [set_record], hnodup⟩
    · exact ⟨ini, by simp [set_record, hp, hini], hnodup⟩
  have hchildren' : ∀ c ∈ proc.children, ∃ r, (set_record st p
      ⟨proc.pid, proc.parent, proc.children, exit_threads tid state proc.threads, true,
        exit_status⟩).records c = some r := by
    intro c hc
    obtain ⟨r, hr⟩ := hchildren c hc
    by_cases hcp : c = p
    · exact ⟨⟨proc.pid, proc.parent, proc.children, exit_threads tid state proc.threads,
        true, exit_status⟩, by simp [set_record, hcp]⟩
    · exact ⟨r, by simp [set_record, hcp, hr]⟩
  obtain ⟨h1, h2, _⟩ := reparent_children_spec p proc.children _ hinit' hchildren'
  refine ⟨_, pprocess_exit_ok st current tid p proc state exit_status hstate htab hrec hth
    hlive, rfl, ?_, ?_⟩
  · intro c hc
    have h := h2 c hc
    simp only [adopted_by_init] at h
    simpa only [(notify_parent_records _ _ _).1] using h
  · simp only [init_children_nodup] at h1
    simpa only [(notify_parent_records _ _ _).1] using h1

/-- Instance of C16: the scenario, T1 (thread 5) of the process 5 with the
children 8 and 9 exits with the status 7. -/
theorem pprocess_exit_reparents_children_witness :
    (posix_thread_state.POSIX_THREAD_EXITED = .POSIX_THREAD_EXITED ∨
      posix_thread_state.POSIX_THREAD_EXITED = .POSIX_THREAD_KILLED) ∧
    scenario_state.pid_process 5 = some 5 ∧
    scenario_state.records 5 = some ⟨5, some 2, [8, 9],
      [⟨5, 5, .POSIX_THREAD_RUNNING, 0⟩, ⟨6, 5, .POSIX_THREAD_RUNNING, 0⟩,
        ⟨7, 5, .POSIX_THREAD_RUNNING, 0⟩], false, 0⟩ ∧
    init_children_nodup scenario_state ∧
    (∀ c ∈ [8, 9], ∃ r, scenario_state.records c = some r) ∧
    ∃ out, pprocess_exit scenario_state 5 5 .POSIX_THREAD_EXITED 7 = .ok out ∧
      init_process = 1 ∧
      (∀ c ∈ [8, 9],
        (∃ r, out.st.records c = some r ∧ r.parent = some init_process) ∧
        ∃ ini, out.st.records init_process = some ini ∧ c ∈ ini.children) ∧
      ∃ ini, out.st.records init_process = some ini ∧ ini.children.Nodup :=
  have hinit : init_children_nodup scenario_state := ⟨_, rfl, by decide⟩
  have hchildren : ∀ c ∈ [8, 9], ∃ r, scenario_state.records c = some r := by
    intro c hc
    simp only [List.mem_cons, List.mem_singleton, List.not_mem_nil, or_false] at hc
    rcases hc with rfl | rfl <;> exact ⟨_, rfl⟩
  ⟨Or.inl rfl, rfl, rfl, hinit, hchildren,
    pprocess_exit_reparents_children scenario_state 5 5 5
      ⟨5, some 2, [8, 9],
        [⟨5, 5, .POSIX_THREAD_RUNNING, 0⟩, ⟨6, 5, .POSIX_THREAD_RUNNING, 0⟩,
          ⟨7, 5, .POSIX_THREAD_RUNNING, 0⟩], false, 0⟩
      .POSIX_THREAD_EXITED 7 (Or.inl rfl) rfl rfl
      ⟨⟨5, 5, .POSIX_THREAD_RUNNING, 0⟩, by simp, rfl⟩ rfl hinit hchildren⟩

/-- What the wait protocol leaves when it does not fail: the caller blocked, or
a terminated child reaped; the child is a member of the children set of the
parent when the target is "any child", and else the process that the target
names, with `parent` as its parent. -/
theorem uk_posix_process_wait_ok (st : system_state) (parent caller : Nat) (target : Int)
    (o : wait_outcome) (h : uk_posix_process_wait st parent caller target = .ok o) :
    o = .blocked (block_caller st parent caller target) ∨
    ∃ c child, st.records c = some child ∧ child.terminated = true ∧
      o = reap st parent caller c child ∧
      ((target = UK_PID_WAIT_ANY ∧ ∃ par, st.records parent = some par ∧ c ∈ par.children) ∨
        (0 ≤ target ∧ st.pid_process target.toNat = some c ∧ child.pid = target.toNat ∧
          child.parent = some parent)) := by
  unfold uk_posix_process_wait at h
  cases hpar : st.records parent with
  | none => simp [hpar] at h
  | some par =>
    simp only [hpar] at h
    by_cases hany : target = UK_PID_WAIT_ANY
    · rw [if_pos hany] at h
      cases hfind : par.children.find? (is_zombie st) with
      | none =>
        simp only [hfind] at h
        cases h
        exact Or.inl rfl
      | some c =>
        simp only [hfind] at h
        cases hc : st.records c with
        | none => simp [hc] at h
        | some child =>
          simp only [hc] at h
          cases h
          have hz : is_zombie st c = true := List.find?_some hfind
          simp only [is_zombie, hc] at hz
          exact Or.inr ⟨c, child, hc, hz, rfl,
            Or.inl ⟨hany, par, rfl, List.mem_of_find?_eq_some hfind⟩⟩
    · rw [if_neg hany] at h
      by_cases hneg : target < 0
      · simp [hneg] at h
      · rw [if_neg hneg] at h
        cases htab : st.pid_process target.toNat with
        | none => simp [htab] at h
        | some c =>
          simp only [htab] at h
          cases hc : st.records c with
          | none => simp [hc] at h
          | some child =>
            simp only [hc] at h
            by_cases hbad : child.pid ≠ target.toNat ∨ child.parent ≠ some parent
            · simp [hbad] at h
            · rw [if_neg hbad] at h
              have hgood : child.pid = target.toNat ∧ child.parent = some parent := by
                constructor
                · by_contra hx
                  exact hbad (Or.inl hx)
                · by_contra hx
                  exact hbad (Or.inr hx)
              by_cases hterm : child.terminated = true
              · rw [if_pos hterm] at h
                cases h
                exact Or.inr ⟨c, child, hc, hterm, rfl,
                  Or.inr ⟨by omega, rfl, hgood.1, hgood.2⟩⟩
              · rw [if_neg hterm] at h
                cases h
                exact Or.inl rfl

/-- C18: for a parent process with a record and a target that names an
identifier which is not that of a child of the parent (no record is found
under it, or the record found is that of a process with another parent), the
wait protocol fails with NotAChild; it does not block. -/
theorem wait_for_stranger_is_not_a_child (st : system_state) (parent caller : Nat)
    (target : Int) (par : posix_process) (hpar : st.records parent = some par)
    (hany : target ≠ UK_PID_WAIT_ANY)
    (hnot : ∀ child, 0 ≤ target → pid2pprocess st target.toNat = some child →
      child.pid = target.toNat → child.parent ≠ some parent) :
    uk_posix_process_wait st parent caller target = .error .NotAChild := by
  unfold uk_posix_process_wait
  simp only [hpar]
  rw [if_neg hany]
  by_cases hneg : target < 0
  · rw [if_pos hneg]
  · rw [if_neg hneg]
    cases htab : st.pid_process target.toNat with
    | none => rfl
    | some c =>
      cases hc : st.records c with
      | none => simp [hc]
      | some child =>
        have hlook : pid2pprocess st target.toNat = some child := by
          simp only [pid2pprocess, htab, Option.bind_some]
          exact hc
        by_cases hpid : child.pid = target.toNat
        · have hp := hnot child (by omega) hlook hpid
          simp [hc, hpid, hp]
        · simp [hc, hpid]

/-- Instance of C18: the scenario, the thread 2 of the process 2 waits for the
identifier 42, which is in no slot, and for 8, a child of the process 5. -/
theorem wait_for_stranger_is_not_a_child_witness :
    (∃ par, scenario_state.records 2 = some par) ∧ (42 : Int) ≠ UK_PID_WAIT_ANY ∧
    (∀ child, (0 : Int) ≤ 42 → pid2pprocess scenario_state (42 : Int).toNat = some child →
      child.pid = (42 : Int).toNat → child.parent ≠ some 2) ∧
    uk_posix_process_wait scenario_state 2 2 42 = .error .NotAChild :=
  have hnot : ∀ child, (0 : Int) ≤ 42 →
      pid2pprocess scenario_state (42 : Int).toNat = some child →
      child.pid = (42 : Int).toNat → child.parent ≠ some 2 := by
    intro child _ hlook
    have hnone : pid2pprocess scenario_state (42 : Int).toNat = none := rfl
    rw [hnone] at hlook
    cases hlook
  ⟨⟨_, rfl⟩, by decide, hnot,
    wait_for_stranger_is_not_a_child scenario_state 2 2 42 _ rfl (by decide) hnot⟩

/-! ## The identifier table in the reachable states -/

/-- The agreement of table and records depends on the table and on the
identifiers that the records hold only. -/
theorem table_ok_of_same_identifiers (st st' : system_state)
    (htab : st'.pid_process = st.pid_process)
    (hids : ∀ p, (st'.records p).map identifiers_of = (st.records p).map identifiers_of)
    (h : table_ok st) : table_ok st' := by
  obtain ⟨h1, h2⟩ := h
  have hback : ∀ p r', st'.records p = some r' →
      ∃ r, st.records p = some r ∧ identifiers_of r = identifiers_of r' := by
    intro p r' hr'
    have hp := hids p
    rw [hr'] at hp
    cases hr : st.records p with
    | none => rw [hr] at hp; cases hp
    | some r =>
      rw [hr] at hp
      simp only [Option.map_some', Option.some.injEq] at hp
      exact ⟨r, rfl, hp.symm⟩
  have hforth : ∀ p r, st.records p = some r →
      ∃ r', st'.records p = some r' ∧ identifiers_of r' = identifiers_of r := by
    intro p r hr
    have hp := hids p
    rw [hr] at hp
    cases hr' : st'.records p with
    | none => rw [hr'] at hp; cases hp
    | some r' =>
      rw [hr'] at hp
      simp only [Option.map_some', Option.some.injEq] at hp
      exact ⟨r', rfl, hp⟩
  constructor
  · intro p r' hr'
    obtain ⟨r, hr, hid⟩ := hback p r' hr'
    obtain ⟨a, b, c, d⟩ := h1 p r hr
    have hpid : r'.pid = r.pid := (congrArg Prod.fst hid).symm
    rw [htab, ← hid]
    exact ⟨hpid.trans a, b, c, d⟩
  · intro i p hi
    rw [htab] at hi
    obtain ⟨r, hr, hor⟩ := h2 i p hi
    obtain ⟨r', hr', hid⟩ := hforth p r hr
    exact ⟨r', hr', by rw [hid]; exact hor⟩

/-- A change of a record that keeps its identifiers keeps the identifiers of
every record. -/
theorem modify_record_identifiers (st : system_state) (p : Nat)
    (f : posix_process → posix_process)
    (hf : ∀ r, identifiers_of (f r) = identifiers_of r) (q : Nat) :
    ((modify_record st p f).records q).map identifiers_of =
      (st.records q).map identifiers_of := by
  rw [modify_record_records]
  by_cases hq : q = p
  · subst hq
    rw [if_pos rfl]
    cases st.records q with
    | none => rfl
    | some r => simp [hf]
  · rw [if_neg hq]

/-- The reparenting of children keeps the identifiers of every record. -/
theorem reparent_children_identifiers (p : Nat) (cs : List Nat) :
    ∀ (st : system_state) (q : Nat),
      ((reparent_children st p cs).records q).map identifiers_of =
        (st.records q).map identifiers_of := by
  induction cs with
  | nil => intro st q; rfl
  | cons c cs ih =>
    intro st q
    show ((reparent_children (reparent_child st p c) p cs).records q).map identifiers_of = _
    rw [ih, reparent_child_records]
    cases st.records q with
    | none => rfl
    | some r => rfl

/-- The thread set after steps 1 and 2 has the identifiers it had. -/
theorem exit_threads_identifiers (tid : Nat) (state : posix_thread_state)
    (threads : List posix_thread) :
    (exit_threads tid state threads).map (fun th => th.tid) =
      threads.map (fun th => th.tid) :=
  (exit_threads_spec tid state threads).2.1

/-- Giving a thread a state and a wait target keeps the identifiers of the
thread set. -/
theorem set_thread_identifiers (tid : Nat) (state : posix_thread_state) (wait_pid : Int)
    (threads : List posix_thread) :
    (set_thread tid state wait_pid threads).map (fun th => th.tid) =
      threads.map (fun th => th.tid) := by
  simp only [set_thread, List.map_map]
  apply List.map_congr_left
  intro th _
  by_cases h : th.tid = tid <;> simp [h]

/-- Table and records agree in the boot state. -/
theorem table_ok_boot : table_ok boot_state := by
  constructor
  · intro p r hr
    simp only [boot_state] at hr ⊢
    by_cases hp : p = init_process
    · subst hp
      simp only [if_true, Option.some.injEq] at hr
      subst hr
      simp [identifiers_of]
    · simp [hp] at hr
  · intro i p hi
    simp only [boot_state] at hi ⊢
    by_cases h : i = init_process
    · subst h
      simp only [if_true, Option.some.injEq] at hi
      subst hi
      exact ⟨_, if_pos rfl, Or.inl rfl⟩
    · simp [h] at hi

/-- The termination protocol keeps table and records in agreement. -/
theorem table_ok_pprocess_exit (st : system_state) (current tid : Nat)
    (state : posix_thread_state) (exit_status : Int) (out : exit_outcome)
    (h : pprocess_exit st current tid state exit_status = .ok out) (hok : table_ok st) :
    table_ok out.st := by
  unfold pprocess_exit at h
  split at h
  · cases h
  · cases htab : st.pid_process tid with
    | none => simp [htab] at h
    | some p =>
      simp only [htab] at h
      cases hrec : st.records p with
      | none => simp [hrec] at h
      | some proc =>
        simp only [hrec] at h
        split at h
        · cases h
        · split at h
          · cases h
          · cases h
            apply table_ok_of_same_identifiers st _ _ _ hok
            · show (notify_parent _ _ _).pid_process = _
              rw [(notify_parent_records _ _ _).2, reparent_children_pid_process]
              rfl
            · intro q
              show ((notify_parent _ _ _).records q).map identifiers_of = _
              rw [(notify_parent_records _ _ _).1, reparent_children_identifiers]
              by_cases hq : q = p
              · subst hq
                simp [set_record, hrec, identifiers_of, exit_threads_identifiers]
              · simp [set_record, hq]

/-- Blocking the caller of a wait keeps table and records in agreement. -/
theorem table_ok_block_caller (st : system_state) (parent caller : Nat) (target : Int)
    (hok : table_ok st) : table_ok (block_caller st parent caller target) := by
  apply table_ok_of_same_identifiers st _ _ _ hok
  · exact modify_record_pid_process _ _ _
  · intro q
    apply modify_record_identifiers
    intro r
    simp [identifiers_of, set_thread_identifiers]

/-- Taking the record at `c` and the identifiers that the table maps to it
away keeps table and records in agreement. -/
theorem table_ok_remove (st : system_state) (c : Nat) (events : List process_event)
    (hok : table_ok st) :
    table_ok ⟨fun i => if st.pid_process i = some c then none else st.pid_process i,
      fun q => if q = c then none else st.records q, events⟩ := by
  obtain ⟨h1, h2⟩ := hok
  constructor
  · intro p r hr
    simp only at hr ⊢
    by_cases hp : p = c
    · simp [hp] at hr
    · rw [if_neg hp] at hr
      obtain ⟨a, b, d, e⟩ := h1 p r hr
      have hne : ¬ (some p = some c) := by
        intro hx
        exact hp (Option.some.inj hx)
      refine ⟨a, ?_, ?_, e⟩
      · rw [b, if_neg hne]
      · intro t ht
        rw [d t ht, if_neg hne]
  · intro i p hi
    simp only at hi ⊢
    by_cases hic : st.pid_process i = some c
    · simp [hic] at hi
    · rw [if_neg hic] at hi
      obtain ⟨r, hr, hor⟩ := h2 i p hi
      have hpc : p ≠ c := by
        intro hx
        subst hx
        exact hic hi
      exact ⟨r, by rw [if_neg hpc]; exact hr, hor⟩

/-- The reaping of a child keeps table and records in agreement, and takes the
identifier of the child out of the table. -/
theorem table_ok_reap (st : system_state) (parent caller c : Nat) (child : posix_process)
    (pid : Nat) (exit_status : Int) (st' : system_state)
    (h : reap st parent caller c child = .reaped pid exit_status st') (hok : table_ok st) :
    table_ok st' ∧ st'.pid_process c = (if st.pid_process c = some c then none
      else st.pid_process c) := by
  simp only [reap, wait_outcome.reaped.injEq] at h
  obtain ⟨_, _, hst⟩ := h
  subst hst
  refine ⟨table_ok_remove _ c _ ?_, ?_⟩
  · apply table_ok_of_same_identifiers st _ _ _ hok
    · exact modify_record_pid_process _ _ _
    · intro q
      apply modify_record_identifiers
      intro r
      simp only [identifiers_of, List.map_map, Prod.mk.injEq, true_and]
      apply List.map_congr_left
      intro th _
      by_cases hth : th.tid = caller <;> simp [hth]
  · simp only [modify_record_pid_process]

/-- The spawning of a process keeps table and records in agreement. -/
theorem table_ok_spawn_process (MAX_PID : Nat) (st st' : system_state) (parent id : Nat)
    (h : spawn_process MAX_PID st parent id = .ok st') (hok : table_ok st) :
    table_ok st' := by
  unfold spawn_process at h
  split at h
  · cases h
  · rename_i hfree
    have hnone : st.pid_process id = none := by
      by_contra hx
      exact hfree (Or.inr hx)
    cases hpar : st.records parent with
    | none => simp [hpar] at h
    | some par =>
      simp only [hpar] at h
      split at h
      · cases h
      · cases h
        have hmid : table_ok (set_record st parent
            ⟨par.pid, par.parent, List.insert id par.children, par.threads, par.terminated,
              par.exit_status⟩) := by
          refine table_ok_of_same_identifiers st _ ?_ ?_ hok
          · rfl
          · intro q
            by_cases hq : q = parent
            · subst hq
              simp [set_record, hpar, identifiers_of]
            · simp [set_record, hq]
        obtain ⟨h1, h2⟩ := hmid
        have hnone' : (set_record st parent
            ⟨par.pid, par.parent, List.insert id par.children, par.threads, par.terminated,
              par.exit_status⟩).pid_process id = none := hnone
        constructor
        · intro p r hr
          simp only at hr ⊢
          by_cases hp : p = id
          · subst hp
            simp only [if_true, Option.some.injEq] at hr
            subst hr
            simp [identifiers_of]
          · rw [if_neg hp] at hr
            obtain ⟨a, b, d, e⟩ := h1 p r hr
            refine ⟨a, ?_, ?_, e⟩
            · rw [if_neg hp]
              exact b
            · intro t ht
              have htid : t ≠ id := by
                intro hx
                subst hx
                rw [d t ht] at hnone'
                cases hnone'
              rw [if_neg htid]
              exact d t ht
        · intro i p hi
          simp only at hi ⊢
          by_cases hid : i = id
          · subst hid
            simp only [if_true, Option.some.injEq] at hi
            subst hi
            exact ⟨_, if_pos rfl, Or.inl rfl⟩
          · rw [if_neg hid] at hi
            obtain ⟨r, hr, hor⟩ := h2 i p hi
            have hp : p ≠ id := by
              intro hx
              subst hx
              rw [(h1 p r hr).2.1] at hnone'
              cases hnone'
            exact ⟨r, by rw [if_neg hp]; exact hr, hor⟩

/-- The spawning of a thread keeps table and records in agreement. -/
theorem table_ok_spawn_thread (MAX_PID : Nat) (st st' : system_state) (p id : Nat)
    (h : spawn_thread MAX_PID st p id = .ok st') (hok : table_ok st) :
    table_ok st' := by
  unfold spawn_thread at h
  split at h
  · cases h
  · rename_i hfree
    have hnone : st.pid_process id = none := by
      by_contra hx
      exact hfree (Or.inr hx)
    cases hrec : st.records p with
    | none => simp [hrec] at h
    | some proc =>
      simp only [hrec] at h
      split at h
      · cases h
      · cases h
        obtain ⟨h1, h2⟩ := hok
        obtain ⟨pa, pb, pd, pe⟩ := h1 p proc hrec
        have hpid : p ≠ id := by
          intro hx
          subst hx
          rw [pb] at hnone
          cases hnone
        constructor
        · intro q r hr
          simp only at hr ⊢
          by_cases hq : q = p
          · subst hq
            simp only [if_true, Option.some.injEq] at hr
            subst hr
            refine ⟨pa, ?_, ?_, ?_⟩
            · rw [if_neg hpid]
              exact pb
            · intro t ht
              simp only [identifiers_of, List.map_cons, List.mem_cons] at ht
              rcases ht with rfl | ht
              · simp
              · have htid : t ≠ id := by
                  intro hx
                  subst hx
                  rw [pd t ht] at hnone
                  cases hnone
                rw [if_neg htid]
                exact pd t ht
            · simp only [identifiers_of, List.map_cons, List.nodup_cons]
              refine ⟨?_, pe⟩
              intro hmem
              rw [pd id hmem] at hnone
              cases hnone
          · rw [if_neg hq] at hr
            obtain ⟨a, b, d, e⟩ := h1 q r hr
            have hqid : q ≠ id := by
              intro hx
              subst hx
              rw [b] at hnone
              cases hnone
            refine ⟨a, ?_, ?_, e⟩
            · rw [if_neg hqid]
              exact b
            · intro t ht
              have htid : t ≠ id := by
                intro hx
                subst hx
                rw [d t ht] at hnone
                cases hnone
              rw [if_neg htid]
              exact d t ht
        · intro i q hi
          simp only at hi ⊢
          by_cases hid : i = id
          · subst hid
            simp only [if_true, Option.some.injEq] at hi
            subst hi
            exact ⟨_, if_pos rfl, Or.inr (by simp [identifiers_of])⟩
          · rw [if_neg hid] at hi
            obtain ⟨r, hr, hor⟩ := h2 i q hi
            by_cases hq : q = p
            · subst hq
              rw [hrec] at hr
              cases hr
              refine ⟨_, if_pos rfl, ?_⟩
              rcases hor with hor | hor
              · exact Or.inl hor
              · exact Or.inr (by
                  simp only [identifiers_of, List.map_cons, List.mem_cons]
                  exact Or.inr hor)
            · exact ⟨r, by rw [if_neg hq]; exact hr, hor⟩

/-- Table and records agree in every reachable state. -/
theorem table_ok_of_reachable (MAX_PID : Nat) (st : system_state)
    (h : reachable MAX_PID st) : table_ok st := by
  induction h with
  | boot => exact table_ok_boot
  | spawn_process parent id _ hstep ih => exact table_ok_spawn_process MAX_PID _ _ parent id hstep ih
  | spawn_thread p id _ hstep ih => exact table_ok_spawn_thread MAX_PID _ _ p id hstep ih
  | terminate current tid state exit_status _ hstep ih =>
    exact table_ok_pprocess_exit _ current tid state exit_status _ hstep ih
  | wait_blocked parent caller target _ hstep ih =>
    rcases uk_posix_process_wait_ok _ parent caller target _ hstep with hb | ⟨c, child, _, _, ho, _⟩
    · cases hb
      exact table_ok_block_caller _ parent caller target ih
    · simp only [reap] at ho
      cases ho
  | wait_reaped parent caller target pid exit_status _ hstep ih =>
    rcases uk_posix_process_wait_ok _ parent caller target _ hstep with hb | ⟨c, child, _, _, ho, _⟩
    · cases hb
    · exact (table_ok_reap _ parent caller c child pid exit_status _ ho.symm ih).1

/-- In a thread set with distinct identifiers the search by the identifier of a
member finds that member. -/
theorem find_thread_of_nodup (threads : List posix_thread)
    (hnodup : (threads.map (fun th => th.tid)).Nodup) (th : posix_thread)
    (hth : th ∈ threads) :
    threads.find? (fun x => decide (x.tid = th.tid)) = some th := by
  induction threads with
  | nil => cases hth
  | cons a l ih =>
    simp only [List.map_cons, List.nodup_cons] at hnodup
    by_cases ha : a.tid = th.tid
    · rcases List.mem_cons.1 hth with h | h
      · subst h
        simp
      · exfalso
        apply hnodup.1
        rw [ha]
        exact List.mem_map.2 ⟨th, h, rfl⟩
    · have hne : th ≠ a := by
        intro hx
        subst hx
        exact ha rfl
      rcases List.mem_cons.1 hth with h | h
      · exact absurd h hne
      · rw [List.find?_cons_of_neg _ (by simpa using ha)]
        exact ih hnodup.2 h

/-- C19: in every state reached by spawns, terminations and waits, the
identifier of every record there is (of a process, and of each of its threads)
is mapped by the identifier table to that record; no two records hold the same
identifier (two process records that hold a common identifier, as process or
thread identifier, are the same record, and the thread records of a process
have distinct identifiers); and after a child is reaped, a lookup by its
identifier finds nothing. -/
theorem reachable_identifiers_unique (MAX_PID : Nat) (st : system_state)
    (h : reachable MAX_PID st) :
    (∀ p r, st.records p = some r →
      pid2pprocess st r.pid = some r ∧
      ∀ th ∈ r.threads, tid2pprocess st th.tid = some r ∧ tid2pthread st th.tid = some th) ∧
    (∀ p q r1 r2 i, st.records p = some r1 → st.records q = some r2 →
      (i = r1.pid ∨ ∃ th ∈ r1.threads, th.tid = i) →
      (i = r2.pid ∨ ∃ th ∈ r2.threads, th.tid = i) → p = q) ∧
    (∀ p r, st.records p = some r → (r.threads.map (fun th => th.tid)).Nodup) ∧
    (∀ parent caller target pid exit_status st',
      uk_posix_process_wait st parent caller target = .ok (.reaped pid exit_status st') →
      pid2pprocess st' pid = none) := by
  obtain ⟨h1, h2⟩ := table_ok_of_reachable MAX_PID st h
  have howner : ∀ p r i, st.records p = some r →
      (i = r.pid ∨ ∃ th ∈ r.threads, th.tid = i) → st.pid_process i = some p := by
    intro p r i hr hi
    obtain ⟨a, b, d, _⟩ := h1 p r hr
    rcases hi with hi | ⟨th, hth, hi⟩
    · rw [hi, a]
      exact b
    · exact d i (by
        simp only [identifiers_of, List.mem_map]
        exact ⟨th, hth, hi⟩)
  refine ⟨?_, ?_, ?_, ?_⟩
  · intro p r hr
    constructor
    · simp only [pid2pprocess, howner p r r.pid hr (Or.inl rfl), Option.bind_some]
      exact hr
    · intro th hth
      have hproc : tid2pprocess st th.tid = some r := by
        simp only [tid2pprocess, howner p r th.tid hr (Or.inr ⟨th, hth, rfl⟩),
          Option.bind_some]
        exact hr
      refine ⟨hproc, ?_⟩
      simp only [tid2pthread, hproc, Option.bind_some]
      exact find_thread_of_nodup r.threads (h1 p r hr).2.2.2 th hth
  · intro p q r1 r2 i hr1 hr2 hi1 hi2
    have e1 := howner p r1 i hr1 hi1
    have e2 := howner q r2 i hr2 hi2
    rw [e1] at e2
    exact Option.some.inj e2
  · intro p r hr
    exact (h1 p r hr).2.2.2
  · intro parent caller target pid exit_status st' hwait
    rcases uk_posix_process_wait_ok st parent caller target _ hwait with hb |
      ⟨c, child, hrec, _, ho, _⟩
    · cases hb
    · obtain ⟨_, htab⟩ := table_ok_reap st parent caller c child pid exit_status st'
        ho.symm ⟨h1, h2⟩
      obtain ⟨a, b, _, _⟩ := h1 c child hrec
      have hpid : pid = c := by
        simp only [reap, wait_outcome.reaped.injEq] at ho
        rw [ho.1, a]
      rw [hpid]
      simp only [pid2pprocess, htab, b, if_true]
      rfl

/-- Instance of C19: from the boot state the init process spawns the process
2, the process 2 spawns the thread 3, the thread 2 calls `pprocess_exit` for
itself with `Exited` and 7, and the init process waits for the child 2.
The state before the wait is reachable and has the records of the processes 1
and 2, the latter with the threads 3 and 2; the wait reaps the child 2, and
the lookup of 2 in the state it leaves finds nothing. -/
theorem reachable_identifiers_unique_witness :
    ∃ st1 st2 out st',
      spawn_process 9 boot_state 1 2 = .ok st1 ∧
      spawn_thread 9 st1 2 3 = .ok st2 ∧
      pprocess_exit st2 2 2 .POSIX_THREAD_EXITED 7 = .ok out ∧
      uk_posix_process_wait out.st 1 1 2 = .ok (.reaped 2 7 st') ∧
      out.st.records 1 = some ⟨1, none, [2], [⟨1, 1, .POSIX_THREAD_RUNNING, 0⟩], false, 0⟩ ∧
      out.st.records 2 = some ⟨2, some 1, [],
        [⟨3, 2, .POSIX_THREAD_KILLED, 0⟩, ⟨2, 2, .POSIX_THREAD_EXITED, 0⟩], true, 7⟩ ∧
      reachable 9 out.st ∧
      ((∀ p r, out.st.records p = some r →
        pid2pprocess out.st r.pid = some r ∧
        ∀ th ∈ r.threads, tid2pprocess out.st th.tid = some r ∧
          tid2pthread out.st th.tid = some th) ∧
      (∀ p q r1 r2 i, out.st.records p = some r1 → out.st.records q = some r2 →
        (i = r1.pid ∨ ∃ th ∈ r1.threads, th.tid = i) →
        (i = r2.pid ∨ ∃ th ∈ r2.threads, th.tid = i) → p = q) ∧
      (∀ p r, out.st.records p = some r → (r.threads.map (fun th => th.tid)).Nodup) ∧
      (∀ parent caller target pid exit_status st',
        uk_posix_process_wait out.st parent caller target =
          .ok (.reaped pid exit_status st') →
        pid2pprocess st' pid = none)) ∧
      pid2pprocess st' 2 = none := by
  refine ⟨_, _, _, _, rfl, rfl, rfl, rfl, rfl, rfl, ?_⟩
  have hreach : reachable 9 _ :=
    reachable.terminate 2 2 .POSIX_THREAD_EXITED 7
      (reachable.spawn_thread 2 3
        (reachable.spawn_process 1 2 reachable.boot
          (show spawn_process 9 boot_state 1 2 = .ok _ from rfl))
        (show spawn_thread 9 _ 2 3 = .ok _ from rfl))
      (show pprocess_exit _ 2 2 .POSIX_THREAD_EXITED 7 = .ok _ from rfl)
  exact ⟨hreach, reachable_identifiers_unique 9 _ hreach,
    (reachable_identifiers_unique 9 _ hreach).2.2.2 1 1 2 2 7 _ rfl⟩

/-! ## A zombie stays until it is reaped -/

/-- One operation keeps table and records in agreement. -/
theorem table_ok_step (MAX_PID : Nat) (st st' : system_state) (reaped : Option Nat)
    (h : step MAX_PID st reaped st') (hok : table_ok st) : table_ok st' := by
  cases h with
  | spawn_process parent id hstep => exact table_ok_spawn_process MAX_PID _ _ parent id hstep hok
  | spawn_thread p id hstep => exact table_ok_spawn_thread MAX_PID _ _ p id hstep hok
  | terminate current tid state exit_status hstep =>
    exact table_ok_pprocess_exit _ current tid state exit_status _ hstep hok
  | wait_blocked parent caller target hstep =>
    rcases uk_posix_process_wait_ok _ parent caller target _ hstep with hb | ⟨c, child, _, _, ho, _⟩
    · cases hb
      exact table_ok_block_caller _ parent caller target hok
    · simp only [reap] at ho
      cases ho
  | wait_reaped parent caller target pid exit_status hstep =>
    rcases uk_posix_process_wait_ok _ parent caller target _ hstep with hb | ⟨c, child, _, _, ho, _⟩
    · cases hb
    · exact (table_ok_reap _ parent caller c child pid exit_status _ ho.symm hok).1

/-- What a successful call of `pprocess_exit` was made on: a thread of a
process that has a record and has not terminated. -/
theorem pprocess_exit_ok_inv (st : system_state) (current tid : Nat)
    (state : posix_thread_state) (exit_status : Int) (out : exit_outcome)
    (h : pprocess_exit st current tid state exit_status = .ok out) :
    ∃ p proc, (state = .POSIX_THREAD_EXITED ∨ state = .POSIX_THREAD_KILLED) ∧
      st.pid_process tid = some p ∧ st.records p = some proc ∧
      (∃ th ∈ proc.threads, th.tid = tid) ∧ proc.terminated = false := by
  unfold pprocess_exit at h
  split at h
  · cases h
  · rename_i hstate
    cases htab : st.pid_process tid with
    | none => simp [htab] at h
    | some p =>
      simp only [htab] at h
      cases hrec : st.records p with
      | none => simp [hrec] at h
      | some proc =>
        simp only [hrec] at h
        split at h
        · cases h
        · rename_i hth
          split at h
          · cases h
          · rename_i hterm
            refine ⟨p, proc, ?_, rfl, hrec, not_not.mp hth, by simpa using hterm⟩
            by_cases he : state = .POSIX_THREAD_EXITED
            · exact Or.inl he
            · by_cases hk : state = .POSIX_THREAD_KILLED
              · exact Or.inr hk
              · exact absurd ⟨he, hk⟩ hstate

/-- A change of a record that keeps the identifier, `terminated` and the exit
status. -/
theorem map_keeps_zombie (f : posix_process → posix_process)
    (hf : ∀ r, (f r).pid = r.pid ∧ (f r).terminated = r.terminated ∧
      (f r).exit_status = r.exit_status)
    (o : Option posix_process) (r : posix_process) (h : o = some r)
    (hterm : r.terminated = true) :
    ∃ r', o.map f = some r' ∧ r'.pid = r.pid ∧ r'.terminated = true ∧
      r'.exit_status = r.exit_status :=
  ⟨f r, by rw [h]; rfl, (hf r).1, (hf r).2.1.trans hterm, (hf r).2.2⟩

/-- One operation that does not reap the process at `p` keeps the record of a
terminated process at `p`, with its exit status. -/
theorem zombie_stable_step (MAX_PID : Nat) (st st' : system_state) (reaped : Option Nat)
    (h : step MAX_PID st reaped st') (hok : table_ok st) (p : Nat) (r : posix_process)
    (hr : st.records p = some r) (hterm : r.terminated = true) (hnot : reaped ≠ some p) :
    ∃ r', st'.records p = some r' ∧ r'.pid = r.pid ∧ r'.terminated = true ∧
      r'.exit_status = r.exit_status := by
  obtain ⟨h1, _⟩ := hok
  obtain ⟨ra, rb, _, _⟩ := h1 p r hr
  cases h with
  | spawn_process parent id hstep =>
    unfold spawn_process at hstep
    split at hstep
    · cases hstep
    · rename_i hfree
      cases hpar : st.records parent with
      | none => simp [hpar] at hstep
      | some par =>
        simp only [hpar] at hstep
        split at hstep
        · cases hstep
        · rename_i hlive
          cases hstep
          have hpid : p ≠ id := by
            intro hx
            subst hx
            exact hfree (Or.inr (by rw [rb]; simp))
          have hpp : p ≠ parent := by
            intro hx
            subst hx
            rw [hr] at hpar
            cases hpar
            exact hlive hterm
          exact ⟨r, by simp [set_record, hpid, hpp, hr], rfl, hterm, rfl⟩
  | spawn_thread q id hstep =>
    unfold spawn_thread at hstep
    split at hstep
    · cases hstep
    · cases hq : st.records q with
      | none => simp [hq] at hstep
      | some proc =>
        simp only [hq] at hstep
        split at hstep
        · cases hstep
        · rename_i hlive
          cases hstep
          have hpq : p ≠ q := by
            intro hx
            subst hx
            rw [hr] at hq
            cases hq
            exact hlive hterm
          exact ⟨r, by simp [hpq, hr], rfl, hterm, rfl⟩
  | terminate current tid state exit_status hstep =>
    obtain ⟨q, proc, hstate, htab, hrec, hth, hlive⟩ :=
      pprocess_exit_ok_inv st current tid state exit_status _ hstep
    have hout := pprocess_exit_ok st current tid q proc state exit_status hstate htab hrec
      hth hlive
    rw [hout] at hstep
    cases hstep
    have hpq : p ≠ q := by
      intro hx
      subst hx
      rw [hr] at hrec
      cases hrec
      rw [hterm] at hlive
      cases hlive
    have hset : (set_record st q
        ⟨proc.pid, proc.parent, proc.children, exit_threads tid state proc.threads, true,
          exit_status⟩).records p = some r := by
      simp [set_record, hpq, hr]
    obtain ⟨r', e1, e2, _, e4, e5⟩ := reparent_children_keeps q proc.children _ p r hset
    refine ⟨r', ?_, e2, e4.trans hterm, e5⟩
    show (notify_parent _ _ _).records p = _
    rw [(notify_parent_records _ _ _).1]
    exact e1
  | wait_blocked parent caller target hstep =>
    rcases uk_posix_process_wait_ok _ parent caller target _ hstep with hb | ⟨c, child, _, _, ho, _⟩
    · cases hb
      simp only [block_caller, modify_record_records]
      by_cases hpp : p = parent
      · subst hpp
        rw [if_pos rfl]
        refine map_keeps_zombie _ ?_ _ r hr hterm
        intro x
        exact ⟨rfl, rfl, rfl⟩
      · exact ⟨r, by rw [if_neg hpp]; exact hr, rfl, hterm, rfl⟩
    · simp only [reap] at ho
      cases ho
  | wait_reaped parent caller target pid exit_status hstep =>
    rcases uk_posix_process_wait_ok _ parent caller target _ hstep with hb | ⟨c, child, hc, _, ho, _⟩
    · cases hb
    · simp only [reap, wait_outcome.reaped.injEq] at ho
      obtain ⟨e1, _, e3⟩ := ho
      have hcp : p ≠ c := by
        intro hx
        subst hx
        rw [hr] at hc
        cases hc
        apply hnot
        rw [e1, ra]
      subst e3
      simp only [modify_record_records]
      by_cases hpp : p = parent
      · subst hpp
        rw [if_neg hcp, if_pos rfl]
        refine map_keeps_zombie _ ?_ _ r hr hterm
        intro x
        exact ⟨rfl, rfl, rfl⟩
      · exact ⟨r, by rw [if_neg hcp, if_neg hpp]; exact hr, rfl, hterm, rfl⟩

/-- A sequence of operations none of which reaps the process at `p` keeps
table and records in agreement and keeps the record of a terminated process at
`p`, with its exit status. -/
theorem zombie_stable_run (MAX_PID : Nat) (p : Nat) (st st' : system_state)
    (h : runs_without_reaping MAX_PID p st st') (hok : table_ok st) (r : posix_process)
    (hr : st.records p = some r) (hterm : r.terminated = true) :
    table_ok st' ∧ ∃ r', st'.records p = some r' ∧ r'.pid = r.pid ∧ r'.terminated = true ∧
      r'.exit_status = r.exit_status := by
  induction h with
  | refl => exact ⟨hok, r, hr, rfl, hterm, rfl⟩
  | tail _ hstep hnot ih =>
    obtain ⟨hok1, r1, hr1, e1, e2, e3⟩ := ih
    obtain ⟨r2, hr2, f1, f2, f3⟩ := zombie_stable_step MAX_PID _ _ _ hstep hok1 p r1 hr1 e2 hnot
    exact ⟨table_ok_step MAX_PID _ _ _ hstep hok1, r2, hr2, f1.trans e1, f2, f3.trans e3⟩

/-- Table and records agree in the state of the scenario. -/
theorem table_ok_scenario : table_ok scenario_state := by
  constructor
  · intro p r hr
    simp only [scenario_state] at hr
    split_ifs at hr with h1 h2 h5 h8 h9 <;> cases hr <;> subst_vars <;>
      simp [identifiers_of, scenario_state]
  · intro i p hi
    simp only [scenario_state] at hi
    split_ifs at hi with h1 h2 h5 h8 h9 <;> cases hi
    · exact ⟨_, rfl, Or.inl h1⟩
    · exact ⟨_, rfl, Or.inl h2⟩
    · refine ⟨_, rfl, ?_⟩
      rcases h5 with h | h | h <;> subst h <;> simp [identifiers_of]
    · exact ⟨_, rfl, Or.inl h8⟩
    · exact ⟨_, rfl, Or.inl h9⟩

/-- C15: after `pprocess_exit` on a thread of a live process P, the record of P
is still found in the identifier table under the identifier of P, with
`terminated` set and with `exit_status` equal to the status passed; and so it
stays over every sequence of operations none of which reaps P. -/
theorem pprocess_exit_leaves_zombie (MAX_PID : Nat) (st : system_state)
    (current tid p : Nat) (proc : posix_process) (state : posix_thread_state)
    (exit_status : Int)
    (hstate : state = .POSIX_THREAD_EXITED ∨ state = .POSIX_THREAD_KILLED)
    (htab : st.pid_process tid = some p) (hrec : st.records p = some proc)
    (hth : ∃ th ∈ proc.threads, th.tid = tid) (hlive : proc.terminated = false)
    (hok : table_ok st) :
    ∃ out, pprocess_exit st current tid state exit_status = .ok out ∧
      (∃ proc', pid2pprocess out.st proc.pid = some proc' ∧ proc'.pid = proc.pid ∧
        proc'.terminated = true ∧ proc'.exit_status = exit_status) ∧
      ∀ st', runs_without_reaping MAX_PID proc.pid out.st st' →
        ∃ proc', pid2pprocess st' proc.pid = some proc' ∧ proc'.pid = proc.pid ∧
          proc'.terminated = true ∧ proc'.exit_status = exit_status := by
  obtain ⟨out, proc', hout, _, _, _, hrec', hpid', _, hterm, hstatus⟩ :=
    pprocess_exit_record st current tid p proc state exit_status hstate htab hrec hth hlive
  have hp : proc.pid = p := (hok.1 p proc hrec).1
  have hok' : table_ok out.st :=
    table_ok_pprocess_exit st current tid state exit_status out hout hok
  have hrun : ∀ st', runs_without_reaping MAX_PID proc.pid out.st st' →
      ∃ r, pid2pprocess st' proc.pid = some r ∧ r.pid = proc.pid ∧
        r.terminated = true ∧ r.exit_status = exit_status := by
    intro st' hrun
    rw [hp] at hrun ⊢
    obtain ⟨hok2, r2, hr2, e1, e2, e3⟩ :=
      zombie_stable_run MAX_PID p out.st st' hrun hok' proc' hrec' hterm
    refine ⟨r2, ?_, by rw [e1, hpid', hp], e2, e3.trans hstatus⟩
    simp only [pid2pprocess, (hok2.1 p r2 hr2).2.1, Option.bind_some]
    exact hr2
  exact ⟨out, hout, hrun out.st (runs_without_reaping.refl out.st), hrun⟩

/-- Instance of C15: the scenario, T1 (thread 5) exits with the status 7. -/
theorem pprocess_exit_leaves_zombie_witness :
    (posix_thread_state.POSIX_THREAD_EXITED = .POSIX_THREAD_EXITED ∨
      posix_thread_state.POSIX_THREAD_EXITED = .POSIX_THREAD_KILLED) ∧
    scenario_state.pid_process 5 = some 5 ∧
    scenario_state.records 5 = some ⟨5, some 2, [8, 9],
      [⟨5, 5, .POSIX_THREAD_RUNNING, 0⟩, ⟨6, 5, .POSIX_THREAD_RUNNING, 0⟩,
        ⟨7, 5, .POSIX_THREAD_RUNNING, 0⟩], false, 0⟩ ∧
    table_ok scenario_state ∧
    ∃ out, pprocess_exit scenario_state 5 5 .POSIX_THREAD_EXITED 7 = .ok out ∧
      (∃ proc', pid2pprocess out.st 5 = some proc' ∧ proc'.pid = 5 ∧
        proc'.terminated = true ∧ proc'.exit_status = 7) ∧
      ∀ st', runs_without_reaping 9 5 out.st st' →
        ∃ proc', pid2pprocess st' 5 = some proc' ∧ proc'.pid = 5 ∧
          proc'.terminated = true ∧ proc'.exit_status = 7 :=
  ⟨Or.inl rfl, rfl, rfl, table_ok_scenario,
    pprocess_exit_leaves_zombie 9 scenario_state 5 5 5
      ⟨5, some 2, [8, 9],
        [⟨5, 5, .POSIX_THREAD_RUNNING, 0⟩, ⟨6, 5, .POSIX_THREAD_RUNNING, 0⟩,
          ⟨7, 5, .POSIX_THREAD_RUNNING, 0⟩], false, 0⟩
      .POSIX_THREAD_EXITED 7 (Or.inl rfl) rfl rfl
      ⟨⟨5, 5, .POSIX_THREAD_RUNNING, 0⟩, by simp, rfl⟩ rfl table_ok_scenario⟩

/-- C17: when the wait for the child with the identifier `c` returns, it
returns the identifier `c` and the exit status in the record of that child,
the record is that of a child of `parent` and has `terminated` set (a child
that has not terminated is not reaped); when the child was terminated by
`pprocess_exit` with a status and has not been reaped since, the status
returned is that status.  In the scenario the wait of the parent 2 for the
child 5 blocks before the termination, and after T1 has called `pprocess_exit`
with `Exited` and 7 it returns (5, 7). -/
theorem wait_returns_exit_status_of_terminated_child (st : system_state)
    (parent caller c pid : Nat) (exit_status : Int) (st' : system_state)
    (h : uk_posix_process_wait st parent caller (c : Int) =
      .ok (.reaped pid exit_status st')) :
    (pid = c ∧ ∃ child, pid2pprocess st c = some child ∧ child.pid = c ∧
      child.parent = some parent ∧ child.terminated = true ∧
      child.exit_status = exit_status) ∧
    (∀ (MAX_PID : Nat) (st0 : system_state) (current tid : Nat)
        (state : posix_thread_state) (status : Int) (out : exit_outcome),
      table_ok st0 → st0.pid_process tid = some c →
      pprocess_exit st0 current tid state status = .ok out →
      runs_without_reaping MAX_PID c out.st st → exit_status = status) ∧
    (∃ st1 out st3,
      uk_posix_process_wait scenario_state 2 2 5 = .ok (.blocked st1) ∧
      pprocess_exit st1 5 5 .POSIX_THREAD_EXITED 7 = .ok out ∧
      uk_posix_process_wait out.st 2 2 5 = .ok (.reaped 5 7 st3)) := by
  have hfirst : pid = c ∧ ∃ child, pid2pprocess st c = some child ∧ child.pid = c ∧
      child.parent = some parent ∧ child.terminated = true ∧
      child.exit_status = exit_status := by
    rcases uk_posix_process_wait_ok st parent caller c _ h with hb |
      ⟨a, child, hrec, hterm, ho, ht⟩
    · cases hb
    · have hnotany : ((c : Int) = UK_PID_WAIT_ANY) → False := by
        intro hc
        simp only [UK_PID_WAIT_ANY] at hc
        omega
      rcases ht with hany | ⟨_, htab, hpid, hparent⟩
      · exact absurd hany.1 hnotany
      · simp only [Int.toNat_ofNat] at htab hpid
        simp only [reap, wait_outcome.reaped.injEq] at ho
        obtain ⟨h1, h2, _⟩ := ho
        refine ⟨by rw [h1, hpid], child, ?_, hpid, hparent, hterm, h2.symm⟩
        simp only [pid2pprocess, htab, Option.bind_some]
        exact hrec
  refine ⟨hfirst, ?_, _, _, _, rfl, rfl, rfl⟩
  intro MAX_PID st0 current tid state status out hok0 htab0 hexit hrun
  obtain ⟨p, proc, hstate, htab, hrec, hth, hlive⟩ :=
    pprocess_exit_ok_inv st0 current tid state status out hexit
  have hpc : p = c := by
    rw [htab0] at htab
    exact (Option.some.inj htab).symm
  subst hpc
  obtain ⟨out', proc', hout, _, _, _, hrec', _, _, hterm', hstatus'⟩ :=
    pprocess_exit_record st0 current tid p proc state status hstate htab hrec hth hlive
  rw [hexit] at hout
  cases hout
  have hok' : table_ok out.st :=
    table_ok_pprocess_exit st0 current tid state status out hexit hok0
  obtain ⟨hok2, r2, hr2, _, _, e3⟩ :=
    zombie_stable_run MAX_PID p out.st st hrun hok' proc' hrec' hterm'
  obtain ⟨_, child, hlook, _, _, _, hchild⟩ := hfirst
  simp only [pid2pprocess, (hok2.1 p r2 hr2).2.1] at hlook
  have hlook' : st.records p = some child := hlook
  rw [hr2] at hlook'
  cases hlook'
  rw [← hchild, e3, hstatus']

/-- Instance of C17: in the scenario the thread 2 of the parent waits for the
child 5 and blocks, T1 calls `pprocess_exit` with `Exited` and 7, the init
process spawns the process 3, and then the wait of the thread 2 for the child 5
returns (5, 7): the state that waits is the one the termination and one more
operation left, and 7 is the status given at the termination. -/
theorem wait_returns_exit_status_of_terminated_child_witness :
    ∃ st1 out st2 st',
      uk_posix_process_wait scenario_state 2 2 5 = .ok (.blocked st1) ∧
      pprocess_exit st1 5 5 .POSIX_THREAD_EXITED 7 = .ok out ∧
      spawn_process 9 out.st 1 3 = .ok st2 ∧
      uk_posix_process_wait st2 2 2 ((5 : Nat) : Int) = .ok (.reaped 5 7 st') ∧
      table_ok st1 ∧ st1.pid_process 5 = some 5 ∧
      runs_without_reaping 9 5 out.st st2 ∧
      ((5 = 5 ∧ ∃ child, pid2pprocess st2 5 = some child ∧ child.pid = 5 ∧
        child.parent = some 2 ∧ child.terminated = true ∧ child.exit_status = 7) ∧
      (∀ (MAX_PID : Nat) (st0 : system_state) (current tid : Nat)
          (state : posix_thread_state) (status : Int) (out : exit_outcome),
        table_ok st0 → st0.pid_process tid = some 5 →
        pprocess_exit st0 current tid state status = .ok out →
        runs_without_reaping MAX_PID 5 out.st st2 → (7 : Int) = status) ∧
      (∃ st1 out st3,
        uk_posix_process_wait scenario_state 2 2 5 = .ok (.blocked st1) ∧
        pprocess_exit st1 5 5 .POSIX_THREAD_EXITED 7 = .ok out ∧
        uk_posix_process_wait out.st 2 2 5 = .ok (.reaped 5 7 st3))) := by
  refine ⟨_, _, _, _, rfl, rfl, rfl, rfl, ?_, rfl, ?_, ?_⟩
  · exact table_ok_block_caller scenario_state 2 2 5 table_ok_scenario
  · exact runs_without_reaping.tail (runs_without_reaping.refl _)
      (step.spawn_process 1 3 rfl) (by simp)
  · exact wait_returns_exit_status_of_terminated_child _ 2 2 5 5 7 _ rfl

/-! ## The process tree in the reachable states -/

/-- The order of the process tree depends on the parent and the children set
of the records only. -/
theorem tree_ok_of_same_links (st st' : system_state)
    (hlinks : ∀ q, (st'.records q).map (fun r => (r.parent, r.children)) =
      (st.records q).map (fun r => (r.parent, r.children)))
    (h : tree_ok st) : tree_ok st' := by
  have hback : ∀ q r', st'.records q = some r' →
      ∃ r, st.records q = some r ∧ r.parent = r'.parent ∧ r.children = r'.children := by
    intro q r' hr'
    have hq := hlinks q
    rw [hr'] at hq
    cases hr : st.records q with
    | none => rw [hr] at hq; cases hq
    | some r =>
      rw [hr] at hq
      simp only [Option.map_some', Option.some.injEq, Prod.mk.injEq] at hq
      exact ⟨r, rfl, hq.1.symm, hq.2.symm⟩
  have hforth : ∀ q r, st.records q = some r →
      ∃ r', st'.records q = some r' ∧ r'.parent = r.parent ∧ r'.children = r.children := by
    intro q r hr
    have hq := hlinks q
    rw [hr] at hq
    cases hr' : st'.records q with
    | none => rw [hr'] at hq; cases hq
    | some r' =>
      rw [hr'] at hq
      simp only [Option.map_some', Option.some.injEq, Prod.mk.injEq] at hq
      exact ⟨r', rfl, hq.1, hq.2⟩
  obtain ⟨⟨ini, hini, hnone⟩, h2, h3⟩ := h
  refine ⟨?_, ?_, ?_⟩
  · obtain ⟨ini', hini', e1, _⟩ := hforth _ ini hini
    exact ⟨ini', hini', e1.trans hnone⟩
  · intro q r' hr'
    obtain ⟨r, hr, _, e2⟩ := hback q r' hr'
    rw [← e2]
    exact h2 q r hr
  · intro q r' c hr' hc
    obtain ⟨r, hr, _, e2⟩ := hback q r' hr'
    rw [← e2] at hc
    obtain ⟨rc, hrc, hpar⟩ := h3 q r c hr hc
    obtain ⟨rc', hrc', e1, _⟩ := hforth c rc hrc
    exact ⟨rc', hrc', e1.trans hpar⟩

/-- The process tree is in order in the boot state. -/
theorem tree_ok_boot : tree_ok boot_state := by
  refine ⟨⟨_, rfl, rfl⟩, ?_, ?_⟩
  · intro p r hr
    simp only [boot_state] at hr
    split_ifs at hr
    cases hr
    exact List.nodup_nil
  · intro p r c hr hc
    simp only [boot_state] at hr
    split_ifs at hr
    cases hr
    cases hc

/-- The reparenting of a child of the process at `p` keeps the process tree in
order. -/
theorem tree_ok_reparent_child (st : system_state) (p c : Nat) (r : posix_process)
    (hr : st.records p = some r) (hc : c ∈ r.children) (h : tree_ok st) :
    tree_ok (reparent_child st p c) := by
  obtain ⟨⟨ini, hini, hnone⟩, h2, h3⟩ := h
  obtain ⟨rc, hrc, hcpar⟩ := h3 p r c hr hc
  have hcinit : init_process ≠ c := by
    intro hx
    rw [← hx, hini] at hrc
    cases hrc
    rw [hnone] at hcpar
    cases hcpar
  refine ⟨?_, ?_, ?_⟩
  · exact ⟨_, reparent_child_record_of st p c init_process ini hini, by
      show (if init_process = c then some init_process else ini.parent) = none
      rw [if_neg hcinit]
      exact hnone⟩
  · intro q r' hr'
    cases hq : st.records q with
    | none =>
      rw [reparent_child_records, hq] at hr'
      cases hr'
    | some rq =>
      rw [reparent_child_record_of st p c q rq hq] at hr'
      cases hr'
      have hn := h2 q rq hq
      show (if q = init_process then
          List.insert c (if q = p then rq.children.erase c else rq.children)
        else if q = p then rq.children.erase c else rq.children).Nodup
      split
      · apply List.Nodup.insert
        split
        · exact hn.erase c
        · exact hn
      · split
        · exact hn.erase c
        · exact hn
  · intro q r' d hr' hd
    cases hq : st.records q with
    | none =>
      rw [reparent_child_records, hq] at hr'
      cases hr'
    | some rq =>
      rw [reparent_child_record_of st p c q rq hq] at hr'
      cases hr'
      have hn := h2 q rq hq
      have hd' : d ∈ (if q = init_process then
          List.insert c (if q = p then rq.children.erase c else rq.children)
        else if q = p then rq.children.erase c else rq.children) := hd
      by_cases hdc : d = c
      · subst hdc
        by_cases hqi : q = init_process
        · subst hqi
          exact ⟨_, reparent_child_record_of st p d d rc hrc, by simp⟩
        · rw [if_neg hqi] at hd'
          exfalso
          by_cases hqp : q = p
          · rw [if_pos hqp] at hd'
            exact (List.Nodup.mem_erase_iff hn).1 hd' |>.1 rfl
          · rw [if_neg hqp] at hd'
            obtain ⟨rd, hrd, hdpar⟩ := h3 q rq d hq hd'
            rw [hrc] at hrd
            cases hrd
            rw [hcpar] at hdpar
            exact hqp (Option.some.inj hdpar).symm
      · have hmem : d ∈ rq.children := by
          by_cases hqi : q = init_process
          · rw [if_pos hqi] at hd'
            rcases List.mem_insert_iff.1 hd' with hx | hx
            · exact absurd hx hdc
            · by_cases hqp : q = p
              · rw [if_pos hqp] at hx
                exact List.mem_of_mem_erase hx
              · rw [if_neg hqp] at hx
                exact hx
          · rw [if_neg hqi] at hd'
            by_cases hqp : q = p
            · rw [if_pos hqp] at hd'
              exact List.mem_of_mem_erase hd'
            · rw [if_neg hqp] at hd'
              exact hd'
        obtain ⟨rd, hrd, hdpar⟩ := h3 q rq d hq hmem
        exact ⟨_, reparent_child_record_of st p c d rd hrd, by
          show (if d = c then some init_process else rd.parent) = some q
          rw [if_neg hdc]
          exact hdpar⟩

/-- Step 4 of the termination protocol on children of the process at `p` keeps
the process tree in order. -/
theorem tree_ok_reparent_children (p : Nat) (cs : List Nat) :
    ∀ st : system_state, tree_ok st → cs.Nodup →
      (∀ c ∈ cs, ∃ r, st.records p = some r ∧ c ∈ r.children) →
      tree_ok (reparent_children st p cs) := by
  induction cs with
  | nil => intro st h _ _; exact h
  | cons c cs ih =>
    intro st h hnodup hmem
    obtain ⟨r, hr, hc⟩ := hmem c (List.mem_cons_self c cs)
    have hn := List.nodup_cons.1 hnodup
    apply ih (reparent_child st p c) (tree_ok_reparent_child st p c r hr hc h) hn.2
    intro d hd
    obtain ⟨r2, hr2, hd2⟩ := hmem d (List.mem_cons_of_mem c hd)
    rw [hr] at hr2
    cases hr2
    have hdc : d ≠ c := by
      intro hx
      subst hx
      exact hn.1 hd
    refine ⟨_, reparent_child_record_of st p c p r hr, ?_⟩
    show d ∈ (if p = init_process then
        List.insert c (if p = p then r.children.erase c else r.children)
      else if p = p then r.children.erase c else r.children)
    rw [if_pos rfl]
    split
    · exact List.mem_insert_of_mem ((List.mem_erase_of_ne hdc).2 hd2)
    · exact (List.mem_erase_of_ne hdc).2 hd2

/-- The termination protocol keeps the process tree in order. -/
theorem tree_ok_pprocess_exit (st : system_state) (current tid : Nat)
    (state : posix_thread_state) (exit_status : Int) (out : exit_outcome)
    (h : pprocess_exit st current tid state exit_status = .ok out) (hok : tree_ok st) :
    tree_ok out.st := by
  obtain ⟨p, proc, hstate, htab, hrec, hth, hlive⟩ :=
    pprocess_exit_ok_inv st current tid state exit_status out h
  rw [pprocess_exit_ok st current tid p proc state exit_status hstate htab hrec hth hlive] at h
  cases h
  have hset : tree_ok (set_record st p
      ⟨proc.pid, proc.parent, proc.children, exit_threads tid state proc.threads, true,
        exit_status⟩) := by
    refine tree_ok_of_same_links st _ ?_ hok
    intro q
    by_cases hq : q = p
    · subst hq
      simp [set_record, hrec]
    · simp [set_record, hq]
  have hfold := tree_ok_reparent_children p proc.children _ hset (hok.2.1 p proc hrec)
    (fun c hc => ⟨⟨proc.pid, proc.parent, proc.children,
      exit_threads tid state proc.threads, true, exit_status⟩, by simp [set_record], hc⟩)
  refine tree_ok_of_same_links _ _ ?_ hfold
  intro q
  show ((notify_parent _ _ _).records q).map _ = _
  rw [(notify_parent_records _ _ _).1]

/-- The reaping of a child of `parent` keeps the process tree in order. -/
theorem tree_ok_reap (st : system_state) (parent caller c : Nat) (child : posix_process)
    (pid : Nat) (exit_status : Int) (st' : system_state)
    (h : reap st parent caller c child = .reaped pid exit_status st')
    (hc : st.records c = some child) (hchild : child.parent = some parent)
    (hok : tree_ok st) : tree_ok st' := by
  simp only [reap, wait_outcome.reaped.injEq] at h
  obtain ⟨_, _, hst⟩ := h
  subst hst
  obtain ⟨⟨ini, hini, hnone⟩, h2, h3⟩ := hok
  have hci : init_process ≠ c := by
    intro hx
    rw [← hx, hini] at hc
    cases hc
    rw [hnone] at hchild
    cases hchild
  have hrecs : ∀ q r, st.records q = some r → q ≠ c →
      ∃ r', (if q = c then none else (modify_record st parent (fun r =>
          ⟨r.pid, r.parent, r.children.erase c,
            r.threads.map (fun th =>
              if th.tid = caller then
                ⟨th.tid, th.process, .POSIX_THREAD_RUNNING, th.wait_pid⟩
              else th),
            r.terminated, r.exit_status⟩)).records q) = some r' ∧ r'.parent = r.parent ∧
        r'.children = if q = parent then r.children.erase c else r.children := by
    intro q r hr hqc
    rw [if_neg hqc, modify_record_records]
    by_cases hqp : q = parent
    · subst hqp
      rw [if_pos rfl, hr, if_pos rfl]
      exact ⟨_, rfl, rfl, rfl⟩
    · rw [if_neg hqp, if_neg hqp]
      exact ⟨r, hr, rfl, rfl⟩
  refine ⟨?_, ?_, ?_⟩
  · obtain ⟨r', hr', e1, _⟩ := hrecs init_process ini hini hci
    exact ⟨r', hr', e1.trans hnone⟩
  · intro q r' hr'
    simp only at hr'
    by_cases hqc : q = c
    · simp [hqc] at hr'
    · cases hq : st.records q with
      | none =>
        rw [if_neg hqc, modify_record_records] at hr'
        by_cases hqp : q = parent
        · subst hqp
          simp [hq] at hr'
        · rw [if_neg hqp, hq] at hr'
          cases hr'
      | some r =>
        obtain ⟨r2, hr2, _, e2⟩ := hrecs q r hq hqc
        rw [hr2] at hr'
        cases hr'
        rw [e2]
        split
        · exact (h2 q r hq).erase c
        · exact h2 q r hq
  · intro q r' d hr' hd
    simp only at hr'
    by_cases hqc : q = c
    · simp [hqc] at hr'
    · cases hq : st.records q with
      | none =>
        rw [if_neg hqc, modify_record_records] at hr'
        by_cases hqp : q = parent
        · subst hqp
          simp [hq] at hr'
        · rw [if_neg hqp, hq] at hr'
          cases hr'
      | some r =>
        obtain ⟨r2, hr2, _, e2⟩ := hrecs q r hq hqc
        rw [hr2] at hr'
        cases hr'
        rw [e2] at hd
        have hmem : d ∈ r.children ∧ d ≠ c := by
          by_cases hqp : q = parent
          · rw [if_pos hqp] at hd
            have := (List.Nodup.mem_erase_iff (h2 q r hq)).1 hd
            exact ⟨this.2, this.1⟩
          · rw [if_neg hqp] at hd
            refine ⟨hd, ?_⟩
            intro hx
            subst hx
            obtain ⟨rd, hrd, hdpar⟩ := h3 q r d hq hd
            rw [hc] at hrd
            cases hrd
            rw [hchild] at hdpar
            exact hqp (Option.some.inj hdpar).symm
        obtain ⟨rd, hrd, hdpar⟩ := h3 q r d hq hmem.1
        obtain ⟨rd', hrd', e1, _⟩ := hrecs d rd hrd hmem.2
        exact ⟨rd', hrd', e1.trans hdpar⟩

/-- The spawning of a process keeps the process tree in order. -/
theorem tree_ok_spawn_process (MAX_PID : Nat) (st st' : system_state) (parent id : Nat)
    (h : spawn_process MAX_PID st parent id = .ok st') (htable : table_ok st)
    (hok : tree_ok st) : tree_ok st' := by
  unfold spawn_process at h
  split at h
  · cases h
  · rename_i hfree
    have hnone : st.pid_process id = none := by
      by_contra hx
      exact hfree (Or.inr hx)
    have hfresh : ∀ q r, st.records q = some r → q ≠ id := by
      intro q r hr hx
      subst hx
      rw [(htable.1 q r hr).2.1] at hnone
      cases hnone
    cases hpar : st.records parent with
    | none => simp [hpar] at h
    | some par =>
      simp only [hpar] at h
      split at h
      · cases h
      · cases h
        obtain ⟨⟨ini, hini, hinone⟩, h2, h3⟩ := hok
        have hrecs : ∀ q r, st.records q = some r →
            ∃ r', (if q = id then
                some (⟨id, some parent, [], [⟨id, id, .POSIX_THREAD_RUNNING, 0⟩], false, 0⟩ :
                  posix_process)
              else (set_record st parent
                ⟨par.pid, par.parent, List.insert id par.children, par.threads,
                  par.terminated, par.exit_status⟩).records q) = some r' ∧
              r'.parent = r.parent ∧
              r'.children = if q = parent then List.insert id r.children else r.children := by
          intro q r hr
          rw [if_neg (hfresh q r hr)]
          by_cases hqp : q = parent
          · subst hqp
            rw [hpar] at hr
            cases hr
            refine ⟨⟨par.pid, par.parent, List.insert id par.children, par.threads,
              par.terminated, par.exit_status⟩, ?_, rfl, ?_⟩
            · simp [set_record]
            · simp
          · exact ⟨r, by simp [set_record, hqp, hr], rfl, by simp [hqp]⟩
        have hold : ∀ q r', (if q = id then
                some (⟨id, some parent, [], [⟨id, id, .POSIX_THREAD_RUNNING, 0⟩], false, 0⟩ :
                  posix_process)
              else (set_record st parent
                ⟨par.pid, par.parent, List.insert id par.children, par.threads,
                  par.terminated, par.exit_status⟩).records q) = some r' → q ≠ id →
            ∃ r, st.records q = some r := by
          intro q r' hr' hq
          rw [if_neg hq] at hr'
          by_cases hqp : q = parent
          · exact ⟨par, by rw [hqp]; exact hpar⟩
          · simp only [set_record, if_neg hqp] at hr'
            exact ⟨r', hr'⟩
        refine ⟨?_, ?_, ?_⟩
        · obtain ⟨r', hr', e1, _⟩ := hrecs init_process ini hini
          exact ⟨r', hr', e1.trans hinone⟩
        · intro q r' hr'
          simp only at hr'
          by_cases hq : q = id
          · rw [if_pos hq] at hr'
            cases hr'
            exact List.nodup_nil
          · obtain ⟨r, hr⟩ := hold q r' hr' hq
            obtain ⟨r2, hr2, _, e2⟩ := hrecs q r hr
            rw [hr2] at hr'
            cases hr'
            rw [e2]
            split
            · exact (h2 q r hr).insert
            · exact h2 q r hr
        · intro q r' d hr' hd
          simp only at hr'
          by_cases hq : q = id
          · rw [if_pos hq] at hr'
            cases hr'
            cases hd
          · obtain ⟨r, hr⟩ := hold q r' hr' hq
            obtain ⟨r2, hr2, _, e2⟩ := hrecs q r hr
            rw [hr2] at hr'
            cases hr'
            rw [e2] at hd
            by_cases hdid : d = id
            · subst hdid
              have hqp : q = parent := by
                by_contra hx
                rw [if_neg hx] at hd
                obtain ⟨rd, hrd, _⟩ := h3 q r d hr hd
                exact hfresh d rd hrd rfl
              exact ⟨_, if_pos rfl, by rw [hqp]⟩
            · have hmem : d ∈ r.children := by
                by_cases hqp : q = parent
                · rw [if_pos hqp] at hd
                  rcases List.mem_insert_iff.1 hd with hx | hx
                  · exact absurd hx hdid
                  · exact hx
                · rw [if_neg hqp] at hd
                  exact hd
              obtain ⟨rd, hrd, hdpar⟩ := h3 q r d hr hmem
              obtain ⟨rd', hrd', e1, _⟩ := hrecs d rd hrd
              exact ⟨rd', hrd', e1.trans hdpar⟩

/-- The spawning of a thread keeps the process tree in order. -/
theorem tree_ok_spawn_thread (MAX_PID : Nat) (st st' : system_state) (p id : Nat)
    (h : spawn_thread MAX_PID st p id = .ok st') (hok : tree_ok st) : tree_ok st' := by
  unfold spawn_thread at h
  split at h
  · cases h
  · cases hrec : st.records p with
    | none => simp [hrec] at h
    | some proc =>
      simp only [hrec] at h
      split at h
      · cases h
      · cases h
        refine tree_ok_of_same_links st _ ?_ hok
        intro q
        by_cases hq : q = p
        · subst hq
          simp [hrec]
        · simp [hq]

/-- Blocking the caller of a wait keeps the process tree in order. -/
theorem tree_ok_block_caller (st : system_state) (parent caller : Nat) (target : Int)
    (hok : tree_ok st) : tree_ok (block_caller st parent caller target) := by
  refine tree_ok_of_same_links st _ ?_ hok
  intro q
  simp only [block_caller, modify_record_records]
  by_cases hq : q = parent
  · subst hq
    rw [if_pos rfl]
    cases st.records q <;> rfl
  · rw [if_neg hq]

/-- In every reachable state table and records agree and the process tree is
in order. -/
theorem invariants_of_reachable (MAX_PID : Nat) (st : system_state)
    (h : reachable MAX_PID st) : table_ok st ∧ tree_ok st := by
  induction h with
  | boot => exact ⟨table_ok_boot, tree_ok_boot⟩
  | spawn_process parent id _ hstep ih =>
    exact ⟨table_ok_spawn_process MAX_PID _ _ parent id hstep ih.1,
      tree_ok_spawn_process MAX_PID _ _ parent id hstep ih.1 ih.2⟩
  | spawn_thread p id _ hstep ih =>
    exact ⟨table_ok_spawn_thread MAX_PID _ _ p id hstep ih.1,
      tree_ok_spawn_thread MAX_PID _ _ p id hstep ih.2⟩
  | terminate current tid state exit_status _ hstep ih =>
    exact ⟨table_ok_pprocess_exit _ current tid state exit_status _ hstep ih.1,
      tree_ok_pprocess_exit _ current tid state exit_status _ hstep ih.2⟩
  | wait_blocked parent caller target _ hstep ih =>
    rcases uk_posix_process_wait_ok _ parent caller target _ hstep with hb | ⟨c, child, _, _, ho, _⟩
    · cases hb
      exact ⟨table_ok_block_caller _ parent caller target ih.1,
        tree_ok_block_caller _ parent caller target ih.2⟩
    · simp only [reap] at ho
      cases ho
  | wait_reaped parent caller target pid exit_status _ hstep ih =>
    rcases uk_posix_process_wait_ok _ parent caller target _ hstep with hb |
      ⟨c, child, hc, _, ho, hkind⟩
    · cases hb
    · have hchild : child.parent = some parent := by
        rcases hkind with ⟨_, par, hpar, hmem⟩ | ⟨_, _, _, hp⟩
        · obtain ⟨rc, hrc, hpc⟩ := ih.2.2.2 parent par c hpar hmem
          rw [hc] at hrc
          cases hrc
          exact hpc
        · exact hp
      exact ⟨(table_ok_reap _ parent caller c child pid exit_status _ ho.symm ih.1).1,
        tree_ok_reap _ parent caller c child pid exit_status _ ho.symm hc hchild ih.2⟩

/-- In a reachable state the children set of the init process holds no record
twice and every child of a process has a record: the suppositions of the
statement on reparenting hold. -/
theorem reparenting_suppositions_of_reachable (MAX_PID : Nat) (st : system_state)
    (h : reachable MAX_PID st) :
    init_children_nodup st ∧
    ∀ p proc, st.records p = some proc → ∀ c ∈ proc.children, ∃ r, st.records c = some r := by
  obtain ⟨_, ⟨ini, hini, _⟩, h2, h3⟩ := invariants_of_reachable MAX_PID st h
  refine ⟨⟨ini, hini, h2 _ ini hini⟩, ?_⟩
  intro p proc hrec c hc
  obtain ⟨rc, hrc, _⟩ := h3 p proc c hrec hc
  exact ⟨rc, hrc⟩

/-! ## `break` in the body of the iteration macros -/

/-- C25 (evaluation of the code): on a table of three live slots and a body
that counts its runs and executes `break` each time, `uk_process_foreach` runs
the body at index 0 and, after that `break`, again at index 2; the same holds
for `uk_process_foreach_child` when the three records are children of
`_pparent`. -/
theorem uk_process_foreach_runs_body_after_break :
    (uk_process_foreach [some 10, some 20, some 30]
        (fun (n : Nat) _ => (n + 1, true)) 10 0).map (fun s => (s.st, s.visited)) =
      some (2, [(0, 10), (2, 30)]) ∧
    (uk_process_foreach_child [some 10, some 20, some 30]
        (fun p => ⟨p, some 1, [], [], false, 0⟩) (some 1)
        (fun (n : Nat) _ => (n + 1, true)) 10 0).map (fun s => (s.st, s.visited)) =
      some ((2, [10, 30]), [(0, 10), (2, 30)]) := by
  constructor <;> rfl

end PosixProcess
